import Mathlib

/-!
Verification development for the account-swap core of a VS Code status-bar
extension (source: `extension.js` / the unnamed sibling module).  The on-disk
state is modelled explicitly and every JS function of the swap subsystem is
translated into an executable Lean definition over that state.

Strings are modelled as `List Char` (`Str`), file contents verbatim.  JSON
documents are modelled by the inductive `JVal`; `jsonStringify`/`jsonParse`
model `JSON.stringify`/`JSON.parse` with these documented restrictions:
numbers are decimal integers (no fraction/exponent/NaN in the documents the
claims quantify over), string escapes cover the characters the serializer
itself emits, and `JSON.stringify(·, null, 2)`'s cosmetic indentation is not
reproduced (no claim observes whitespace of a JSON file).
-/

set_option maxHeartbeats 1000000
set_option maxRecDepth 8000
set_option linter.unusedVariables false
set_option linter.unnecessarySeqFocus false

namespace SwapCore

abbrev Str := List Char

/-- Whitespace recognised by the JSON reader. -/
def isWs (c : Char) : Bool :=
  c = ' ' || c = '\n' || c = '\t' || c = '\r'

/-- Drop leading JSON whitespace. -/
def skipWs : Str → Str
  | [] => []
  | c :: r => if isWs c then skipWs r else c :: r

/-- Decimal digit value of a digit character. -/
def digVal (c : Char) : Nat := c.toNat - '0'.toNat

/-- The decimal digit character for `d < 10`. -/
def digChar (d : Nat) : Char := Char.ofNat ('0'.toNat + d)

/-- Decimal digit list, most significant first, by structural fuel. -/
def natCharsF : Nat → Nat → Str
  | 0, _ => []
  | fuel + 1, n =>
      if n < 10 then [digChar n]
      else natCharsF fuel (n / 10) ++ [digChar (n % 10)]

/-- Decimal digit list of a natural number, most significant first. -/
def natChars (n : Nat) : Str := natCharsF (n + 1) n

theorem natCharsF_mono : ∀ f1 f2 n, n < f1 → n < f2 → natCharsF f1 n = natCharsF f2 n := by
  intro f1
  induction f1 with
  | zero => intro f2 n h _; omega
  | succ k ih =>
      intro f2 n h1 h2
      cases f2 with
      | zero => omega
      | succ m =>
          simp only [natCharsF]
          by_cases h10 : n < 10
          · rw [if_pos h10, if_pos h10]
          · rw [if_neg h10, if_neg h10]
            have hd : n / 10 < n := Nat.div_lt_self (by omega) (by omega)
            rw [ih m (n / 10) (by omega) (by omega)]

theorem natChars_eq (n : Nat) :
    natChars n = if n < 10 then [digChar n] else natChars (n / 10) ++ [digChar (n % 10)] := by
  show natCharsF (n + 1) n = _
  by_cases h10 : n < 10
  · simp only [natCharsF, if_pos h10]
  · simp only [natCharsF, if_neg h10]
    have hd : n / 10 < n := Nat.div_lt_self (by omega) (by omega)
    rw [natCharsF_mono n (n / 10 + 1) (n / 10) (by omega) (by omega)]
    rfl

/-- Decimal rendering of an integer (how the serializer prints numbers). -/
def intChars (n : Int) : Str :=
  if n < 0 then '-' :: natChars n.natAbs else natChars n.natAbs

/-- Value of a digit string, most significant first. -/
def digitsVal (ds : Str) : Nat := ds.foldl (fun a c => a * 10 + digVal c) 0

/-- Parse a maximal nonempty run of digits off the front of the input. -/
def parseDigits (s : Str) : Option (Nat × Str) :=
  match s.takeWhile Char.isDigit, s.dropWhile Char.isDigit with
  | [], _ => none
  | ds, r => some (digitsVal ds, r)

end SwapCore

namespace SwapCore

/-- JSON documents.  Object entries keep parse order; the parser gives later
duplicate keys "last wins" semantics, so entry keys are distinct in every
parsed document. -/
inductive JVal where
  | null
  | bool (b : Bool)
  | num (n : Int)
  | str (s : Str)
  | arr (xs : List JVal)
  | obj (kvs : List (Str × JVal))
deriving Repr

mutual

/-- Boolean structural equality on JSON values (nested inductive, so the
`DecidableEq` instance is built by hand). -/
def jbeq : JVal → JVal → Bool
  | .null, .null => true
  | .bool a, .bool b => a == b
  | .num a, .num b => a == b
  | .str a, .str b => a == b
  | .arr xs, .arr ys => jbeqArr xs ys
  | .obj xs, .obj ys => jbeqObj xs ys
  | _, _ => false

/-- Elementwise equality of JSON arrays. -/
def jbeqArr : List JVal → List JVal → Bool
  | [], [] => true
  | x :: xs, y :: ys => jbeq x y && jbeqArr xs ys
  | _, _ => false

/-- Elementwise equality of JSON object entry lists. -/
def jbeqObj : List (Str × JVal) → List (Str × JVal) → Bool
  | [], [] => true
  | (k, v) :: xs, (k', v') :: ys => k = k' && jbeq v v' && jbeqObj xs ys
  | _, _ => false

end

mutual

theorem jbeq_iff : ∀ a b : JVal, jbeq a b = true ↔ a = b
  | .null, b => by cases b <;> simp [jbeq]
  | .bool a, b => by cases b <;> simp [jbeq]
  | .num a, b => by cases b <;> simp [jbeq]
  | .str a, b => by cases b <;> simp [jbeq]
  | .arr xs, b => by
      cases b <;> simp [jbeq]
      exact jbeqArr_iff xs _
  | .obj xs, b => by
      cases b <;> simp [jbeq]
      exact jbeqObj_iff xs _

theorem jbeqArr_iff : ∀ xs ys : List JVal, jbeqArr xs ys = true ↔ xs = ys
  | [], ys => by cases ys <;> simp [jbeqArr]
  | x :: xs, ys => by
      cases ys with
      | nil => simp [jbeqArr]
      | cons y ys =>
          simp only [jbeqArr, Bool.and_eq_true, List.cons.injEq]
          exact and_congr (jbeq_iff x y) (jbeqArr_iff xs ys)

theorem jbeqObj_iff : ∀ xs ys : List (Str × JVal), jbeqObj xs ys = true ↔ xs = ys
  | [], ys => by cases ys <;> simp [jbeqObj]
  | (k, v) :: xs, ys => by
      cases ys with
      | nil => simp [jbeqObj]
      | cons y ys =>
          obtain ⟨k', v'⟩ := y
          simp only [jbeqObj, Bool.and_eq_true, List.cons.injEq, Prod.mk.injEq,
            decide_eq_true_eq]
          rw [jbeq_iff v v', jbeqObj_iff xs ys, and_assoc]

end

instance : DecidableEq JVal := fun a b => decidable_of_iff _ (jbeq_iff a b)

/-- Escape one character for a JSON string literal (the escapes the
serializer emits: quote, backslash, newline, tab, carriage return). -/
def escChar (c : Char) : Str :=
  if c = '"' then ['\\', '"']
  else if c = '\\' then ['\\', '\\']
  else if c = '\n' then ['\\', 'n']
  else if c = '\t' then ['\\', 't']
  else if c = '\r' then ['\\', 'r']
  else [c]

/-- Escape a string body for a JSON string literal. -/
def escStr : Str → Str
  | [] => []
  | c :: r => escChar c ++ escStr r

mutual

/-- Model of `JSON.stringify` (compact form; see module comment). -/
def jsonStringify : JVal → Str
  | .null => "null".data
  | .bool true => "true".data
  | .bool false => "false".data
  | .num n => intChars n
  | .str s => '"' :: escStr s ++ ['"']
  | .arr [] => ['[', ']']
  | .arr (x :: xs) => '[' :: jsonStringify x ++ stringifyArrTail xs ++ [']']
  | .obj [] => ['{', '}']
  | .obj ((k, v) :: kvs) =>
      '{' :: ('"' :: escStr k ++ ['"', ':']) ++ jsonStringify v
        ++ stringifyObjTail kvs ++ ['}']
termination_by structural v => v

/-- Remaining array elements, each preceded by a comma. -/
def stringifyArrTail : List JVal → Str
  | [] => []
  | x :: xs => ',' :: jsonStringify x ++ stringifyArrTail xs
termination_by structural xs => xs

/-- Remaining object entries, each preceded by a comma. -/
def stringifyObjTail : List (Str × JVal) → Str
  | [] => []
  | (k, v) :: kvs =>
      ',' :: ('"' :: escStr k ++ ['"', ':']) ++ jsonStringify v ++ stringifyObjTail kvs
termination_by structural kvs => kvs

end

/-- The character an escape letter stands for, if it is a legal escape. -/
def escCharInv (e : Char) : Option Char :=
  if e = '"' then some '"'
  else if e = '\\' then some '\\'
  else if e = 'n' then some '\n'
  else if e = 't' then some '\t'
  else if e = 'r' then some '\r'
  else if e = '/' then some '/' else none

/-- Parse a JSON string body up to the closing quote, undoing escapes. -/
def parseStrBody : Str → Option (Str × Str)
  | [] => none
  | c :: r =>
      if c = '"' then some ([], r)
      else if c = '\\' then
        match r with
        | [] => none
        | e :: r' =>
            match escCharInv e with
            | none => none
            | some ec => (parseStrBody r').map fun p => (ec :: p.1, p.2)
      else (parseStrBody r).map fun p => (c :: p.1, p.2)

/-- Look a key up in an object's entry list (first binding). -/
def lookupE : List (Str × JVal) → Str → Option JVal
  | [], _ => none
  | (k', v') :: rest, k => if k' = k then some v' else lookupE rest k

/-- Remove every binding of a key from an object's entry list. -/
def eraseKey : List (Str × JVal) → Str → List (Str × JVal)
  | [], _ => []
  | (k', v') :: rest, k => if k' = k then eraseKey rest k else (k', v') :: eraseKey rest k

/-- Model of JS property assignment `o[k] = v`: replace an existing binding
in place, else append. -/
def setEntry (kvs : List (Str × JVal)) (k : Str) (v : JVal) : List (Str × JVal) :=
  match kvs with
  | [] => [(k, v)]
  | (k', v') :: rest =>
      if k' = k then (k', v) :: rest else (k', v') :: setEntry rest k v

/-- Prepend a parsed entry to the already-deduplicated later entries with
JS object semantics: a later duplicate key wins on value but the key keeps
its first position. -/
def dedupCons (k : Str) (v : JVal) (kvs : List (Str × JVal)) : List (Str × JVal) :=
  match lookupE kvs k with
  | some v' => (k, v') :: eraseKey kvs k
  | none => (k, v) :: kvs

/-- Consume an expected literal suffix. -/
def dropLit : Str → Str → Option Str
  | [], s => some s
  | _ :: _, [] => none
  | c :: cs, x :: xs => if x = c then dropLit cs xs else none

mutual

/-- Fueled JSON value parser; returns the value and the unconsumed tail. -/
def parseVal : Nat → Str → Option (JVal × Str)
  | 0, _ => none
  | fuel + 1, s =>
      match skipWs s with
      | [] => none
      | c :: r =>
          if c = 'n' then (dropLit ['u', 'l', 'l'] r).map fun r' => (.null, r')
          else if c = 't' then (dropLit ['r', 'u', 'e'] r).map fun r' => (.bool true, r')
          else if c = 'f' then (dropLit ['a', 'l', 's', 'e'] r).map fun r' => (.bool false, r')
          else if c = '"' then (parseStrBody r).map fun p => (.str p.1, p.2)
          else if c = '[' then
            match skipWs r with
            | [] => none
            | c1 :: r1 =>
                if c1 = ']' then some (.arr [], r1)
                else (parseArrElems fuel (c1 :: r1)).map fun p => (.arr p.1, p.2)
          else if c = '{' then
            match skipWs r with
            | [] => none
            | c1 :: r1 =>
                if c1 = '}' then some (.obj [], r1)
                else (parseObjEnts fuel (c1 :: r1)).map fun p => (.obj p.1, p.2)
          else if c = '-' then (parseDigits r).map fun p => (.num (-(p.1 : Int)), p.2)
          else if c.isDigit then (parseDigits (c :: r)).map fun p => (.num ((p.1 : Int)), p.2)
          else none

/-- One or more comma-separated array elements, then the closing bracket. -/
def parseArrElems : Nat → Str → Option (List JVal × Str)
  | 0, _ => none
  | fuel + 1, s =>
      match parseVal fuel s with
      | none => none
      | some (v, r) =>
          match skipWs r with
          | [] => none
          | c :: r' =>
              if c = ',' then (parseArrElems fuel r').map fun p => (v :: p.1, p.2)
              else if c = ']' then some ([v], r')
              else none

/-- One or more comma-separated object entries, then the closing brace. -/
def parseObjEnts : Nat → Str → Option (List (Str × JVal) × Str)
  | 0, _ => none
  | fuel + 1, s =>
      match skipWs s with
      | [] => none
      | c :: r =>
          if c = '"' then
            match parseStrBody r with
            | none => none
            | some (k, r1) =>
                match skipWs r1 with
                | [] => none
                | c2 :: r2 =>
                    if c2 = ':' then
                      match parseVal fuel r2 with
                      | none => none
                      | some (v, r3) =>
                          match skipWs r3 with
                          | [] => none
                          | c4 :: r4 =>
                              if c4 = ',' then
                                (parseObjEnts fuel r4).map fun p => (dedupCons k v p.1, p.2)
                              else if c4 = '}' then some ([(k, v)], r4)
                              else none
                    else none
          else none

end

/-- Model of `JSON.parse`: whole-input parse, `none` where JS throws. -/
def jsonParse (s : Str) : Option JVal :=
  match parseVal (s.length + 1) s with
  | some (v, rest) => if skipWs rest = [] then some v else none
  | none => none

mutual

/-- Fuel bound: `parseVal` succeeds on serializer output given this much fuel. -/
def jsize : JVal → Nat
  | .null => 1
  | .bool _ => 1
  | .num _ => 1
  | .str _ => 1
  | .arr xs => 1 + jsizeArr xs
  | .obj kvs => 1 + jsizeObj kvs

/-- Fuel bound for a nonempty array's element list. -/
def jsizeArr : List JVal → Nat
  | [] => 0
  | x :: xs => 1 + jsize x + jsizeArr xs

/-- Fuel bound for a nonempty object's entry list. -/
def jsizeObj : List (Str × JVal) → Nat
  | [] => 0
  | kv :: kvs => 1 + jsize kv.2 + jsizeObj kvs

end

/-- Are the keys of an entry list pairwise distinct? -/
def noDupKeys : List (Str × JVal) → Bool
  | [] => true
  | kv :: rest => (rest.all fun kv' => kv'.1 ≠ kv.1) && noDupKeys rest

mutual

/-- Every object inside the value has pairwise-distinct keys (true of every
parsed document, and preserved by the updates the program performs). -/
def wfKeys : JVal → Bool
  | .null => true
  | .bool _ => true
  | .num _ => true
  | .str _ => true
  | .arr xs => wfKeysArr xs
  | .obj kvs => noDupKeys kvs && wfKeysObj kvs

/-- `wfKeys` over an array's elements. -/
def wfKeysArr : List JVal → Bool
  | [] => true
  | x :: xs => wfKeys x && wfKeysArr xs

/-- `wfKeys` over an object's entry values. -/
def wfKeysObj : List (Str × JVal) → Bool
  | [] => true
  | kv :: kvs => wfKeys kv.2 && wfKeysObj kvs

end

/-- Does the input not start with a digit (so a digit run before it stays
maximal)? -/
def notDigitHead (s : Str) : Prop :=
  match s with
  | [] => True
  | c :: _ => c.isDigit = false

/-! ### UTF-8 and base64 codecs (model of `Buffer.from`/`toString`) -/

/-- UTF-8 encoding of one scalar value. -/
def utf8EncodeChar (c : Char) : List Nat :=
  let v := c.toNat
  if v < 0x80 then [v]
  else if v < 0x800 then [0xC0 + v / 64, 0x80 + v % 64]
  else if v < 0x10000 then [0xE0 + v / 4096, 0x80 + v / 64 % 64, 0x80 + v % 64]
  else [0xF0 + v / 262144, 0x80 + v / 4096 % 64, 0x80 + v / 64 % 64, 0x80 + v % 64]

/-- UTF-8 encoding of a string. -/
def utf8Encode : Str → List Nat
  | [] => []
  | c :: r => utf8EncodeChar c ++ utf8Encode r

/-- Is a byte a UTF-8 continuation byte? -/
def isCont (b : Nat) : Bool := 0x80 ≤ b && b < 0xC0

/-- Strict UTF-8 decoder (rejects overlong forms, surrogates and truncated
sequences; Node instead substitutes replacement characters, a difference no
claim observes since the decoder is only applied to encoder output). -/
def utf8Decode : List Nat → Option Str
  | [] => some []
  | b0 :: rest =>
      if b0 < 0x80 then (utf8Decode rest).map (Char.ofNat b0 :: ·)
      else if b0 < 0xC0 then none
      else if b0 < 0xE0 then
        match rest with
        | [] => none
        | b1 :: r =>
            if isCont b1 then
              if 0x80 ≤ (b0 - 0xC0) * 64 + (b1 - 0x80) then
                (utf8Decode r).map (Char.ofNat ((b0 - 0xC0) * 64 + (b1 - 0x80)) :: ·)
              else none
            else none
      else if b0 < 0xF0 then
        match rest with
        | [] => none
        | b1 :: rest1 =>
            match rest1 with
            | [] => none
            | b2 :: r =>
                if isCont b1 && isCont b2 then
                  if 0x800 ≤ (b0 - 0xE0) * 4096 + (b1 - 0x80) * 64 + (b2 - 0x80)
                      && ¬(0xD800 ≤ (b0 - 0xE0) * 4096 + (b1 - 0x80) * 64 + (b2 - 0x80)
                            && (b0 - 0xE0) * 4096 + (b1 - 0x80) * 64 + (b2 - 0x80) < 0xE000) then
                    (utf8Decode r).map
                      (Char.ofNat ((b0 - 0xE0) * 4096 + (b1 - 0x80) * 64 + (b2 - 0x80)) :: ·)
                  else none
                else none
      else if b0 < 0xF8 then
        match rest with
        | [] => none
        | b1 :: rest1 =>
            match rest1 with
            | [] => none
            | b2 :: rest2 =>
                match rest2 with
                | [] => none
                | b3 :: r =>
                    if isCont b1 && isCont b2 && isCont b3 then
                      if 0x10000 ≤ (b0 - 0xF0) * 262144 + (b1 - 0x80) * 4096
                            + (b2 - 0x80) * 64 + (b3 - 0x80)
                          && (b0 - 0xF0) * 262144 + (b1 - 0x80) * 4096
                            + (b2 - 0x80) * 64 + (b3 - 0x80) < 0x110000 then
                        (utf8Decode r).map
                          (Char.ofNat ((b0 - 0xF0) * 262144 + (b1 - 0x80) * 4096
                            + (b2 - 0x80) * 64 + (b3 - 0x80)) :: ·)
                      else none
                    else none
      else none

/-- Character of a 6-bit group in the standard base64 alphabet. -/
def b64Char (n : Nat) : Char :=
  if n < 26 then Char.ofNat ('A'.toNat + n)
  else if n < 52 then Char.ofNat ('a'.toNat + (n - 26))
  else if n < 62 then Char.ofNat ('0'.toNat + (n - 52))
  else if n = 62 then '+' else '/'

/-- 6-bit value of a standard base64 character. -/
def b64Val (c : Char) : Option Nat :=
  let v := c.toNat
  if 'A'.toNat ≤ v && v ≤ 'Z'.toNat then some (v - 'A'.toNat)
  else if 'a'.toNat ≤ v && v ≤ 'z'.toNat then some (26 + (v - 'a'.toNat))
  else if '0'.toNat ≤ v && v ≤ '9'.toNat then some (52 + (v - '0'.toNat))
  else if c = '+' then some 62
  else if c = '/' then some 63
  else none

/-- Standard base64 encoding of a byte list, with padding. -/
def b64EncodeBytes : List Nat → Str
  | [] => []
  | [b0] => [b64Char (b0 / 4), b64Char (b0 % 4 * 16), '=', '=']
  | [b0, b1] => [b64Char (b0 / 4), b64Char (b0 % 4 * 16 + b1 / 16),
                 b64Char (b1 % 16 * 4), '=']
  | b0 :: b1 :: b2 :: r =>
      b64Char (b0 / 4) :: b64Char (b0 % 4 * 16 + b1 / 16)
        :: b64Char (b1 % 16 * 4 + b2 / 64) :: b64Char (b2 % 64)
        :: b64EncodeBytes r

/-- Strict standard base64 decoding (canonical padding required; Node's
decoder is lenient on junk input, a difference no claim observes because
absent-vs-present of archive files, not junk archives, is what the claims
quantify over). -/
def b64DecodeBytes : Str → Option (List Nat)
  | [] => some []
  | c0 :: c1 :: c2 :: c3 :: r =>
      if c2 = '=' then
        if c3 = '=' then
          if r = [] then
            (b64Val c0).bind fun v0 => (b64Val c1).bind fun v1 =>
              if v1 % 16 = 0 then some [v0 * 4 + v1 / 16] else none
          else none
        else none
      else if c3 = '=' then
        if r = [] then
          (b64Val c0).bind fun v0 => (b64Val c1).bind fun v1 => (b64Val c2).bind fun v2 =>
            if v2 % 4 = 0 then some [v0 * 4 + v1 / 16, v1 % 16 * 16 + v2 / 4] else none
        else none
      else
        (b64Val c0).bind fun v0 => (b64Val c1).bind fun v1 => (b64Val c2).bind fun v2 =>
          (b64Val c3).bind fun v3 => (b64DecodeBytes r).bind fun bs =>
            some ((v0 * 4 + v1 / 16) :: (v1 % 16 * 16 + v2 / 4) :: (v2 % 4 * 64 + v3) :: bs)
  | _ => none

/-- Model of `Buffer.from(text, "utf8").toString("base64")`. -/
def b64EncodeStr (s : Str) : Str := b64EncodeBytes (utf8Encode s)

/-- Model of `Buffer.from(raw, "base64").toString("utf8")`. -/
def b64DecodeStr (s : Str) : Option Str := (b64DecodeBytes s).bind utf8Decode

/-- 6-bit value of a base64url character. -/
def b64urlVal (c : Char) : Option Nat :=
  let v := c.toNat
  if 'A'.toNat ≤ v && v ≤ 'Z'.toNat then some (v - 'A'.toNat)
  else if 'a'.toNat ≤ v && v ≤ 'z'.toNat then some (26 + (v - 'a'.toNat))
  else if '0'.toNat ≤ v && v ≤ '9'.toNat then some (52 + (v - '0'.toNat))
  else if c = '-' then some 62
  else if c = '_' then some 63
  else none

/-- Strict unpadded base64url decoding (model of
`Buffer.from(s, "base64url")` on canonical input). -/
def b64urlDecodeBytes : Str → Option (List Nat)
  | [] => some []
  | [c0, c1] => do
      let v0 ← b64urlVal c0
      let v1 ← b64urlVal c1
      if v1 % 16 = 0 then pure [v0 * 4 + v1 / 16] else none
  | [c0, c1, c2] => do
      let v0 ← b64urlVal c0
      let v1 ← b64urlVal c1
      let v2 ← b64urlVal c2
      if v2 % 4 = 0 then pure [v0 * 4 + v1 / 16, v1 % 16 * 16 + v2 / 4] else none
  | c0 :: c1 :: c2 :: c3 :: r => do
      let v0 ← b64urlVal c0
      let v1 ← b64urlVal c1
      let v2 ← b64urlVal c2
      let v3 ← b64urlVal c3
      let bs ← b64urlDecodeBytes r
      pure ((v0 * 4 + v1 / 16) :: (v1 % 16 * 16 + v2 / 4) :: (v2 % 4 * 64 + v3) :: bs)
  | _ => none

/-- Model of `Buffer.from(s, "base64url").toString("utf8")`. -/
def b64urlDecodeStr (s : Str) : Option Str := (b64urlDecodeBytes s).bind utf8Decode

/-! ### SHA-256 (model of `crypto.createHash("sha256")`) -/

/-- Truncate to a 32-bit word. -/
def w32 (n : Nat) : Nat := n % 4294967296

/-- Rotate a 32-bit word right. -/
def ror (x n : Nat) : Nat := w32 ((x >>> n) ||| (x <<< (32 - n)))

/-- The 64 SHA-256 round constants. -/
def shaK : List Nat :=
  [1116352408, 1899447441, 3049323471, 3921009573, 961987163, 1508970993,
   2453635748, 2870763221, 3624381080, 310598401, 607225278, 1426881987,
   1925078388, 2162078206, 2614888103, 3248222580, 3835390401, 4022224774,
   264347078, 604807628, 770255983, 1249150122, 1555081692, 1996064986,
   2554220882, 2821834349, 2952996808, 3210313671, 3336571891, 3584528711,
   113926993, 338241895, 666307205, 773529912, 1294757372, 1396182291,
   1695183700, 1986661051, 2177026350, 2456956037, 2730485921, 2820302411,
   3259730800, 3345764771, 3516065817, 3600352804, 4094571909, 275423344,
   430227734, 506948616, 659060556, 883997877, 958139571, 1322822218,
   1537002063, 1747873779, 1955562222, 2024104815, 2227730452, 2361852424,
   2428436474, 2756734187, 3204031479, 3329325298]

/-- SHA-256 chaining state: eight 32-bit words. -/
abbrev ShaState := Nat × Nat × Nat × Nat × Nat × Nat × Nat × Nat

/-- Initial SHA-256 state. -/
def shaH0 : ShaState :=
  (1779033703, 3144134277, 1013904242, 2773480762,
   1359893119, 2600822924, 528734635, 1541459225)

/-- Big-endian bytes (8) of the 64-bit message length. -/
def be8 (n : Nat) : List Nat :=
  [n / 72057594037927936 % 256, n / 281474976710656 % 256,
   n / 1099511627776 % 256, n / 4294967296 % 256,
   n / 16777216 % 256, n / 65536 % 256, n / 256 % 256, n % 256]

/-- SHA-256 message padding. -/
def shaPad (msg : List Nat) : List Nat :=
  let L := msg.length
  let k := (64 + 56 - (L + 1) % 64) % 64
  msg ++ 0x80 :: List.replicate k 0 ++ be8 (L * 8)

/-- Big-endian 32-bit words of a byte list. -/
def beWords : List Nat → List Nat
  | b0 :: b1 :: b2 :: b3 :: r =>
      (b0 * 16777216 + b1 * 65536 + b2 * 256 + b3) :: beWords r
  | _ => []

/-- Extend the 16 chunk words to 64 schedule words (reversed accumulator:
head is the most recent word). -/
def extendW (wrev : List Nat) : Nat → List Nat
  | 0 => wrev
  | n + 1 =>
      let g := fun i => wrev.getD i 0
      let s0 := (ror (g 14) 7) ^^^ (ror (g 14) 18) ^^^ (g 14 >>> 3)
      let s1 := (ror (g 1) 17) ^^^ (ror (g 1) 19) ^^^ (g 1 >>> 10)
      extendW (w32 (g 15 + s0 + g 6 + s1) :: wrev) n

/-- One SHA-256 compression round. -/
def shaRound (st : ShaState) (kw : Nat × Nat) : ShaState :=
  let (a, b, c, d, e, f, g, h) := st
  let (k, w) := kw
  let S1 := (ror e 6) ^^^ (ror e 11) ^^^ (ror e 25)
  let ch := (e &&& f) ^^^ ((0xffffffff ^^^ e) &&& g)
  let t1 := w32 (h + S1 + ch + k + w)
  let S0 := (ror a 2) ^^^ (ror a 13) ^^^ (ror a 22)
  let mj := (a &&& b) ^^^ (a &&& c) ^^^ (b &&& c)
  let t2 := w32 (S0 + mj)
  (w32 (t1 + t2), a, b, c, w32 (d + t1), e, f, g)

/-- Compress one 64-byte chunk into the chaining state. -/
def shaChunk (st : ShaState) (chunk : List Nat) : ShaState :=
  let ws := (extendW (beWords chunk).reverse 48).reverse
  let (a, b, c, d, e, f, g, h) := (shaK.zip ws).foldl shaRound st
  let (a0, b0, c0, d0, e0, f0, g0, h0) := st
  (w32 (a + a0), w32 (b + b0), w32 (c + c0), w32 (d + d0),
   w32 (e + e0), w32 (f + f0), w32 (g + g0), w32 (h + h0))

/-- Split a byte list into 64-byte chunks. -/
def chunks64 (l : List Nat) : List (List Nat) :=
  if h : l = [] then []
  else l.take 64 :: chunks64 (l.drop 64)
  termination_by l.length
  decreasing_by
    simp only [List.length_drop]
    have : 0 < l.length := List.length_pos.mpr h
    omega

/-- Big-endian bytes (4) of a 32-bit word. -/
def w2b (w : Nat) : List Nat :=
  [w / 16777216 % 256, w / 65536 % 256, w / 256 % 256, w % 256]

/-- The 32 digest bytes of a final chaining state. -/
def shaDigest (st : ShaState) : List Nat :=
  let (a, b, c, d, e, f, g, h) := st
  w2b a ++ w2b b ++ w2b c ++ w2b d ++ w2b e ++ w2b f ++ w2b g ++ w2b h

/-- SHA-256 of a byte list. -/
def sha256 (msg : List Nat) : List Nat :=
  shaDigest ((chunks64 (shaPad msg)).foldl shaChunk shaH0)

/-- Lowercase hex character of a 4-bit value. -/
def hexChar (n : Nat) : Char :=
  if n < 10 then digChar n else Char.ofNat ('a'.toNat + (n - 10))

/-- Lowercase hex rendering of a byte list. -/
def hexOfBytes (bs : List Nat) : Str :=
  (bs.map fun b => [hexChar (b / 16), hexChar (b % 16)]).flatten

/-- Model of `crypto.createHash("sha256").update(s).digest("hex")`. -/
def sha256Hex (s : Str) : Str := hexOfBytes (sha256 (utf8Encode s))

/-! ### JS value semantics

JS runtime behaviours the source relies on, modelled over `JVal`.
Restrictions (each noted where used): property enumeration follows entry
order (JS additionally sorts integer-like keys numerically — no theorem
below depends on enumeration order except through explicit hypotheses);
`Object.keys`/`values` of a truthy non-object is modelled as empty;
`Number(·)` recognises decimal integer numerals only. -/

/-- JS truthiness of a JSON value. -/
def truthy : JVal → Bool
  | .null => false
  | .bool b => b
  | .num n => n ≠ 0
  | .str s => s ≠ []
  | .arr _ => true
  | .obj _ => true

/-- JS `===` on JSON values: structural on primitives; `false` on arrays and
objects (reference equality — the operands compared by this code never
alias, both being freshly parsed or freshly built). -/
def jsStrictEq : JVal → JVal → Bool
  | .null, .null => true
  | .bool a, .bool b => a == b
  | .num a, .num b => a == b
  | .str a, .str b => a == b
  | _, _ => false

/-- JS property read `v[k]`: `none` models `undefined`. -/
def getMember (v : JVal) (k : String) : Option JVal :=
  match v with
  | .obj kvs => lookupE kvs k.data
  | _ => none

/-- JS property assignment `v[k] = x`: in-place update on objects, silently
ignored on primitives (sloppy mode). -/
def setMemberJ (v : JVal) (k : String) (x : JVal) : JVal :=
  match v with
  | .obj kvs => .obj (setEntry kvs k.data x)
  | v => v

mutual

/-- JS `String(v)` for JSON values. -/
def jsToString : JVal → Str
  | .null => "null".data
  | .bool true => "true".data
  | .bool false => "false".data
  | .num n => intChars n
  | .str s => s
  | .arr xs => jsToStringArr xs
  | .obj _ => "[object Object]".data
termination_by structural v => v

/-- Comma-joined `String` of array elements (`null` renders empty). -/
def jsToStringArr : List JVal → Str
  | [] => []
  | [x] => (match x with | .null => [] | v => jsToString v)
  | x :: xs => (match x with | .null => [] | v => jsToString v) ++ ',' :: jsToStringArr xs
termination_by structural xs => xs

end

/-- One array element under `Array.prototype.join`. -/
def jsToStringElem : JVal → Str
  | .null => []
  | v => jsToString v

/-- JS `String(v)` where `v` may be `undefined`. -/
def jsToStringU : Option JVal → Str
  | none => "undefined".data
  | some v => jsToString v

/-- Trim JSON-style whitespace from both ends. -/
def jsTrim (s : Str) : Str :=
  ((s.dropWhile fun c => isWs c).reverse.dropWhile (fun c => isWs c)).reverse

/-- Nonempty all-digit string? -/
def digitsOnly (ds : Str) : Bool := ds ≠ [] && ds.all Char.isDigit

/-- Model of JS `Number(string)` restricted to decimal integer numerals
(`none` models `NaN`; fraction/exponent/hex forms also map to `none`). -/
def jsNumber (s : Str) : Option Int :=
  match jsTrim s with
  | [] => some 0
  | c :: ds =>
      if c = '-' then (if digitsOnly ds then some (-(digitsVal ds : Int)) else none)
      else if c = '+' then (if digitsOnly ds then some ((digitsVal ds : Int)) else none)
      else if digitsOnly (c :: ds) then some ((digitsVal (c :: ds) : Int)) else none

/-- A JS number that may be `NaN` (`none`). -/
abbrev JsNum := Option Int

/-- JS `String(n)` for a possibly-`NaN` number. -/
def jsNumToStr : JsNum → Str
  | some i => intChars i
  | none => "NaN".data

/-- The JSON value `JSON.stringify` writes for a possibly-`NaN` number
(`NaN` serialises as `null`). -/
def jnumVal : JsNum → JVal
  | some i => .num i
  | none => .null

/-- Split a string at every `'.'` (model of `token.split(".")`). -/
def splitDots : Str → List Str
  | [] => [[]]
  | '.' :: r => [] :: splitDots r
  | c :: r =>
      match splitDots r with
      | [] => [[c]]
      | g :: gs => (c :: g) :: gs

/-- Does `s` start with the characters of `p`? -/
def strPre : Str → Str → Bool
  | [], _ => true
  | _ :: _, [] => false
  | p :: ps, c :: cs => p = c && strPre ps cs

end SwapCore

namespace SwapCore

/-! ### The on-disk state and the source functions

`FS` holds the files the swap core touches: the live credential file
(`~/.claude/.credentials.json`), the two candidate live config files, the
Registry (`sequence.json`) and the two archive directories as
filename-to-content listings.  `none` models an absent file.  Directories
always exist (`ensureDir` and a failed `readdirSync` both reduce to the
empty listing).  `writeJSON`'s write-to-temp-then-rename collapses to one
atomic content replacement in this single-process model, and best-effort
`chmod` calls have no observable effect here. -/

structure FS where
  creds : Option Str
  cfgPrimary : Option Str
  cfgFallback : Option Str
  seqFile : Option Str
  credsDir : List (Str × Str)
  configsDir : List (Str × Str)
deriving DecidableEq, Repr

/-- Read a directory entry. -/
def dirRead (d : List (Str × Str)) (name : Str) : Option Str :=
  match d with
  | [] => none
  | (n, c) :: rest => if n = name then some c else dirRead rest name

/-- Write a directory entry (replace in place or append). -/
def dirWrite (d : List (Str × Str)) (name content : Str) : List (Str × Str) :=
  match d with
  | [] => [(name, content)]
  | (n, c) :: rest =>
      if n = name then (n, content) :: rest else (n, c) :: dirWrite rest name content

/-- Delete a directory entry (`unlinkSync`). -/
def dirErase (d : List (Str × Str)) (name : Str) : List (Str × Str) :=
  match d with
  | [] => []
  | (n, c) :: rest => if n = name then dirErase rest name else (n, c) :: dirErase rest name

/-- Does the directory contain the name (`existsSync`)? -/
def dirHas (d : List (Str × Str)) (name : Str) : Bool :=
  (dirRead d name).isSome

/-- Rename a directory entry (`renameSync`; callers guard existence). -/
def dirRename (d : List (Str × Str)) (old new : Str) : List (Str × Str) :=
  match dirRead d old with
  | none => d
  | some c => dirWrite (dirErase d old) new c

/-- `readJSON`: parse a file's content, `null` on absence or parse failure. -/
def readJSONc (content : Option Str) : Option JVal := content.bind jsonParse

/-- `readCurrentCredentials`. -/
def readCurrentCredentials (fs : FS) : Option Str := fs.creds

/-- `writeCurrentCredentials`. -/
def writeCurrentCredentials (fs : FS) (text : Str) : FS := { fs with creds := some text }

/-- Archive filename `.creds-${num}.enc`. -/
def credsFileName (num : Str) : Str := ".creds-".data ++ num ++ ".enc".data

/-- Archive filename `.claude-config-${num}.json`. -/
def configFileName (num : Str) : Str := ".claude-config-".data ++ num ++ ".json".data

/-- Legacy archive filename `.creds-${num}-${email}.enc`. -/
def credsLegacyName (num email : Str) : Str :=
  ".creds-".data ++ num ++ "-".data ++ email ++ ".enc".data

/-- Legacy archive filename `.claude-config-${num}-${email}.json`. -/
def configLegacyName (num email : Str) : Str :=
  ".claude-config-".data ++ num ++ "-".data ++ email ++ ".json".data

/-- `readBackupCreds`: base64-decode the archived credential blob. -/
def readBackupCreds (fs : FS) (num : Str) : Option Str :=
  (dirRead fs.credsDir (credsFileName num)).bind b64DecodeStr

/-- `writeBackupCreds`: archive the credential text base64-encoded. -/
def writeBackupCreds (fs : FS) (num text : Str) : FS :=
  { fs with credsDir := dirWrite fs.credsDir (credsFileName num) (b64EncodeStr text) }

/-- `readBackupConfig`. -/
def readBackupConfig (fs : FS) (num : Str) : Option Str :=
  dirRead fs.configsDir (configFileName num)

/-- `writeBackupConfig`. -/
def writeBackupConfig (fs : FS) (num text : Str) : FS :=
  { fs with configsDir := dirWrite fs.configsDir (configFileName num) text }

/-- The two candidate live config paths. -/
inductive CfgPath where
  | primary
  | fallback
deriving DecidableEq, Repr

/-- `getConfigPath`: the primary path only if it already holds identity
data (`d && d.oauthAccount` truthy), else the fallback. -/
def getConfigPath (fs : FS) : CfgPath :=
  match readJSONc fs.cfgPrimary with
  | some d =>
      if truthy d &&
          (match getMember d "oauthAccount" with
           | some o => truthy o
           | none => false) then .primary else .fallback
  | none => .fallback

/-- Content of the live config file at a candidate path. -/
def cfgRead (fs : FS) : CfgPath → Option Str
  | .primary => fs.cfgPrimary
  | .fallback => fs.cfgFallback

/-- Overwrite the live config file at a candidate path. -/
def cfgWrite (fs : FS) (p : CfgPath) (t : Str) : FS :=
  match p with
  | .primary => { fs with cfgPrimary := some t }
  | .fallback => { fs with cfgFallback := some t }

/-- `getToken`: `JSON.parse(credsText)?.claudeAiOauth?.accessToken || null`
(`none` models both `null` and a falsy token). -/
def getToken (credsText : Str) : Option JVal :=
  match jsonParse credsText with
  | none => none
  | some v =>
      match getMember v "claudeAiOauth" with
      | none => none
      | some o =>
          match getMember o "accessToken" with
          | none => none
          | some t => if truthy t then some t else none

/-- `decodeJwtPayload`: split on dots, base64url-decode the middle part,
parse it as JSON; `none` on any failure. -/
def decodeJwtPayload (token : Str) : Option JVal :=
  match splitDots token with
  | [_, p, _] => (b64urlDecodeStr p).bind jsonParse
  | _ => none

/-- The synthetic fingerprint identity for an opaque token. -/
def fpId (token : Str) : JVal :=
  .str ("fp-".data ++ (sha256Hex token).take 24)

/-- `getSubFromCreds`: JWT `sub` claim if truthy, else a SHA-256 fingerprint
of the token; `none` when no token, or when the token is a truthy
non-string (where `crypto.update` throws inside the catch-all). -/
def getSubFromCreds (credsText : Str) : Option JVal :=
  match getToken credsText with
  | none => none
  | some (.str token) =>
      (match decodeJwtPayload token with
       | some payload =>
           match getMember payload "sub" with
           | some sv => if truthy sv then some sv else some (fpId token)
           | none => some (fpId token)
       | none => some (fpId token))
  | some _ => none

/-- `getEmailHintFromCreds`: display-only email hint, preferring the
`idToken` payload over the access-token payload. -/
def getEmailHintFromCreds (credsText : Str) : Option JVal :=
  match jsonParse credsText with
  | none => none
  | some v =>
      match getMember v "claudeAiOauth" with
      | none => none
      | some oauth =>
          if ¬ truthy oauth then none
          else
            let idRes : Option JVal :=
              match getMember oauth "idToken" with
              | some (.str idt) =>
                  if (idt : Str) ≠ [] then
                    match decodeJwtPayload idt with
                    | some p =>
                        match getMember p "email" with
                        | some em => if truthy em then some em else none
                        | none => none
                    | none => none
                  else none
              | _ => none
            match idRes with
            | some em => some em
            | none =>
                match getMember oauth "accessToken" with
                | some (.str acc) =>
                    (match decodeJwtPayload acc with
                     | some p => getMember p "email"
                     | none => none)
                | _ => none

/-- The initial Registry document `initSequenceFile` writes. -/
def initialSeq (now : Str) : JVal :=
  .obj [("activeAccountNumber".data, .null), ("lastUpdated".data, .str now),
        ("sequence".data, .arr []), ("accounts".data, .obj [])]

/-- `initSequenceFile`: create the Registry file if absent. -/
def initSequenceFile (now : Str) (fs : FS) : FS :=
  match fs.seqFile with
  | some _ => fs
  | none => { fs with seqFile := some (jsonStringify (initialSeq now)) }

/-- `getSeqData`. -/
def getSeqData (fs : FS) : Option JVal := readJSONc fs.seqFile

/-- The key list of `data.accounts || {}` (`Object.keys`; truthy non-object
modelled as keyless). -/
def accountKeys (d : JVal) : List Str :=
  match getMember d "accounts" with
  | some (.obj kvs) => kvs.map Prod.fst
  | _ => []

/-- `isSaved`: does any record's `sub` strict-equal the resolved sub?
A non-object record yields no `sub` member here, whereas the real scan
would throw a TypeError on a JSON-`null` record; claims quantifying over
registries therefore assume no `null` record values. -/
def isSaved (data : Option JVal) (sub : Option JVal) : Bool :=
  match data, sub with
  | some d, some s =>
      if ¬ truthy d || ¬ truthy s then false
      else
        match getMember d "accounts" with
        | some (.obj kvs) =>
            kvs.any fun kv =>
              match getMember kv.2 "sub" with
              | some v => jsStrictEq v s
              | none => false
        | _ => false
  | _, _ => false

/-- `nextNum`: `Math.max(...keys.map(Number)) + 1`, `1` when no accounts;
`none` models the `NaN` produced by a non-numeric key. -/
def nextNum (d : JVal) : Option Int :=
  match (accountKeys d).mapM jsNumber with
  | some [] => some 1
  | some (n :: ns) => some (ns.foldl max n + 1)
  | none => none

/-- The duplicate-identity scan of `saveCurrentAccount`
(`find(([, a]) => a.sub && a.sub === sub)`); a non-object record yields
no member (see the note at `isSaved` on `null` record values). -/
def findDup (d : JVal) (s : JVal) : Option (Str × JVal) :=
  match getMember d "accounts" with
  | some (.obj kvs) =>
      kvs.find? fun kv =>
        match getMember kv.2 "sub" with
        | some v => truthy v && jsStrictEq v s
        | none => false
  | _ => none

/-- The active-account scan of `switchToAccount`
(`find(([, a]) => a.sub === currentSub)`); a non-object record yields
no member (see the note at `isSaved` on `null` record values). -/
def findBySub (kvs : List (Str × JVal)) (s : JVal) : Option (Str × JVal) :=
  kvs.find? fun kv =>
    match getMember kv.2 "sub" with
    | some v => jsStrictEq v s
    | none => false

/-- `cleanupOrphanedBackups`: delete every `.creds-`/`.claude-config-`
prefixed archive file that is not the exact archive filename of a present
account key. -/
def cleanupOrphanedBackups (data : JVal) (fs : FS) : FS :=
  match getMember data "accounts" with
  | none => fs
  | some a =>
      if ¬ truthy a then fs
      else
        let keys := match a with
          | .obj kvs => kvs.map Prod.fst
          | _ => []
        let validCreds := keys.map credsFileName
        let validConfigs := keys.map configFileName
        { fs with
          credsDir := fs.credsDir.filter fun fc =>
            !(strPre ".creds-".data fc.1 && !(validCreds.contains fc.1)),
          configsDir := fs.configsDir.filter fun fc =>
            !(strPre ".claude-config-".data fc.1 && !(validConfigs.contains fc.1)) }

/-- One record's step of `migrateBackupFilenames`: rename the legacy
(number, email)-keyed archive files to number-only names when the legacy
name exists and the new one does not.  A non-object record yields no
`email` member (see the note at `isSaved` on `null` record values). -/
def migrateStep (fs : FS) (kv : Str × JVal) : FS :=
  match getMember kv.2 "email" with
  | none => fs
  | some ev =>
      if ¬ truthy ev then fs
      else
        let es := jsToString ev
        let oldC := credsLegacyName kv.1 es
        let newC := credsFileName kv.1
        let fs1 :=
          if dirHas fs.credsDir oldC && ¬ dirHas fs.credsDir newC then
            { fs with credsDir := dirRename fs.credsDir oldC newC }
          else fs
        let oldF := configLegacyName kv.1 es
        let newF := configFileName kv.1
        if dirHas fs1.configsDir oldF && ¬ dirHas fs1.configsDir newF then
          { fs1 with configsDir := dirRename fs1.configsDir oldF newF }
        else fs1

/-- `migrateBackupFilenames` (run once at startup against the Registry). -/
def migrateBackupFilenames (data : Option JVal) (fs : FS) : FS :=
  match data with
  | none => fs
  | some d =>
      match getMember d "accounts" with
      | none => fs
      | some a =>
          if ¬ truthy a then fs
          else
            let entries := match a with
              | .obj kvs => kvs
              | _ => []
            entries.foldl migrateStep fs

/-- `saveCurrentAccount`.  Returns the final state and either the new
account number or the thrown error's message (internal JS runtime errors
are reported as `"TypeError"`/`"ENOENT: config read failed"`). -/
def saveCurrentAccount (now : Str) (fs0 : FS) : FS × Except Str JsNum :=
  let fs := initSequenceFile now fs0
  match readCurrentCredentials fs with
  | none => (fs, .error "Failed to read credentials".data)
  | some credsText =>
  match getToken credsText with
  | none => (fs, .error "No active credential token found".data)
  | some _tok =>
  match getSubFromCreds credsText with
  | none => (fs, .error "Could not determine account identity from token".data)
  | some sub =>
  let data := getSeqData fs
  if isSaved data (some sub) then (fs, .error "This account is already saved".data)
  else
  match data with
  | none => (fs, .error "TypeError".data)
  | some .null => (fs, .error "TypeError".data)
  | some d =>
  let num := nextNum d
  let p := getConfigPath fs
  match cfgRead fs p with
  | none => (fs, .error "ENOENT: config read failed".data)
  | some configText =>
  match findDup d sub with
  | some kv =>
      (fs, .error ("Account-".data ++ kv.1
        ++ " has the same token identity. This appears to be the same account.".data))
  | none =>
  let numStr := jsNumToStr num
  let fs1 := writeBackupCreds fs numStr credsText
  let fs2 := writeBackupConfig fs1 numStr configText
  let email := match getEmailHintFromCreds credsText with
    | some e => if truthy e then e else .str "(unknown)".data
    | none => .str "(unknown)".data
  match getMember d "accounts" with
  | none => (fs2, .error "TypeError".data)
  | some .null => (fs2, .error "TypeError".data)
  | some (.obj akvs) =>
      let rec' : JVal := .obj [("email".data, email), ("sub".data, sub),
                               ("added".data, .str now)]
      match getMember d "sequence" with
      | some (.arr sq) =>
          let d' := setMemberJ (setMemberJ (setMemberJ
                      (setMemberJ d "accounts" (.obj (setEntry akvs numStr rec')))
                      "sequence" (.arr (sq ++ [jnumVal num])))
                      "activeAccountNumber" (jnumVal num)) "lastUpdated" (.str now)
          ({ fs2 with seqFile := some (jsonStringify d') }, .ok num)
      | _ => (fs2, .error "TypeError".data)
  | some _ =>
      match getMember d "sequence" with
      | some (.arr sq) =>
          let d' := setMemberJ (setMemberJ (setMemberJ d
                      "sequence" (.arr (sq ++ [jnumVal num])))
                      "activeAccountNumber" (jnumVal num)) "lastUpdated" (.str now)
          ({ fs2 with seqFile := some (jsonStringify d') }, .ok num)
      | _ => (fs2, .error "TypeError".data)

/-- The current-account resolution block of `switchToAccount`: prefer the
Registry record whose `sub` strict-equals the live credential's resolved
identity; fall back to the stringified stored `activeAccountNumber`. -/
def resolveCurrentNum (fs0 : FS) (d accsV : JVal) : Str :=
  let currentSub : Option JVal := match fs0.creds with
    | some ct => getSubFromCreds ct
    | none => none
  let pointerStr := jsToStringU (getMember d "activeAccountNumber")
  match currentSub with
  | some s =>
      if truthy s then
        match accsV with
        | .obj kvs =>
            (match findBySub kvs s with
             | some kv => kv.1
             | none => pointerStr)
        | _ => pointerStr
      else pointerStr
  | none => pointerStr

/-- The archive-current-account block of `switchToAccount`: when the
resolved current account has a truthy record, copy the live credential
and config blobs into its archive slots (reading the live config may
throw, reported as the second component). -/
def archiveCurrent (fs0 : FS) (p : CfgPath) (curRec : Option JVal) (currentNum : Str) :
    FS × Option Str :=
  match curRec with
  | some cr =>
      if truthy cr then
        match cfgRead fs0 p with
        | none => (fs0, some "ENOENT: config read failed".data)
        | some cf =>
            let fsA := match fs0.creds with
              | some cc => writeBackupCreds fs0 currentNum cc
              | none => fs0
            (writeBackupConfig fsA currentNum cf, none)
      else (fs0, none)
  | none => (fs0, none)

/-- `switchToAccount`.  Returns the final state and either success or the
thrown error's message; partial effects performed before a throw persist
in the returned state, exactly as on disk. -/
def switchToAccount (now : Str) (target : Int) (fs0 : FS) : FS × Except Str Unit :=
  match getSeqData fs0 with
  | none => (fs0, .error "No managed accounts".data)
  | some d =>
  if ¬ truthy d then (fs0, .error "No managed accounts".data)
  else
  let tStr := intChars target
  match getMember d "accounts" with
  | none => (fs0, .error "TypeError".data)
  | some .null => (fs0, .error "TypeError".data)
  | some accsV =>
  let tInfo : Option JVal := match accsV with
    | .obj kvs => lookupE kvs tStr
    | _ => none
  match tInfo with
  | none => (fs0, .error ("Account-".data ++ intChars target ++ " not found".data))
  | some ti =>
  if ¬ truthy ti then
    (fs0, .error ("Account-".data ++ intChars target ++ " not found".data))
  else
  let p := getConfigPath fs0
  let currentNum : Str := resolveCurrentNum fs0 d accsV
  let curRec : Option JVal := match accsV with
    | .obj kvs => lookupE kvs currentNum
    | _ => none
  match archiveCurrent fs0 p curRec currentNum with
  | (_, some msg) => (fs0, .error msg)
  | (fsB, none) =>
  let tc := readBackupCreds fsB tStr
  let tf := readBackupConfig fsB tStr
  match tc, tf with
  | some tcv, some tfv =>
      if tcv = [] || tfv = [] then
        (fsB, .error ("Missing backup data for Account-".data ++ intChars target))
      else
        let fsC := writeCurrentCredentials fsB tcv
        match jsonParse tfv with
        | none => (fsC, .error "SyntaxError".data)
        | some .null => (fsC, .error "TypeError".data)
        | some tfData =>
        match getMember tfData "oauthAccount" with
        | some o =>
            if ¬ truthy o then
              (fsC, .error "Invalid backup config: missing oauthAccount".data)
            else
              let currentCfg := match readJSONc (cfgRead fsC p) with
                | some v => if truthy v then v else .obj []
                | none => .obj []
              let cfgDoc := setMemberJ currentCfg "oauthAccount" o
              let fsD := cfgWrite fsC p (jsonStringify cfgDoc)
              let d' := setMemberJ (setMemberJ d "activeAccountNumber" (.num target))
                          "lastUpdated" (.str now)
              let fsE := { fsD with seqFile := some (jsonStringify d') }
              (cleanupOrphanedBackups d' fsE, .ok ())
        | none => (fsC, .error "Invalid backup config: missing oauthAccount".data)
  | _, _ =>
      (fsB, .error ("Missing backup data for Account-".data ++ intChars target))

end SwapCore

namespace SwapCore

/-! ## Proof infrastructure: characters and decimal digits -/

theorem char_toNat_ofNat {n : Nat} (h : n < 55296) : (Char.ofNat n).toNat = n := by
  have hv : n.isValidChar := Or.inl h
  simp only [Char.ofNat, hv, dif_pos, Char.ofNatAux, Char.toNat]
  exact BitVec.toNat_ofNatLt n _

theorem digChar_toNat {d : Nat} (h : d < 10) : (digChar d).toNat = 48 + d := by
  unfold digChar
  have : '0'.toNat = 48 := rfl
  rw [this]
  exact char_toNat_ofNat (by omega)

theorem digVal_digChar {d : Nat} (h : d < 10) : digVal (digChar d) = d := by
  unfold digVal
  rw [digChar_toNat h]
  have : '0'.toNat = 48 := rfl
  omega

theorem isDigit_digChar {d : Nat} (h : d < 10) : (digChar d).isDigit = true := by
  interval_cases d <;> decide

theorem isDigit_of_toNat {c : Char} (h1 : 48 ≤ c.toNat) (h2 : c.toNat ≤ 57) :
    c.isDigit = true := by
  simp only [Char.isDigit, decide_eq_true_eq, Bool.and_eq_true, ge_iff_le, decide_eq_true_iff]
  exact ⟨h1, h2⟩

theorem not_ws_of_digit {c : Char} (h : c.isDigit = true) : isWs c = false := by
  simp only [Char.isDigit, Bool.and_eq_true, decide_eq_true_eq] at h
  simp only [isWs, Bool.or_eq_false_iff, decide_eq_false_iff_not]
  refine ⟨⟨⟨?_, ?_⟩, ?_⟩, ?_⟩ <;> rintro rfl <;> simp_all

theorem natChars_ne_nil (n : Nat) : natChars n ≠ [] := by
  rw [natChars_eq]
  split
  · simp
  · simp

theorem natChars_all_digit (n : Nat) : ∀ c ∈ natChars n, c.isDigit = true := by
  induction n using Nat.strong_induction_on with
  | _ n ih =>
    rw [natChars_eq]
    split
    · intro c hc
      simp only [List.mem_singleton] at hc
      subst hc
      exact isDigit_digChar (by omega)
    · intro c hc
      rcases List.mem_append.mp hc with h | h
      · exact ih (n / 10) (Nat.div_lt_self (by omega) (by omega)) c h
      · simp only [List.mem_singleton] at h
        subst h
        exact isDigit_digChar (Nat.mod_lt _ (by omega))

theorem takeWhile_all_app {p : Char → Bool} (l r : Str)
    (hl : ∀ c ∈ l, p c = true) (hr : match r with | [] => True | c :: _ => p c = false) :
    (l ++ r).takeWhile p = l ∧ (l ++ r).dropWhile p = r := by
  induction l with
  | nil =>
      simp only [List.nil_append]
      cases r with
      | nil => simp
      | cons c cs =>
          simp only at hr
          simp [List.takeWhile, List.dropWhile, hr]
  | cons c cs ih =>
      have hc : p c = true := hl c (List.mem_cons_self c cs)
      have ih' := ih (fun x hx => hl x (List.mem_cons_of_mem c hx))
      simp [List.takeWhile, List.dropWhile, hc, ih'.1, ih'.2]

theorem foldl_digits_natChars (n : Nat) :
    ∀ acc, List.foldl (fun a c => a * 10 + digVal c) acc (natChars n)
      = acc * 10 ^ (natChars n).length + n := by
  induction n using Nat.strong_induction_on with
  | _ n ih =>
    intro acc
    rw [natChars_eq]
    split
    · next h =>
        simp [digVal_digChar h]
    · next h =>
        rw [List.foldl_append]
        rw [ih (n / 10) (Nat.div_lt_self (by omega) (by omega)) acc]
        simp only [List.length_append, List.foldl_cons, List.foldl_nil, List.length_singleton]
        rw [digVal_digChar (Nat.mod_lt _ (by omega))]
        rw [pow_succ]
        have hdm : 10 * (n / 10) + n % 10 = n := Nat.div_add_mod n 10
        ring_nf
        omega

theorem digitsVal_natChars (n : Nat) : digitsVal (natChars n) = n := by
  unfold digitsVal
  rw [foldl_digits_natChars n 0]
  simp

theorem parseDigits_natChars (n : Nat) (rest : Str) (hr : notDigitHead rest) :
    parseDigits (natChars n ++ rest) = some (n, rest) := by
  have hsplit := takeWhile_all_app (p := Char.isDigit) (natChars n) rest
    (natChars_all_digit n) (by cases rest with | nil => trivial | cons c cs => exact hr)
  unfold parseDigits
  rw [hsplit.1, hsplit.2]
  have hne := natChars_ne_nil n
  cases hnc : natChars n with
  | nil => exact absurd hnc hne
  | cons c cs =>
      show some (digitsVal (c :: cs), rest) = some (n, rest)
      rw [← hnc, digitsVal_natChars]

/-! ## Proof infrastructure: string bodies, heads, lookups -/

theorem skipWs_cons {c : Char} (h : isWs c = false) (r : Str) :
    skipWs (c :: r) = c :: r := by
  simp [skipWs, h]

theorem parseStrBody_escStr (s rest : Str) :
    parseStrBody (escStr s ++ '"' :: rest) = some (s, rest) := by
  induction s with
  | nil =>
      show parseStrBody ('"' :: rest) = some ([], rest)
      unfold parseStrBody
      simp
  | cons c cs ih =>
      simp only [escStr, escChar]
      split_ifs with h1 h2 h3 h4 h5
      · subst h1
        simp only [List.cons_append, List.nil_append]
        unfold parseStrBody
        simp [escCharInv, ih]
      · subst h2
        simp only [List.cons_append, List.nil_append]
        unfold parseStrBody
        simp [escCharInv, ih]
      · subst h3
        simp only [List.cons_append, List.nil_append]
        unfold parseStrBody
        simp [escCharInv, ih]
      · subst h4
        simp only [List.cons_append, List.nil_append]
        unfold parseStrBody
        simp [escCharInv, ih]
      · subst h5
        simp only [List.cons_append, List.nil_append]
        unfold parseStrBody
        simp [escCharInv, ih]
      · simp only [List.cons_append, List.nil_append]
        unfold parseStrBody
        simp [h1, h2, ih]

theorem natChars_head (n : Nat) : ∃ d t, d < 10 ∧ natChars n = digChar d :: t := by
  induction n using Nat.strong_induction_on with
  | _ n ih =>
    rw [natChars_eq]
    split
    · next h => exact ⟨n, [], h, rfl⟩
    · next h =>
        obtain ⟨d, t, hd, ht⟩ := ih (n / 10) (Nat.div_lt_self (by omega) (by omega))
        exact ⟨d, t ++ [digChar (n % 10)], hd, by rw [ht]; rfl⟩

theorem digChar_ne {d : Nat} (h : d < 10) {c : Char}
    (hc : c.toNat < 48 ∨ 57 < c.toNat) : digChar d ≠ c := by
  intro he
  have ht := digChar_toNat h
  rw [he] at ht
  omega

/-- Heads of serializer output: a non-whitespace character that closes
neither bracket. -/
theorem stringify_headOk (v : JVal) :
    ∃ c t, jsonStringify v = c :: t ∧ isWs c = false ∧ c ≠ ']' ∧ c ≠ '}' := by
  cases v with
  | null =>
      refine ⟨'n', _, rfl, ?_, ?_, ?_⟩ <;> decide
  | bool b =>
      cases b with
      | true => refine ⟨'t', _, rfl, ?_, ?_, ?_⟩ <;> decide
      | false => refine ⟨'f', _, rfl, ?_, ?_, ?_⟩ <;> decide
  | num n =>
      show ∃ c t, intChars n = c :: t ∧ _
      unfold intChars
      split
      · refine ⟨'-', _, rfl, ?_, ?_, ?_⟩ <;> decide
      · obtain ⟨d, t, hd, ht⟩ := natChars_head n.natAbs
        refine ⟨digChar d, t, ht, ?_, ?_, ?_⟩
        · exact not_ws_of_digit (isDigit_digChar hd)
        · exact digChar_ne hd (by right; decide)
        · exact digChar_ne hd (by right; decide)
  | str s =>
      refine ⟨'"', _, rfl, ?_, ?_, ?_⟩ <;> decide
  | arr xs =>
      cases xs with
      | nil => refine ⟨'[', _, rfl, ?_, ?_, ?_⟩ <;> decide
      | cons x xs => refine ⟨'[', _, rfl, ?_, ?_, ?_⟩ <;> decide
  | obj kvs =>
      cases kvs with
      | nil => refine ⟨'\x7b', _, rfl, ?_, ?_, ?_⟩ <;> decide
      | cons kv kvs =>
          obtain ⟨k, v⟩ := kv
          refine ⟨'\x7b', _, rfl, ?_, ?_, ?_⟩ <;> decide

theorem lookupE_none_of {kvs : List (Str × JVal)} {k : Str}
    (h : ∀ kv ∈ kvs, kv.1 ≠ k) : lookupE kvs k = none := by
  induction kvs with
  | nil => rfl
  | cons kv rest ih =>
      obtain ⟨k', v'⟩ := kv
      have hne : k' ≠ k := h (k', v') (List.mem_cons_self _ _)
      simp only [lookupE, if_neg hne]
      exact ih fun kv hm => h kv (List.mem_cons_of_mem _ hm)

theorem dedupCons_of_none {kvs : List (Str × JVal)} {k : Str} {v : JVal}
    (h : lookupE kvs k = none) : dedupCons k v kvs = (k, v) :: kvs := by
  simp [dedupCons, h]

theorem notDigitHead_arrTail (xs : List JVal) (rest : Str) :
    notDigitHead (stringifyArrTail xs ++ ']' :: rest) := by
  cases xs with
  | nil => exact (by decide : (']' : Char).isDigit = false)
  | cons y ys => exact (by decide : (',' : Char).isDigit = false)

theorem notDigitHead_objTail (kvs : List (Str × JVal)) (rest : Str) :
    notDigitHead (stringifyObjTail kvs ++ '}' :: rest) := by
  cases kvs with
  | nil => exact (by decide : ('}' : Char).isDigit = false)
  | cons kv kvs => exact (by decide : (',' : Char).isDigit = false)

/-! ## The serializer/parser round trip -/

theorem jsize_pos (v : JVal) : 1 ≤ jsize v := by
  cases v <;> simp [jsize]

theorem parse_rt_fuel : ∀ fuel : Nat,
    (∀ v : JVal, wfKeys v = true → jsize v ≤ fuel → ∀ rest : Str, notDigitHead rest →
      parseVal fuel (jsonStringify v ++ rest) = some (v, rest)) ∧
    (∀ (x : JVal) (xs : List JVal), wfKeysArr (x :: xs) = true →
      jsizeArr (x :: xs) ≤ fuel → ∀ rest : Str,
      parseArrElems fuel (jsonStringify x ++ (stringifyArrTail xs ++ ']' :: rest))
        = some (x :: xs, rest)) ∧
    (∀ (k : Str) (v : JVal) (kvs : List (Str × JVal)),
      noDupKeys ((k, v) :: kvs) = true → wfKeysObj ((k, v) :: kvs) = true →
      jsizeObj ((k, v) :: kvs) ≤ fuel → ∀ rest : Str,
      parseObjEnts fuel ('"' :: (escStr k ++ '"' :: ':'
          :: (jsonStringify v ++ (stringifyObjTail kvs ++ '}' :: rest))))
        = some ((k, v) :: kvs, rest)) := by
  intro fuel
  induction fuel with
  | zero =>
      refine ⟨fun v _ hv => absurd hv (by have := jsize_pos v; omega), ?_, ?_⟩
      · intro x xs _ hs
        exact absurd hs (by simp [jsizeArr])
      · intro k v kvs _ _ hs
        exact absurd hs (by simp [jsizeObj])
  | succ f ih =>
      obtain ⟨ihV, ihA, ihO⟩ := ih
      refine ⟨?_, ?_, ?_⟩
      · -- parseVal
        intro v hwf hf rest hrest
        cases v with
        | null =>
            show parseVal (f + 1) ('n' :: 'u' :: 'l' :: 'l' :: rest) = _
            unfold parseVal
            rw [skipWs_cons (by decide)]
            simp [dropLit]
        | bool b =>
            cases b with
            | true =>
                show parseVal (f + 1) ('t' :: 'r' :: 'u' :: 'e' :: rest) = _
                unfold parseVal
                rw [skipWs_cons (by decide)]
                simp [dropLit]
            | false =>
                show parseVal (f + 1) ('f' :: 'a' :: 'l' :: 's' :: 'e' :: rest) = _
                unfold parseVal
                rw [skipWs_cons (by decide)]
                simp [dropLit]
        | num n =>
            by_cases hn : n < 0
            · have he : jsonStringify (.num n) = '-' :: natChars n.natAbs := by
                simp [jsonStringify, intChars, hn]
              rw [he]
              simp only [List.cons_append]
              unfold parseVal
              rw [skipWs_cons (by decide)]
              simp only [if_neg (by decide : ¬('-' : Char) = 'n'),
                if_neg (by decide : ¬('-' : Char) = 't'),
                if_neg (by decide : ¬('-' : Char) = 'f'),
                if_neg (by decide : ¬('-' : Char) = '"'),
                if_neg (by decide : ¬('-' : Char) = '['),
                if_neg (by decide : ¬('-' : Char) = '{'),
                if_pos (rfl : ('-' : Char) = '-')]
              rw [parseDigits_natChars n.natAbs rest hrest]
              simp only [Option.map_some']
              have hna : (-(n.natAbs : Int)) = n := by omega
              rw [hna]
              simp
            · have he : jsonStringify (.num n) = natChars n.natAbs := by
                simp [jsonStringify, intChars, hn]
              obtain ⟨d, t, hd, ht⟩ := natChars_head n.natAbs
              rw [he, ht]
              simp only [List.cons_append]
              unfold parseVal
              rw [skipWs_cons (not_ws_of_digit (isDigit_digChar hd))]
              simp only [if_neg (digChar_ne hd (by right; decide) : ¬digChar d = 'n'),
                if_neg (digChar_ne hd (by right; decide) : ¬digChar d = 't'),
                if_neg (digChar_ne hd (by right; decide) : ¬digChar d = 'f'),
                if_neg (digChar_ne hd (by left; decide) : ¬digChar d = '"'),
                if_neg (digChar_ne hd (by right; decide) : ¬digChar d = '['),
                if_neg (digChar_ne hd (by right; decide) : ¬digChar d = '{'),
                if_neg (digChar_ne hd (by left; decide) : ¬digChar d = '-'),
                if_pos (isDigit_digChar hd)]
              rw [← List.cons_append, ← ht, parseDigits_natChars n.natAbs rest hrest]
              simp only [Option.map_some']
              have hna : ((n.natAbs : Int)) = n := by omega
              rw [hna]
        | str s =>
            have he : jsonStringify (.str s) ++ rest = '"' :: (escStr s ++ '"' :: rest) := by
              simp [jsonStringify]
            rw [he]
            unfold parseVal
            rw [skipWs_cons (by decide)]
            simp only [if_neg (by decide : ¬('"' : Char) = 'n'),
              if_neg (by decide : ¬('"' : Char) = 't'),
              if_neg (by decide : ¬('"' : Char) = 'f'),
              if_pos (rfl : ('"' : Char) = '"')]
            rw [parseStrBody_escStr]
            rfl
        | arr xs =>
            cases xs with
            | nil =>
                show parseVal (f + 1) ('[' :: ']' :: rest) = _
                unfold parseVal
                rw [skipWs_cons (by decide)]
                simp only [if_neg (by decide : ¬('[' : Char) = 'n'),
                  if_neg (by decide : ¬('[' : Char) = 't'),
                  if_neg (by decide : ¬('[' : Char) = 'f'),
                  if_neg (by decide : ¬('[' : Char) = '"'),
                  if_pos (rfl : ('[' : Char) = '[')]
                rw [skipWs_cons (by decide)]
                simp
            | cons x xs =>
                have he : jsonStringify (.arr (x :: xs)) ++ rest
                    = '[' :: (jsonStringify x ++ (stringifyArrTail xs ++ ']' :: rest)) := by
                  simp [jsonStringify]
                rw [he]
                unfold parseVal
                rw [skipWs_cons (by decide)]
                simp only [if_neg (by decide : ¬('[' : Char) = 'n'),
                  if_neg (by decide : ¬('[' : Char) = 't'),
                  if_neg (by decide : ¬('[' : Char) = 'f'),
                  if_neg (by decide : ¬('[' : Char) = '"'),
                  if_pos (rfl : ('[' : Char) = '[')]
                obtain ⟨c, t, hco, hws, hner, hneb⟩ := stringify_headOk x
                rw [hco]
                simp only [List.cons_append]
                rw [skipWs_cons hws]
                simp only [if_neg hner]
                rw [← List.cons_append, ← hco]
                have hwf' : wfKeysArr (x :: xs) = true := by
                  simpa [wfKeys] using hwf
                rw [ihA x xs hwf' (by simp [jsize] at hf; omega) rest]
                rfl
        | obj kvs =>
            cases kvs with
            | nil =>
                show parseVal (f + 1) ('{' :: '}' :: rest) = _
                unfold parseVal
                rw [skipWs_cons (by decide)]
                simp only [if_neg (by decide : ¬('{' : Char) = 'n'),
                  if_neg (by decide : ¬('{' : Char) = 't'),
                  if_neg (by decide : ¬('{' : Char) = 'f'),
                  if_neg (by decide : ¬('{' : Char) = '"'),
                  if_neg (by decide : ¬('{' : Char) = '['),
                  if_pos (rfl : ('{' : Char) = '{')]
                rw [skipWs_cons (by decide)]
                simp
            | cons kv kvs =>
                obtain ⟨k, v⟩ := kv
                have he : jsonStringify (.obj ((k, v) :: kvs)) ++ rest
                    = '{' :: ('"' :: (escStr k ++ '"' :: ':'
                        :: (jsonStringify v ++ (stringifyObjTail kvs ++ '}' :: rest)))) := by
                  simp [jsonStringify]
                rw [he]
                unfold parseVal
                rw [skipWs_cons (by decide)]
                simp only [if_neg (by decide : ¬('{' : Char) = 'n'),
                  if_neg (by decide : ¬('{' : Char) = 't'),
                  if_neg (by decide : ¬('{' : Char) = 'f'),
                  if_neg (by decide : ¬('{' : Char) = '"'),
                  if_neg (by decide : ¬('{' : Char) = '['),
                  if_pos (rfl : ('{' : Char) = '{')]
                rw [skipWs_cons (by decide)]
                simp only [if_neg (by decide : ¬('"' : Char) = '}')]
                have hnd : noDupKeys ((k, v) :: kvs) = true := by
                  simp only [wfKeys, Bool.and_eq_true] at hwf
                  exact hwf.1
                have hwo : wfKeysObj ((k, v) :: kvs) = true := by
                  simp only [wfKeys, Bool.and_eq_true] at hwf
                  exact hwf.2
                rw [ihO k v kvs hnd hwo (by simp [jsize] at hf; omega) rest]
                rfl
      · -- parseArrElems
        intro x xs hwf hf rest
        simp only [wfKeysArr, Bool.and_eq_true] at hwf
        unfold parseArrElems
        rw [ihV x hwf.1 (by simp [jsizeArr] at hf; have := jsize_pos x; omega) _
          (notDigitHead_arrTail xs rest)]
        cases xs with
        | nil =>
            simp [stringifyArrTail, skipWs_cons (show isWs ']' = false from by decide)]
        | cons y ys =>
            have he : stringifyArrTail (y :: ys) ++ ']' :: rest
                = ',' :: (jsonStringify y ++ (stringifyArrTail ys ++ ']' :: rest)) := by
              simp [stringifyArrTail]
            rw [he]
            simp only [skipWs_cons (show isWs ',' = false from by decide),
              if_pos (rfl : (',' : Char) = ',')]
            rw [ihA y ys hwf.2 (by simp [jsizeArr] at hf ⊢; omega) rest]
            rfl
      · -- parseObjEnts
        intro k v kvs hnd hwf hf rest
        simp only [wfKeysObj, Bool.and_eq_true] at hwf
        simp only [noDupKeys, Bool.and_eq_true] at hnd
        unfold parseObjEnts
        rw [skipWs_cons (by decide)]
        simp only [if_pos (rfl : ('"' : Char) = '"')]
        rw [parseStrBody_escStr k
          (':' :: (jsonStringify v ++ (stringifyObjTail kvs ++ '}' :: rest)))]
        simp only [skipWs_cons (show isWs ':' = false from by decide),
          if_pos (rfl : (':' : Char) = ':')]
        rw [ihV v hwf.1 (by simp [jsizeObj] at hf; omega) _
          (notDigitHead_objTail kvs rest)]
        cases kvs with
        | nil =>
            rfl
        | cons kv2 kvs2 =>
            obtain ⟨k2, v2⟩ := kv2
            have he : stringifyObjTail ((k2, v2) :: kvs2) ++ '}' :: rest
                = ',' :: ('"' :: (escStr k2 ++ '"' :: ':'
                    :: (jsonStringify v2 ++ (stringifyObjTail kvs2 ++ '}' :: rest)))) := by
              simp [stringifyObjTail]
            rw [he]
            simp only [skipWs_cons (show isWs ',' = false from by decide),
              if_pos (rfl : (',' : Char) = ',')]
            rw [ihO k2 v2 kvs2 hnd.2 hwf.2 (by simp [jsizeObj] at hf ⊢; omega) rest]
            simp only [Option.map_some']
            have hlk : lookupE ((k2, v2) :: kvs2) k = none := by
              apply lookupE_none_of
              intro kv hm
              have hall := hnd.1
              simp only [List.all_eq_true] at hall
              have h2 := hall kv hm
              simpa using h2
            rw [dedupCons_of_none hlk]
            simp

theorem jsize_le_len_fuel : ∀ n : Nat,
    (∀ v : JVal, jsize v ≤ n → jsize v ≤ (jsonStringify v).length) ∧
    (∀ xs : List JVal, jsizeArr xs ≤ n → jsizeArr xs ≤ (stringifyArrTail xs).length) ∧
    (∀ kvs : List (Str × JVal), jsizeObj kvs ≤ n →
      jsizeObj kvs ≤ (stringifyObjTail kvs).length) := by
  intro n
  induction n with
  | zero =>
      refine ⟨fun v hv => absurd hv (by have := jsize_pos v; omega), ?_, ?_⟩
      · intro xs hs
        cases xs with
        | nil => simp [jsizeArr]
        | cons x xs => exact absurd hs (by simp [jsizeArr])
      · intro kvs hs
        cases kvs with
        | nil => simp [jsizeObj]
        | cons kv kvs => exact absurd hs (by simp [jsizeObj])
  | succ n ih =>
      obtain ⟨iv, ia, io⟩ := ih
      refine ⟨?_, ?_, ?_⟩
      · intro v hv
        cases v with
        | null => simp [jsize, jsonStringify]
        | bool b => cases b <;> simp [jsize, jsonStringify]
        | num m =>
            have h1 : natChars m.natAbs ≠ [] := natChars_ne_nil _
            have h2 : 1 ≤ (natChars m.natAbs).length := by
              cases hc : natChars m.natAbs with
              | nil => exact absurd hc h1
              | cons c cs => simp
            simp only [jsize, jsonStringify, intChars]
            split <;> simp <;> omega
        | str s => simp [jsize, jsonStringify]
        | arr xs =>
            cases xs with
            | nil => simp [jsize, jsizeArr, jsonStringify]
            | cons x xs =>
                have hb : jsizeArr (x :: xs) ≤ n := by
                  simp only [jsize] at hv
                  omega
                have := ia (x :: xs) hb
                simp only [jsize, jsonStringify, stringifyArrTail, List.length_cons,
                  List.length_append, jsizeArr] at *
                omega
        | obj kvs =>
            cases kvs with
            | nil => simp [jsize, jsizeObj, jsonStringify]
            | cons kv kvs =>
                obtain ⟨k, v⟩ := kv
                have hb : jsizeObj ((k, v) :: kvs) ≤ n := by
                  simp only [jsize] at hv
                  omega
                have := io ((k, v) :: kvs) hb
                simp only [jsize, jsonStringify, stringifyObjTail, List.length_cons,
                  List.length_append, jsizeObj] at *
                omega
      · intro xs hs
        cases xs with
        | nil => simp [jsizeArr]
        | cons x xs =>
            have hv : jsize x ≤ n := by
              simp only [jsizeArr] at hs
              have := jsize_pos x
              omega
            have hxs : jsizeArr xs ≤ n := by
              simp only [jsizeArr] at hs
              have := jsize_pos x
              omega
            have h1 := iv x hv
            have h2 := ia xs hxs
            simp only [jsizeArr, stringifyArrTail, List.length_cons, List.length_append] at *
            omega
      · intro kvs hs
        cases kvs with
        | nil => simp [jsizeObj]
        | cons kv kvs =>
            obtain ⟨k, v⟩ := kv
            have hv : jsize v ≤ n := by
              simp only [jsizeObj] at hs
              have := jsize_pos v
              omega
            have hkvs : jsizeObj kvs ≤ n := by
              simp only [jsizeObj] at hs
              have := jsize_pos v
              omega
            have h1 := iv v hv
            have h2 := io kvs hkvs
            simp only [jsizeObj, stringifyObjTail, List.length_cons, List.length_append] at *
            omega

theorem jsize_le_len (v : JVal) : jsize v ≤ (jsonStringify v).length :=
  (jsize_le_len_fuel (jsize v)).1 v le_rfl

/-- The round trip: parsing serializer output returns the document, for
every document whose objects have distinct keys. -/
theorem jsonParse_stringify (v : JVal) (hwf : wfKeys v = true) :
    jsonParse (jsonStringify v) = some v := by
  unfold jsonParse
  have hb : jsize v ≤ (jsonStringify v).length + 1 :=
    le_trans (jsize_le_len v) (by omega)
  have hp := (parse_rt_fuel ((jsonStringify v).length + 1)).1 v hwf hb [] trivial
  rw [List.append_nil] at hp
  rw [hp]
  simp [skipWs]

end SwapCore

namespace SwapCore

/-! ## Entry-list lemmas -/

theorem lookupE_none_iff {kvs : List (Str × JVal)} {k : Str} :
    lookupE kvs k = none ↔ ∀ kv ∈ kvs, kv.1 ≠ k := by
  induction kvs with
  | nil => simp [lookupE]
  | cons kv rest ih =>
      obtain ⟨k', v'⟩ := kv
      by_cases h : k' = k
      · simp only [lookupE, if_pos h]
        constructor
        · intro hc
          cases hc
        · intro ha
          exact absurd h (by simpa using ha (k', v') (List.mem_cons_self _ _))
      · simp only [lookupE, if_neg h, ih, List.mem_cons]
        constructor
        · rintro ha kv (rfl | hm)
          · exact h
          · exact ha kv hm
        · intro ha kv hm
          exact ha kv (Or.inr hm)

theorem wf_lookupE {kvs : List (Str × JVal)} {k : Str} {v : JVal}
    (hwf : wfKeysObj kvs = true) (hl : lookupE kvs k = some v) : wfKeys v = true := by
  induction kvs with
  | nil => cases hl
  | cons kv rest ih =>
      obtain ⟨k', v'⟩ := kv
      simp only [wfKeysObj, Bool.and_eq_true] at hwf
      by_cases h : k' = k
      · simp only [lookupE, if_pos h] at hl
        cases hl
        exact hwf.1
      · simp only [lookupE, if_neg h] at hl
        exact ih hwf.2 hl

theorem eraseKey_mem {kvs : List (Str × JVal)} {k : Str} {kv : Str × JVal}
    (h : kv ∈ eraseKey kvs k) : kv ∈ kvs ∧ kv.1 ≠ k := by
  induction kvs with
  | nil => simp [eraseKey] at h
  | cons kv' rest ih =>
      obtain ⟨k', v'⟩ := kv'
      by_cases hk : k' = k
      · simp only [eraseKey, if_pos hk] at h
        obtain ⟨h1, h2⟩ := ih h
        exact ⟨List.mem_cons_of_mem _ h1, h2⟩
      · simp only [eraseKey, if_neg hk] at h
        rcases List.mem_cons.mp h with rfl | hm
        · exact ⟨List.mem_cons_self _ _, hk⟩
        · obtain ⟨h1, h2⟩ := ih hm
          exact ⟨List.mem_cons_of_mem _ h1, h2⟩

theorem noDupKeys_eraseKey {kvs : List (Str × JVal)} {k : Str}
    (h : noDupKeys kvs = true) : noDupKeys (eraseKey kvs k) = true := by
  induction kvs with
  | nil => exact h
  | cons kv rest ih =>
      obtain ⟨k', v'⟩ := kv
      simp only [noDupKeys, Bool.and_eq_true, List.all_eq_true] at h
      by_cases hk : k' = k
      · simp only [eraseKey, if_pos hk]
        exact ih h.2
      · simp only [eraseKey, if_neg hk, noDupKeys, Bool.and_eq_true, List.all_eq_true]
        refine ⟨?_, ih h.2⟩
        intro kv hm
        exact h.1 kv (eraseKey_mem hm).1

theorem wfKeysObj_eraseKey {kvs : List (Str × JVal)} {k : Str}
    (h : wfKeysObj kvs = true) : wfKeysObj (eraseKey kvs k) = true := by
  induction kvs with
  | nil => exact h
  | cons kv rest ih =>
      obtain ⟨k', v'⟩ := kv
      simp only [wfKeysObj, Bool.and_eq_true] at h
      by_cases hk : k' = k
      · simp only [eraseKey, if_pos hk]
        exact ih h.2
      · simp only [eraseKey, if_neg hk, wfKeysObj, Bool.and_eq_true]
        exact ⟨h.1, ih h.2⟩

theorem dedupCons_wf {k : Str} {v : JVal} {kvs : List (Str × JVal)}
    (hk : (noDupKeys kvs && wfKeysObj kvs) = true) (hv : wfKeys v = true) :
    (noDupKeys (dedupCons k v kvs) && wfKeysObj (dedupCons k v kvs)) = true := by
  simp only [Bool.and_eq_true] at hk
  unfold dedupCons
  cases hl : lookupE kvs k with
  | none =>
      simp only [noDupKeys, wfKeysObj, Bool.and_eq_true, List.all_eq_true]
      refine ⟨⟨?_, hk.1⟩, hv, hk.2⟩
      intro kv hm
      simpa using (lookupE_none_iff.mp hl) kv hm
  | some v' =>
      simp only [noDupKeys, wfKeysObj, Bool.and_eq_true, List.all_eq_true]
      refine ⟨⟨?_, noDupKeys_eraseKey hk.1⟩, wf_lookupE hk.2 hl, wfKeysObj_eraseKey hk.2⟩
      intro kv hm
      simpa using (eraseKey_mem hm).2

/-! ## The parser output is well-formed -/

theorem parse_wf_fuel : ∀ fuel : Nat,
    (∀ s v r, parseVal fuel s = some (v, r) → wfKeys v = true) ∧
    (∀ s xs r, parseArrElems fuel s = some (xs, r) → wfKeysArr xs = true) ∧
    (∀ s kvs r, parseObjEnts fuel s = some (kvs, r) →
      (noDupKeys kvs && wfKeysObj kvs) = true) := by
  intro fuel
  induction fuel with
  | zero =>
      refine ⟨?_, ?_, ?_⟩ <;> intro s a r h <;>
        simp [parseVal, parseArrElems, parseObjEnts] at h
  | succ f ih =>
      obtain ⟨ihV, ihA, ihO⟩ := ih
      refine ⟨?_, ?_, ?_⟩
      · intro s v r h
        unfold parseVal at h
        split at h
      
        · exact absurd h (by simp)
        · split_ifs at h with h1 h2 h3 h4 h5 h6 h7 h8
          · rcases Option.map_eq_some'.mp h with ⟨r', _, he⟩
            cases he
            rfl
          · rcases Option.map_eq_some'.mp h with ⟨r', _, he⟩
            cases he
            rfl
          · rcases Option.map_eq_some'.mp h with ⟨r', _, he⟩
            cases he
            rfl
          · rcases Option.map_eq_some'.mp h with ⟨p, _, he⟩
            cases he
            rfl
          · split at h
            · exact absurd h (by simp)
            · split_ifs at h with hb
              · cases h
                rfl
              · rcases Option.map_eq_some'.mp h with ⟨p, hp, he⟩
                cases he
                exact ihA _ _ _ hp
          · split at h
            · exact absurd h (by simp)
            · split_ifs at h with hb
              · cases h
                rfl
              · rcases Option.map_eq_some'.mp h with ⟨p, hp, he⟩
                cases he
                exact ihO _ _ _ hp
          · rcases Option.map_eq_some'.mp h with ⟨p, _, he⟩
            cases he
            rfl
          · rcases Option.map_eq_some'.mp h with ⟨p, _, he⟩
            cases he
            rfl
      · intro s xs r h
        unfold parseArrElems at h
        split at h
        · exact absurd h (by simp)
        · next v rv hp =>
            split at h
            · exact absurd h (by simp)
            · split_ifs at h with h1 h2
              · rcases Option.map_eq_some'.mp h with ⟨p2, hp2, he⟩
                cases he
                simp [wfKeysArr, ihV _ _ _ hp, ihA _ _ _ hp2]
              · cases h
                simp [wfKeysArr, ihV _ _ _ hp]
      · intro s kvs r h
        unfold parseObjEnts at h
        split at h
        · exact absurd h (by simp)
        · split_ifs at h with h1
          · split at h
            · exact absurd h (by simp)
            · next k r1 hps =>
                split at h
                · exact absurd h (by simp)
                · split_ifs at h with hc
                  · split at h
                    · exact absurd h (by simp)
                    · next v r3 hpv =>
                        split at h
                        · exact absurd h (by simp)
                        · split_ifs at h with hcomma hbrace
                          · rcases Option.map_eq_some'.mp h with ⟨p2, hp2, he⟩
                            cases he
                            exact dedupCons_wf (ihO _ _ _ hp2) (ihV _ _ _ hpv)
                          · cases h
                            simp [noDupKeys, wfKeysObj, ihV _ _ _ hpv]

theorem jsonParse_wf {s : Str} {v : JVal} (h : jsonParse s = some v) :
    wfKeys v = true := by
  unfold jsonParse at h
  split at h
  · next v' r hp =>
      split_ifs at h
      cases h
      exact (parse_wf_fuel (s.length + 1)).1 _ _ _ hp
  · exact absurd h (by simp)

end SwapCore

namespace SwapCore

/-! ## UTF-8 and base64 round trips -/

theorem utf8EncodeChar_lt {c : Char} : ∀ b ∈ utf8EncodeChar c, b < 256 := by
  intro b hb
  have hv := c.valid
  simp only [utf8EncodeChar, Char.toNat] at hb
  rcases hv with h | ⟨h1, h2⟩ <;>
    split_ifs at hb <;> simp at hb <;> rcases hb with rfl | rfl | rfl | rfl <;> omega

theorem utf8Encode_lt (s : Str) : ∀ b ∈ utf8Encode s, b < 256 := by
  induction s with
  | nil => simp [utf8Encode]
  | cons c cs ih =>
      intro b hb
      simp only [utf8Encode, List.mem_append] at hb
      rcases hb with h | h
      · exact utf8EncodeChar_lt b h
      · exact ih b h

theorem char_valid_bounds (c : Char) : c.toNat < 1114112 ∧ ¬(55296 ≤ c.toNat ∧ c.toNat < 57344) := by
  have hv := c.valid
  simp only [Char.toNat]
  rcases hv with h | ⟨h1, h2⟩
  · constructor
    · omega
    · omega
  · constructor
    · omega
    · omega

theorem utf8Decode_encodeChar (c : Char) (bs : List Nat) :
    utf8Decode (utf8EncodeChar c ++ bs) = (utf8Decode bs).map (c :: ·) := by
  obtain ⟨hlt, hsur⟩ := char_valid_bounds c
  have hofc : Char.ofNat c.toNat = c := Char.ofNat_toNat c
  simp only [utf8EncodeChar]
  split_ifs with h1 h2 h3
  · simp only [List.cons_append, List.nil_append]
    conv_lhs => rw [utf8Decode.eq_def]
    simp only [if_pos h1, hofc]
  · simp only [List.cons_append, List.nil_append]
    conv_lhs => rw [utf8Decode.eq_def]
    have hb0 : ¬(192 + c.toNat / 64 < 128) := by omega
    have hb1 : ¬(192 + c.toNat / 64 < 192) := by omega
    have hb2 : 192 + c.toNat / 64 < 224 := by omega
    have hcont : isCont (128 + c.toNat % 64) = true := by
      simp only [isCont, Bool.and_eq_true, decide_eq_true_eq]
      omega
    have hval : (192 + c.toNat / 64 - 192) * 64 + (128 + c.toNat % 64 - 128) = c.toNat := by
      omega
    have hge : 128 ≤ c.toNat := by omega
    simp only [if_neg hb0, if_neg hb1, if_pos hb2, hcont, eq_self_iff_true, if_true,
      hval, if_pos hge, hofc]
  · simp only [List.cons_append, List.nil_append]
    conv_lhs => rw [utf8Decode.eq_def]
    have hb0 : ¬(224 + c.toNat / 4096 < 128) := by omega
    have hb1 : ¬(224 + c.toNat / 4096 < 192) := by omega
    have hb2 : ¬(224 + c.toNat / 4096 < 224) := by omega
    have hb3 : 224 + c.toNat / 4096 < 240 := by omega
    have hcont1 : isCont (128 + c.toNat / 64 % 64) = true := by
      simp only [isCont, Bool.and_eq_true, decide_eq_true_eq]
      omega
    have hcont2 : isCont (128 + c.toNat % 64) = true := by
      simp only [isCont, Bool.and_eq_true, decide_eq_true_eq]
      omega
    have hval : (224 + c.toNat / 4096 - 224) * 4096 + (128 + c.toNat / 64 % 64 - 128) * 64
        + (128 + c.toNat % 64 - 128) = c.toNat := by
      omega
    have hcond : (decide (2048 ≤ c.toNat)
        && decide ¬(decide (55296 ≤ c.toNat) && decide (c.toNat < 57344) = true)) = true := by
      simp only [Bool.and_eq_true, decide_eq_true_eq]
      omega
    simp only [if_neg hb0, if_neg hb1, if_neg hb2, if_pos hb3, hcont1, hcont2,
      Bool.and_self, eq_self_iff_true, if_true, hval]
    rw [if_pos (by simp only [Bool.and_eq_true, decide_eq_true_eq]; omega)]
    rw [hofc]
  · simp only [List.cons_append, List.nil_append]
    conv_lhs => rw [utf8Decode.eq_def]
    have hge : 65536 ≤ c.toNat := by omega
    have hb0 : ¬(240 + c.toNat / 262144 < 128) := by omega
    have hb1 : ¬(240 + c.toNat / 262144 < 192) := by omega
    have hb2 : ¬(240 + c.toNat / 262144 < 224) := by omega
    have hb3 : ¬(240 + c.toNat / 262144 < 240) := by omega
    have hb4 : 240 + c.toNat / 262144 < 248 := by omega
    have hcont1 : isCont (128 + c.toNat / 4096 % 64) = true := by
      simp only [isCont, Bool.and_eq_true, decide_eq_true_eq]
      omega
    have hcont2 : isCont (128 + c.toNat / 64 % 64) = true := by
      simp only [isCont, Bool.and_eq_true, decide_eq_true_eq]
      omega
    have hcont3 : isCont (128 + c.toNat % 64) = true := by
      simp only [isCont, Bool.and_eq_true, decide_eq_true_eq]
      omega
    have hval : (240 + c.toNat / 262144 - 240) * 262144 + (128 + c.toNat / 4096 % 64 - 128) * 4096
        + (128 + c.toNat / 64 % 64 - 128) * 64 + (128 + c.toNat % 64 - 128) = c.toNat := by
      omega
    simp only [if_neg hb0, if_neg hb1, if_neg hb2, if_neg hb3, if_pos hb4, hcont1, hcont2,
      hcont3, Bool.and_self, eq_self_iff_true, if_true, hval]
    rw [if_pos (by simp only [Bool.and_eq_true, decide_eq_true_eq]; omega)]
    rw [hofc]

theorem utf8Decode_encode (s : Str) : utf8Decode (utf8Encode s) = some s := by
  induction s with
  | nil => rfl
  | cons c cs ih =>
      show utf8Decode (utf8EncodeChar c ++ utf8Encode cs) = _
      rw [utf8Decode_encodeChar, ih]
      rfl

theorem b64Val_b64Char {n : Nat} (h : n < 64) : b64Val (b64Char n) = some n := by
  have hA : ('A' : Char).toNat = 65 := rfl
  have ha : ('a' : Char).toNat = 97 := rfl
  have h0 : ('0' : Char).toNat = 48 := rfl
  have hZ : ('Z' : Char).toNat = 90 := rfl
  have hz : ('z' : Char).toNat = 122 := rfl
  have h9 : ('9' : Char).toNat = 57 := rfl
  by_cases h1 : n < 26
  · have hc : b64Char n = Char.ofNat (65 + n) := by
      simp only [b64Char, if_pos h1, hA]
    have ht : (Char.ofNat (65 + n)).toNat = 65 + n := char_toNat_ofNat (by omega)
    rw [hc]
    simp only [b64Val, ht, hA, ha, h0, hZ, hz, h9]
    rw [if_pos (by simp only [Bool.and_eq_true, decide_eq_true_eq]; omega)]
    simp only [Option.some.injEq]
    omega
  · by_cases h2 : n < 52
    · have hc : b64Char n = Char.ofNat (97 + (n - 26)) := by
        simp only [b64Char, if_neg h1, if_pos h2, ha]
      have ht : (Char.ofNat (97 + (n - 26))).toNat = 97 + (n - 26) :=
        char_toNat_ofNat (by omega)
      rw [hc]
      simp only [b64Val, ht, hA, ha, h0, hZ, hz, h9]
      rw [if_neg (by simp only [Bool.and_eq_true, decide_eq_true_eq]; omega)]
      rw [if_pos (by simp only [Bool.and_eq_true, decide_eq_true_eq]; omega)]
      simp only [Option.some.injEq]
      omega
    · by_cases h3 : n < 62
      · have hc : b64Char n = Char.ofNat (48 + (n - 52)) := by
          simp only [b64Char, if_neg h1, if_neg h2, if_pos h3, h0]
        have ht : (Char.ofNat (48 + (n - 52))).toNat = 48 + (n - 52) :=
          char_toNat_ofNat (by omega)
        rw [hc]
        simp only [b64Val, ht, hA, ha, h0, hZ, hz, h9]
        rw [if_neg (by simp only [Bool.and_eq_true, decide_eq_true_eq]; omega)]
        rw [if_neg (by simp only [Bool.and_eq_true, decide_eq_true_eq]; omega)]
        rw [if_pos (by simp only [Bool.and_eq_true, decide_eq_true_eq]; omega)]
        simp only [Option.some.injEq]
        omega
      · by_cases h4 : n = 62
        · subst h4
          decide
        · have h5 : n = 63 := by omega
          subst h5
          decide

theorem b64Char_ne_pad {n : Nat} (h : n < 64) : b64Char n ≠ '=' := by
  intro he
  have hv := b64Val_b64Char h
  rw [he] at hv
  cases hv

theorem b64DecodeBytes_encode (bs : List Nat) (hb : ∀ b ∈ bs, b < 256) :
    b64DecodeBytes (b64EncodeBytes bs) = some bs := by
  induction bs using b64EncodeBytes.induct with
  | case1 => rfl
  | case2 b0 =>
      have hb0 : b0 < 256 := hb b0 (by simp)
      unfold b64EncodeBytes
      unfold b64DecodeBytes
      rw [if_pos rfl, if_pos rfl, if_pos rfl]
      rw [b64Val_b64Char (show b0 / 4 < 64 by omega),
        b64Val_b64Char (show b0 % 4 * 16 < 64 by omega)]
      simp only [Option.some_bind]
      rw [if_pos (by omega)]
      simp only [Option.some.injEq, List.cons.injEq, and_true]
      omega
  | case3 b0 b1 =>
      have hb0 : b0 < 256 := hb b0 (by simp)
      have hb1 : b1 < 256 := hb b1 (by simp)
      unfold b64EncodeBytes
      unfold b64DecodeBytes
      rw [if_neg (b64Char_ne_pad (show b1 % 16 * 4 < 64 by omega)), if_pos rfl, if_pos rfl]
      rw [b64Val_b64Char (show b0 / 4 < 64 by omega),
        b64Val_b64Char (show b0 % 4 * 16 + b1 / 16 < 64 by omega),
        b64Val_b64Char (show b1 % 16 * 4 < 64 by omega)]
      simp only [Option.some_bind]
      rw [if_pos (by omega)]
      simp only [Option.some.injEq, List.cons.injEq, and_true]
      constructor
      · omega
      · omega
  | case4 b0 b1 b2 r ih =>
      have hb0 : b0 < 256 := hb b0 (by simp)
      have hb1 : b1 < 256 := hb b1 (by simp)
      have hb2 : b2 < 256 := hb b2 (by simp)
      have ih' := ih (fun b hbm => hb b (by simp [hbm]))
      unfold b64EncodeBytes
      unfold b64DecodeBytes
      rw [if_neg (b64Char_ne_pad (show b1 % 16 * 4 + b2 / 64 < 64 by omega)),
        if_neg (b64Char_ne_pad (show b2 % 64 < 64 by omega))]
      rw [b64Val_b64Char (show b0 / 4 < 64 by omega),
        b64Val_b64Char (show b0 % 4 * 16 + b1 / 16 < 64 by omega),
        b64Val_b64Char (show b1 % 16 * 4 + b2 / 64 < 64 by omega),
        b64Val_b64Char (show b2 % 64 < 64 by omega)]
      simp only [Option.some_bind]
      rw [ih']
      simp only [Option.some_bind, Option.some.injEq, List.cons.injEq, and_true]
      refine ⟨?_, ?_, ?_⟩
      · omega
      · omega
      · omega

theorem b64DecodeStr_encodeStr (s : Str) : b64DecodeStr (b64EncodeStr s) = some s := by
  unfold b64DecodeStr b64EncodeStr
  rw [b64DecodeBytes_encode (utf8Encode s) (utf8Encode_lt s)]
  simp only [Option.some_bind]
  exact utf8Decode_encode s

end SwapCore

namespace SwapCore

/-! ## Digest length, numerals, small JS-value lemmas -/

theorem shaDigest_length (st : ShaState) : (shaDigest st).length = 32 := by
  obtain ⟨a, b, c, d, e, f, g, h⟩ := st
  simp [shaDigest, w2b]

theorem sha256_length (msg : List Nat) : (sha256 msg).length = 32 := by
  unfold sha256
  exact shaDigest_length _

theorem hexOfBytes_length (bs : List Nat) : (hexOfBytes bs).length = 2 * bs.length := by
  induction bs with
  | nil => rfl
  | cons b bs ih =>
      show ([hexChar (b / 16), hexChar (b % 16)] ++ hexOfBytes bs).length = _
      simp only [List.length_append, List.length_cons, List.length_nil, ih]
      simp [List.length_cons]
      omega

theorem sha256Hex_length (s : Str) : (sha256Hex s).length = 64 := by
  unfold sha256Hex
  rw [hexOfBytes_length, sha256_length]

theorem fpId_length (token : Str) :
    ∃ fp : Str, fpId token = .str fp ∧ fp.length = 27 := by
  refine ⟨_, rfl, ?_⟩
  simp only [List.length_append, List.length_take, sha256Hex_length]
  rfl

theorem dropWhile_head_neg {p : Char → Bool} {l : Str}
    (h : match l with | [] => True | c :: _ => p c = false) : l.dropWhile p = l := by
  cases l with
  | nil => rfl
  | cons c cs => simp [List.dropWhile, h]

theorem jsTrim_eq_self {l : Str}
    (h1 : match l with | [] => True | c :: _ => isWs c = false)
    (h2 : match l.reverse with | [] => True | c :: _ => isWs c = false) :
    jsTrim l = l := by
  unfold jsTrim
  rw [dropWhile_head_neg h1, dropWhile_head_neg h2, List.reverse_reverse]

theorem natChars_last_digit (n : Nat) :
    ∃ d t, d < 10 ∧ (natChars n).reverse = digChar d :: t := by
  induction n using Nat.strong_induction_on with
  | _ n ih =>
    rw [natChars_eq]
    split
    · next h => exact ⟨n, [], h, rfl⟩
    · next h =>
        refine ⟨n % 10, (natChars (n / 10)).reverse, Nat.mod_lt _ (by omega), ?_⟩
        simp

theorem jsNumber_intChars (n : Int) : jsNumber (intChars n) = some n := by
  have hall := natChars_all_digit n.natAbs
  obtain ⟨d, t, hd, ht⟩ := natChars_head n.natAbs
  obtain ⟨d', t', hd', ht'⟩ := natChars_last_digit n.natAbs
  have hdigits : digitsOnly (natChars n.natAbs) = true := by
    simp only [digitsOnly, Bool.and_eq_true, List.all_eq_true, decide_eq_true_eq]
    exact ⟨by simpa using natChars_ne_nil n.natAbs, fun c hc => hall c hc⟩
  unfold intChars
  split
  · next hn =>
      have htrim : jsTrim ('-' :: natChars n.natAbs) = '-' :: natChars n.natAbs := by
        apply jsTrim_eq_self
        · exact (by decide : isWs '-' = false)
        · show match ('-' :: natChars n.natAbs).reverse with
            | [] => True | c :: _ => isWs c = false
          rw [List.reverse_cons]
          rw [show (natChars n.natAbs).reverse ++ ['-'] = digChar d' :: (t' ++ ['-']) by
            rw [← List.cons_append, ← ht']]
          exact not_ws_of_digit (isDigit_digChar hd')
      unfold jsNumber
      rw [htrim]
      simp only [if_pos (rfl : ('-' : Char) = '-'), if_pos hdigits]
      rw [show digitsVal (natChars n.natAbs) = n.natAbs from digitsVal_natChars _]
      exact congrArg some (by omega)
  · next hn =>
      have htrim : jsTrim (natChars n.natAbs) = natChars n.natAbs := by
        apply jsTrim_eq_self
        · rw [ht]
          exact not_ws_of_digit (isDigit_digChar hd)
        · rw [ht']
          exact not_ws_of_digit (isDigit_digChar hd')
      unfold jsNumber
      rw [htrim]
      rw [ht]
      have hne1 : digChar d ≠ '-' := digChar_ne hd (by left; decide)
      have hne2 : digChar d ≠ '+' := digChar_ne hd (by left; decide)
      have hdig2 : digitsOnly (digChar d :: t) = true := by
        rw [← ht]
        exact hdigits
      simp only [if_neg hne1, if_neg hne2, if_pos hdig2]
      rw [← ht]
      rw [show digitsVal (natChars n.natAbs) = n.natAbs from digitsVal_natChars _]
      exact congrArg some (by omega)

end SwapCore

namespace SwapCore

/-! ## Object update lemmas -/

theorem lookupE_setEntry_self (kvs : List (Str × JVal)) (k : Str) (v : JVal) :
    lookupE (setEntry kvs k v) k = some v := by
  induction kvs with
  | nil => simp [setEntry, lookupE]
  | cons kv rest ih =>
      obtain ⟨k', v'⟩ := kv
      by_cases h : k' = k
      · simp [setEntry, if_pos h, lookupE, h]
      · simp only [setEntry, if_neg h, lookupE, if_neg h]
        exact ih

theorem lookupE_setEntry_ne (kvs : List (Str × JVal)) (k : Str) (v : JVal)
    {k' : Str} (h : k' ≠ k) :
    lookupE (setEntry kvs k v) k' = lookupE kvs k' := by
  induction kvs with
  | nil =>
      simp only [setEntry, lookupE]
      rw [if_neg (fun he => h he.symm)]
  | cons kv rest ih =>
      obtain ⟨k0, v0⟩ := kv
      by_cases h0 : k0 = k
      · subst h0
        simp only [setEntry, if_pos rfl, lookupE]
        rw [if_neg (fun he => h he.symm), if_neg (fun he => h he.symm)]
      · simp only [setEntry, if_neg h0, lookupE]
        by_cases h1 : k0 = k'
        · rw [if_pos h1, if_pos h1]
        · rw [if_neg h1, if_neg h1]
          exact ih

theorem setEntry_mem {kvs : List (Str × JVal)} {k : Str} {v : JVal} {kv : Str × JVal}
    (h : kv ∈ setEntry kvs k v) : kv ∈ kvs ∨ kv.1 = k := by
  induction kvs with
  | nil =>
      simp only [setEntry, List.mem_singleton] at h
      subst h
      exact Or.inr rfl
  | cons kv0 rest ih =>
      obtain ⟨k0, v0⟩ := kv0
      by_cases h0 : k0 = k
      · simp only [setEntry, if_pos h0] at h
        rcases List.mem_cons.mp h with rfl | hm
        · exact Or.inr h0
        · exact Or.inl (List.mem_cons_of_mem _ hm)
      · simp only [setEntry, if_neg h0] at h
        rcases List.mem_cons.mp h with rfl | hm
        · exact Or.inl (List.mem_cons_self _ _)
        · rcases ih hm with h1 | h1
          · exact Or.inl (List.mem_cons_of_mem _ h1)
          · exact Or.inr h1

theorem noDupKeys_setEntry {kvs : List (Str × JVal)} {k : Str} {v : JVal}
    (h : noDupKeys kvs = true) : noDupKeys (setEntry kvs k v) = true := by
  induction kvs with
  | nil => simp [setEntry, noDupKeys]
  | cons kv rest ih =>
      obtain ⟨k0, v0⟩ := kv
      simp only [noDupKeys, Bool.and_eq_true, List.all_eq_true] at h
      by_cases h0 : k0 = k
      · simp only [setEntry, if_pos h0, noDupKeys, Bool.and_eq_true, List.all_eq_true]
        exact ⟨h.1, h.2⟩
      · simp only [setEntry, if_neg h0, noDupKeys, Bool.and_eq_true, List.all_eq_true]
        refine ⟨?_, ih h.2⟩
        intro kv hm
        rcases setEntry_mem hm with h1 | h1
        · exact h.1 kv h1
        · simp only [decide_eq_true_eq, h1]
          exact fun he => h0 (he ▸ rfl)

theorem wfKeysObj_setEntry {kvs : List (Str × JVal)} {k : Str} {v : JVal}
    (h : wfKeysObj kvs = true) (hv : wfKeys v = true) :
    wfKeysObj (setEntry kvs k v) = true := by
  induction kvs with
  | nil => simp [setEntry, wfKeysObj, hv]
  | cons kv rest ih =>
      obtain ⟨k0, v0⟩ := kv
      simp only [wfKeysObj, Bool.and_eq_true] at h
      by_cases h0 : k0 = k
      · simp only [setEntry, if_pos h0, wfKeysObj, Bool.and_eq_true]
        exact ⟨hv, h.2⟩
      · simp only [setEntry, if_neg h0, wfKeysObj, Bool.and_eq_true]
        exact ⟨h.1, ih h.2⟩

theorem wf_getMember {d : JVal} {key : String} {x : JVal}
    (hd : wfKeys d = true) (h : getMember d key = some x) : wfKeys x = true := by
  cases d with
  | obj kvs =>
      simp only [wfKeys, Bool.and_eq_true] at hd
      exact wf_lookupE hd.2 h
  | null => cases h
  | bool b => cases h
  | num n => cases h
  | str s => cases h
  | arr xs => cases h

theorem wfKeys_setMemberJ {d : JVal} {key : String} {x : JVal}
    (hd : wfKeys d = true) (hx : wfKeys x = true) :
    wfKeys (setMemberJ d key x) = true := by
  cases d with
  | obj kvs =>
      simp only [wfKeys, Bool.and_eq_true] at hd
      simp only [setMemberJ, wfKeys, Bool.and_eq_true]
      exact ⟨noDupKeys_setEntry hd.1, wfKeysObj_setEntry hd.2 hx⟩
  | null => exact hd
  | bool b => exact hd
  | num n => exact hd
  | str s => exact hd
  | arr xs => exact hd

theorem getMember_setMemberJ_self (kvs : List (Str × JVal)) (key : String) (x : JVal) :
    getMember (setMemberJ (.obj kvs) key x) key = some x := by
  simp only [setMemberJ, getMember]
  exact lookupE_setEntry_self kvs key.data x

theorem getMember_setMemberJ_ne (kvs : List (Str × JVal)) (key : String) (x : JVal)
    {key' : String} (h : key'.data ≠ key.data) :
    getMember (setMemberJ (.obj kvs) key x) key' = getMember (.obj kvs) key' := by
  simp only [setMemberJ, getMember]
  exact lookupE_setEntry_ne kvs key.data x h

theorem getSubFromCreds_truthy {ct : Str} {v : JVal}
    (h : getSubFromCreds ct = some v) : truthy v = true := by
  unfold getSubFromCreds at h
  split at h
  · cases h
  · split at h
    · split at h
      · split_ifs at h with ht
        · cases h
          assumption
        · cases h
          simp only [fpId, truthy]
          simp
      · cases h
        simp only [fpId, truthy]
        simp
    · cases h
      simp only [fpId, truthy]
      simp
  · cases h

end SwapCore

namespace SwapCore

/-! ## Directory operation and archive filename lemmas -/

theorem dirRead_dirWrite_self (d : List (Str × Str)) (name c : Str) :
    dirRead (dirWrite d name c) name = some c := by
  induction d with
  | nil => simp [dirWrite, dirRead]
  | cons nc rest ih =>
      obtain ⟨n, c0⟩ := nc
      by_cases h : n = name
      · simp [dirWrite, if_pos h, dirRead, h]
      · simp only [dirWrite, if_neg h, dirRead, if_neg h]
        exact ih

theorem dirRead_dirWrite_ne (d : List (Str × Str)) (name c : Str)
    {name' : Str} (h : name' ≠ name) :
    dirRead (dirWrite d name c) name' = dirRead d name' := by
  induction d with
  | nil =>
      simp only [dirWrite, dirRead]
      rw [if_neg (fun he => h he.symm)]
  | cons nc rest ih =>
      obtain ⟨n, c0⟩ := nc
      by_cases h0 : n = name
      · subst h0
        simp only [dirWrite, if_pos rfl, dirRead]
        rw [if_neg (fun he => h he.symm), if_neg (fun he => h he.symm)]
      · simp only [dirWrite, if_neg h0, dirRead]
        by_cases h1 : n = name'
        · rw [if_pos h1, if_pos h1]
        · rw [if_neg h1, if_neg h1]
          exact ih

theorem dirRead_dirErase_self (d : List (Str × Str)) (name : Str) :
    dirRead (dirErase d name) name = none := by
  induction d with
  | nil => simp [dirErase, dirRead]
  | cons nc rest ih =>
      obtain ⟨n, c0⟩ := nc
      by_cases h : n = name
      · simp only [dirErase, if_pos h]
        exact ih
      · simp only [dirErase, if_neg h, dirRead, if_neg h]
        exact ih

theorem dirRead_dirErase_ne (d : List (Str × Str)) (name : Str)
    {name' : Str} (h : name' ≠ name) :
    dirRead (dirErase d name) name' = dirRead d name' := by
  induction d with
  | nil => simp [dirErase]
  | cons nc rest ih =>
      obtain ⟨n, c0⟩ := nc
      simp only [dirErase, dirRead]
      by_cases h0 : n = name
      · rw [if_pos h0, if_neg (fun he : n = name' => h (he.symm.trans h0))]
        exact ih
      · rw [if_neg h0]
        simp only [dirRead]
        by_cases h1 : n = name'
        · rw [if_pos h1, if_pos h1]
        · rw [if_neg h1, if_neg h1]
          exact ih

theorem dirRename_read_new (d : List (Str × Str)) {old : Str} (new : Str) {c : Str}
    (h : dirRead d old = some c) :
    dirRead (dirRename d old new) new = some c := by
  simp only [dirRename, h]
  exact dirRead_dirWrite_self _ _ _

theorem dirRename_read_old (d : List (Str × Str)) {old new : Str} {c : Str}
    (h : dirRead d old = some c) (hne : old ≠ new) :
    dirRead (dirRename d old new) old = none := by
  simp only [dirRename, h]
  rw [dirRead_dirWrite_ne _ _ _ hne]
  exact dirRead_dirErase_self _ _

theorem dirRead_filter_pos {p : Str × Str → Bool} {d : List (Str × Str)} {name : Str}
    (hp : ∀ c, p (name, c) = true) :
    dirRead (d.filter p) name = dirRead d name := by
  induction d with
  | nil => simp
  | cons nc rest ih =>
      obtain ⟨n, c0⟩ := nc
      by_cases h : n = name
      · subst h
        rw [List.filter_cons, if_pos (hp c0)]
        simp [dirRead]
      · rw [List.filter_cons]
        by_cases hpc : p (n, c0) = true
        · rw [if_pos hpc]
          simp only [dirRead, if_neg h]
          exact ih
        · rw [if_neg hpc]
          simp only [dirRead, if_neg h]
          exact ih

theorem dirRead_filter_neg {p : Str × Str → Bool} {d : List (Str × Str)} {name : Str}
    (hp : ∀ c, p (name, c) = false) :
    dirRead (d.filter p) name = none := by
  induction d with
  | nil => simp [dirRead]
  | cons nc rest ih =>
      obtain ⟨n, c0⟩ := nc
      by_cases h : n = name
      · subst h
        rw [List.filter_cons, if_neg (by simp [hp c0])]
        exact ih
      · rw [List.filter_cons]
        by_cases hpc : p (n, c0) = true
        · rw [if_pos hpc]
          simp only [dirRead, if_neg h]
          exact ih
        · rw [if_neg hpc]
          exact ih

theorem credsFileName_inj {a b : Str} (h : credsFileName a = credsFileName b) : a = b := by
  unfold credsFileName at h
  exact List.append_cancel_left (List.append_cancel_right h)

theorem configFileName_inj {a b : Str} (h : configFileName a = configFileName b) : a = b := by
  unfold configFileName at h
  exact List.append_cancel_left (List.append_cancel_right h)

end SwapCore

namespace SwapCore

/-! ## Claim C7: account numbering -/

theorem mapM_jsNumber_mem : ∀ (l : List Str) (vs : List Int),
    l.mapM jsNumber = some vs → ∀ k ∈ l, ∃ v ∈ vs, jsNumber k = some v := by
  intro l
  induction l with
  | nil => intro vs h k hk; cases hk
  | cons a t ih =>
      intro vs h k hk
      rw [List.mapM_cons] at h
      cases ha : jsNumber a with
      | none => rw [ha] at h; cases h
      | some b =>
          rw [ha] at h
          cases ht : t.mapM jsNumber with
          | none => rw [ht] at h; cases h
          | some bs =>
              rw [ht] at h
              simp only [Option.bind_eq_bind, Option.some_bind, Option.pure_def,
                Option.some.injEq] at h
              subst h
              rcases List.mem_cons.mp hk with rfl | hk'
              · exact ⟨b, List.mem_cons_self _ _, ha⟩
              · obtain ⟨v, hv, hjv⟩ := ih bs ht k hk'
                exact ⟨v, List.mem_cons_of_mem _ hv, hjv⟩

theorem le_foldl_max : ∀ (rest : List Int) (n v : Int), v ∈ n :: rest → v ≤ rest.foldl max n := by
  intro rest
  induction rest with
  | nil =>
      intro n v hv
      rcases List.mem_cons.mp hv with rfl | h
      · simp [List.foldl]
      · cases h
  | cons b t ih =>
      intro n v hv
      simp only [List.foldl_cons]
      rcases List.mem_cons.mp hv with rfl | hv'
      · exact le_trans (le_max_left v b) (ih (max v b) _ (List.mem_cons_self _ _))
      · rcases List.mem_cons.mp hv' with rfl | hv''
        · exact le_trans (le_max_right n v) (ih (max n v) _ (List.mem_cons_self _ _))
        · exact ih (max n b) v (List.mem_cons_of_mem _ hv'')

/-- C7 (amended): when every key of the accounts map is numeric
(`Number` succeeds on each), `nextNum` returns `1` on an empty map and
the maximum numeric key plus one otherwise, and the returned number's
decimal string is never already a key of the accounts map.  (The claim's
unqualified "for every registry state" fails: one non-numeric key drives
the maximum to `NaN`, see the counterexample.) -/
theorem C7_nextNum_amended (d : JVal) (ns : List Int)
    (h : (accountKeys d).mapM jsNumber = some ns) :
    (accountKeys d = [] → nextNum d = some 1) ∧
    (∀ n rest, ns = n :: rest →
      nextNum d = some (rest.foldl max n + 1) ∧
      ∀ k ∈ accountKeys d, k ≠ intChars (rest.foldl max n + 1)) := by
  constructor
  · intro hk
    unfold nextNum
    rw [hk]
    rfl
  · intro n rest hns
    subst hns
    constructor
    · unfold nextNum
      rw [h]
    · intro k hk hkeq
      obtain ⟨v, hv, hjv⟩ := mapM_jsNumber_mem _ _ h k hk
      rw [hkeq, jsNumber_intChars] at hjv
      have hle : v ≤ rest.foldl max n := le_foldl_max rest n v hv
      cases hjv
      omega

/-- C7 counterexample: with accounts keys `{"1", "x"}` the claim predicts
`nextNum = 2` (one more than the maximum numeric key), but `Number("x")`
is `NaN`, `Math.max(1, NaN)` is `NaN`, and `nextNum` yields `NaN`. -/
theorem C7_nextNum_cex :
    nextNum (.obj [("accounts".data,
        .obj [("1".data, .obj []), ("x".data, .obj [])])]) = none ∧
    nextNum (.obj [("accounts".data,
        .obj [("1".data, .obj []), ("x".data, .obj [])])]) ≠ some 2 := by
  constructor
  · rfl
  · intro hc
    cases hc

/-- C7 witness: a registry with numeric keys `{"1", "3"}` gets `nextNum = 4`,
and `"4"` is not an existing key. -/
theorem C7_nextNum_witness :
    (accountKeys (.obj [("accounts".data,
        .obj [("1".data, .obj []), ("3".data, .obj [])])])).mapM jsNumber = some [1, 3] ∧
    nextNum (.obj [("accounts".data,
        .obj [("1".data, .obj []), ("3".data, .obj [])])]) = some ([3].foldl max 1 + 1) ∧
    ∀ k ∈ accountKeys (.obj [("accounts".data,
        .obj [("1".data, .obj []), ("3".data, .obj [])])]), k ≠ intChars ([3].foldl max 1 + 1) :=
  ⟨by decide, (C7_nextNum_amended _ [1, 3] (by decide)).2 1 [3] rfl⟩

end SwapCore

namespace SwapCore

/-! ## Claim C2: duplicate-identity save -/

/-- C2 (amended): when the live credential's resolved `sub` strict-equals
the `sub` of an existing account record, `saveCurrentAccount` raises the
generic `This account is already saved` error and performs no Registry or
Blob Store mutation.  (The claim's "names the conflicting account number
K" part fails: the `isSaved` guard fires before the duplicate scan that
builds the `Account-K has the same token identity` message, so that
message is unreachable; see the counterexample.)  Hypothesis `hrecs`
excludes JSON-`null` Registry records (see the note at `isSaved`). -/
theorem C2_save_conflict_amended (now : Str) (fs0 : FS) (ct : Str) (sub : JVal)
    (d : JVal) (kvs : List (Str × JVal)) (K : Str) (r sv : JVal)
    (hseq : fs0.seqFile.isSome = true) (hc : fs0.creds = some ct)
    (htok : (getToken ct).isSome = true)
    (hsub : getSubFromCreds ct = some sub)
    (hd : getSeqData fs0 = some d)
    (hkvs : getMember d "accounts" = some (.obj kvs))
    (hmem : (K, r) ∈ kvs)
    (hrecs : ∀ kv ∈ kvs, kv.2 ≠ JVal.null)
    (hsv : getMember r "sub" = some sv)
    (heq : jsStrictEq sv sub = true) :
    saveCurrentAccount now fs0 = (fs0, .error "This account is already saved".data) := by
  obtain ⟨seqText, hseqv⟩ := Option.isSome_iff_exists.mp hseq
  obtain ⟨tok, htokv⟩ := Option.isSome_iff_exists.mp htok
  have hfs : initSequenceFile now fs0 = fs0 := by
    unfold initSequenceFile
    rw [hseqv]
  have hdobj : ∃ okvs, d = .obj okvs := by
    cases d with
    | obj okvs => exact ⟨okvs, rfl⟩
    | null => exact Option.noConfusion hkvs
    | bool b => exact Option.noConfusion hkvs
    | num n => exact Option.noConfusion hkvs
    | str s => exact Option.noConfusion hkvs
    | arr xs => exact Option.noConfusion hkvs
  obtain ⟨okvs, rfl⟩ := hdobj
  have htr : truthy sub = true := getSubFromCreds_truthy hsub
  have hsaved : isSaved (some (.obj okvs)) (some sub) = true := by
    show (if (decide ¬truthy (JVal.obj okvs) = true || decide ¬truthy sub = true) = true
      then false
      else
        match getMember (JVal.obj okvs) "accounts" with
        | some (JVal.obj kvs) =>
          kvs.any fun kv =>
            match getMember kv.2 "sub" with
            | some v => jsStrictEq v sub
            | none => false
        | _ => false) = true
    split_ifs with hcond
    · exfalso
      rw [htr] at hcond
      simp [truthy] at hcond
    · rw [hkvs]
      refine List.any_eq_true.mpr ⟨(K, r), hmem, ?_⟩
      rw [hsv]
      exact heq
  simp only [saveCurrentAccount, hfs, readCurrentCredentials, hc, htokv, hsub, hd, hsaved,
    if_true]

/-- Live credential text whose access token is a JWT with sub `"x"`. -/
def ctC2 : Str := "\x7b\"claudeAiOauth\":\x7b\"accessToken\":\"a.eyJzdWIiOiJ4In0.c\"\x7d\x7d".data

/-- Registry text with one account `7` of sub `"x"`. -/
def regC2 : Str := "\x7b\"accounts\":\x7b\"7\":\x7b\"sub\":\"x\"\x7d\x7d\x7d".data

/-- File-system state for the duplicate-identity save. -/
def fsC2 : FS := ⟨some ctC2, none, none, some regC2, [], []⟩

/-- C2 counterexample: registry record `7` carries the same sub `"x"` as
the live credential, yet `saveCurrentAccount` reports the fixed generic
message, which does not name account `7` (the character `'7'` does not
even occur in it). -/
theorem C2_save_conflict_cex :
    (saveCurrentAccount "t".data fsC2).2 = .error "This account is already saved".data ∧
    '7' ∉ "This account is already saved".data ∧
    (saveCurrentAccount "t".data fsC2).1 = fsC2 :=
  ⟨rfl, by decide, rfl⟩

/-- C2 witness: the amended theorem applies to the concrete duplicate-save
state. -/
theorem C2_save_conflict_witness :
    getSubFromCreds ctC2 = some (.str "x".data) ∧
    saveCurrentAccount "t".data fsC2 = (fsC2, .error "This account is already saved".data) :=
  ⟨rfl,
   C2_save_conflict_amended "t".data fsC2 ctC2 (.str "x".data)
     (.obj [("accounts".data, .obj [("7".data, .obj [("sub".data, .str "x".data)])])])
     [("7".data, .obj [("sub".data, .str "x".data)])] "7".data
     (.obj [("sub".data, .str "x".data)]) (.str "x".data)
     rfl rfl (by decide) rfl rfl rfl (by decide) (by decide) rfl rfl⟩

/-! ## Claim C3: identity resolution -/

/-- C3 (amended): `getSubFromCreds` returns `null` when no access token
can be extracted; when the token's JWT payload carries a *truthy* `sub`
claim it returns that claim; otherwise (opaque token, or a `sub` claim
that is falsy — the correction to the claim's "contains a sub claim") it
returns the deterministic fingerprint identity: `fp-` followed by a
24-character hash prefix. -/
theorem C3_getSub_amended (ct : Str) :
    (getToken ct = none → getSubFromCreds ct = none) ∧
    (∀ token sub, getToken ct = some (.str token) →
       (decodeJwtPayload token).bind (fun p => getMember p "sub") = some sub →
       truthy sub = true → getSubFromCreds ct = some sub) ∧
    (∀ token, getToken ct = some (.str token) →
       (∀ sub, (decodeJwtPayload token).bind (fun p => getMember p "sub") = some sub →
          truthy sub = false) →
       getSubFromCreds ct = some (fpId token) ∧
       ∃ hx : Str, fpId token = .str ("fp-".data ++ hx) ∧ hx.length = 24) := by
  refine ⟨?_, ?_, ?_⟩
  · intro h
    unfold getSubFromCreds
    rw [h]
  · intro token sub htok hbind htr
    cases hdp : decodeJwtPayload token with
    | none => rw [hdp] at hbind; cases hbind
    | some payload =>
        rw [hdp, Option.some_bind] at hbind
        simp only [getSubFromCreds, htok, hdp, hbind, htr, if_true]
  · intro token htok hns
    refine ⟨?_, (sha256Hex token).take 24, rfl, by simp [sha256Hex_length]⟩
    cases hdp : decodeJwtPayload token with
    | none => simp only [getSubFromCreds, htok, hdp]
    | some payload =>
        cases hgm : getMember payload "sub" with
        | none => simp only [getSubFromCreds, htok, hdp, hgm]
        | some sv =>
            have hf := hns sv (by rw [hdp, Option.some_bind, hgm])
            simp only [getSubFromCreds, htok, hdp, hgm, hf]
            simp

/-- Live credential text whose access token is a JWT whose `sub` claim is
the empty string (present but falsy). -/
def ctC3 : Str := "\x7b\"claudeAiOauth\":\x7b\"accessToken\":\"a.eyJzdWIiOiIifQ.c\"\x7d\x7d".data

/-- C3 counterexample: the token's payload contains a `sub` claim (the
empty string), but `getSubFromCreds` does not return it — the falsy check
sends it to the fingerprint branch instead. -/
theorem C3_getSub_cex :
    getToken ctC3 = some (.str "a.eyJzdWIiOiIifQ.c".data) ∧
    (decodeJwtPayload "a.eyJzdWIiOiIifQ.c".data).bind (fun p => getMember p "sub") =
      some (.str []) ∧
    getSubFromCreds ctC3 ≠ some (.str []) := by
  refine ⟨rfl, rfl, ?_⟩
  intro h
  have h1 : getSubFromCreds ctC3 = some (fpId "a.eyJzdWIiOiIifQ.c".data) := rfl
  obtain ⟨fp, hfp, hlen⟩ := fpId_length "a.eyJzdWIiOiIifQ.c".data
  rw [h1, hfp] at h
  injection h with h2
  injection h2 with h3
  rw [h3] at hlen
  simp at hlen

/-- Live credential text for the C3 witness (JWT with truthy sub `"x"`). -/
def ctC3w : Str := "\x7b\"claudeAiOauth\":\x7b\"accessToken\":\"b.eyJzdWIiOiJ4In0.d\"\x7d\x7d".data

/-- C3 witness: the amended theorem's truthy-sub branch applies to a
concrete JWT credential. -/
theorem C3_getSub_witness :
    getSubFromCreds ctC3w = some (.str "x".data) :=
  (C3_getSub_amended ctC3w).2.1 "b.eyJzdWIiOiJ4In0.d".data (.str "x".data) rfl rfl rfl

/-! ## Claim C8: orphan cleanup -/

/-- C8 (amended): `cleanupOrphanedBackups` filters each archive directory
by *exact valid filename*, not by encoded account number: a file survives
iff it does not carry the archive-name prefix at all, or its full name is
the exact archive filename of some present account key.  Files of every
present account key are therefore kept and orphaned account archives
removed, but any other prefix-carrying file (junk that encodes no account
number) is deleted too — the correction to the claim. -/
theorem contains_iff_mem {l : List Str} {a : Str} : l.contains a = true ↔ a ∈ l := by
  show l.elem a = true ↔ a ∈ l
  rw [List.elem_eq_mem]
  exact decide_eq_true_iff

theorem cleanup_keep_iff {pre name : Str} {valid : List Str} :
    ((!(strPre pre name && !(valid.contains name))) = true) ↔
      (strPre pre name = false ∨ name ∈ valid) := by
  constructor
  · intro h
    cases hp : strPre pre name with
    | false => exact Or.inl rfl
    | true =>
        right
        rw [hp] at h
        simp only [Bool.true_and, Bool.not_not] at h
        exact contains_iff_mem.mp h
  · intro h
    rcases h with hp | hm
    · simp [hp]
    · rw [contains_iff_mem.mpr hm]
      simp

theorem C8_cleanup_amended (data : JVal) (fs : FS) (akvs : List (Str × JVal))
    (hacc : getMember data "accounts" = some (.obj akvs)) :
    (∀ nc, nc ∈ (cleanupOrphanedBackups data fs).credsDir ↔
       (nc ∈ fs.credsDir ∧
         (strPre ".creds-".data nc.1 = false ∨
          nc.1 ∈ (akvs.map Prod.fst).map credsFileName))) ∧
    (∀ nc, nc ∈ (cleanupOrphanedBackups data fs).configsDir ↔
       (nc ∈ fs.configsDir ∧
         (strPre ".claude-config-".data nc.1 = false ∨
          nc.1 ∈ (akvs.map Prod.fst).map configFileName))) := by
  have hstep : cleanupOrphanedBackups data fs =
      { fs with
        credsDir := fs.credsDir.filter fun fc =>
          !(strPre ".creds-".data fc.1 &&
            !(((akvs.map Prod.fst).map credsFileName).contains fc.1)),
        configsDir := fs.configsDir.filter fun fc =>
          !(strPre ".claude-config-".data fc.1 &&
            !(((akvs.map Prod.fst).map configFileName).contains fc.1)) } := by
    simp only [cleanupOrphanedBackups, hacc]
    rfl
  rw [hstep]
  exact ⟨fun nc => by rw [List.mem_filter, cleanup_keep_iff],
         fun nc => by rw [List.mem_filter, cleanup_keep_iff]⟩

/-- Registry document with accounts `{"1", "3"}`. -/
def dC8 : JVal := .obj [("accounts".data,
  .obj [("1".data, .obj []), ("3".data, .obj [])])]

/-- Archive state with a valid file for `1`, an orphan for `2`, and a junk
file `.creds-x` that encodes no account number. -/
def fsC8 : FS := ⟨none, none, none, none,
  [(".creds-1.enc".data, "A".data), (".creds-2.enc".data, "B".data),
   (".creds-x".data, "J".data)], []⟩

/-- C8 counterexample: `.creds-x` is not the archive filename of any
account number at all, so under the claim ("deletes exactly those files
whose name encodes an account number not present") it should survive the
cleanup; the prefix-based filter deletes it. -/
theorem C8_cleanup_cex :
    (∀ s : Str, ".creds-x".data ≠ credsFileName s) ∧
    (cleanupOrphanedBackups dC8 fsC8).credsDir = [(".creds-1.enc".data, "A".data)] := by
  constructor
  · intro s h
    have hl : (".creds-x".data).length = (credsFileName s).length := congrArg List.length h
    rw [credsFileName, List.length_append, List.length_append] at hl
    rw [show (".creds-x".data).length = 8 from rfl,
        show (".creds-".data).length = 7 from rfl,
        show (".enc".data).length = 4 from rfl] at hl
    omega
  · rfl

/-- C8 witness: the amended characterization applies to the concrete
cleanup state, keeping the present account's archive file. -/
theorem C8_cleanup_witness :
    getMember dC8 "accounts" =
      some (.obj [("1".data, .obj []), ("3".data, .obj [])]) ∧
    (".creds-1.enc".data, "A".data) ∈ (cleanupOrphanedBackups dC8 fsC8).credsDir :=
  ⟨rfl, ((C8_cleanup_amended dC8 fsC8 [("1".data, .obj []), ("3".data, .obj [])] rfl).1
     _).mpr ⟨by decide, Or.inr (by decide)⟩⟩

/-! ## Claim C9: legacy filename migration -/

theorem credsLegacyName_ne (num es : Str) : credsLegacyName num es ≠ credsFileName num := by
  intro h
  have hl := congrArg List.length h
  rw [credsLegacyName, credsFileName] at hl
  simp only [List.length_append] at hl
  rw [show ("-".data).length = 1 from rfl] at hl
  omega

theorem configLegacyName_ne (num es : Str) : configLegacyName num es ≠ configFileName num := by
  intro h
  have hl := congrArg List.length h
  rw [configLegacyName, configFileName] at hl
  simp only [List.length_append] at hl
  rw [show ("-".data).length = 1 from rfl] at hl
  omega

theorem dirRename_read_other (d : List (Str × Str)) (old new n : Str)
    (h1 : n ≠ old) (h2 : n ≠ new) :
    dirRead (dirRename d old new) n = dirRead d n := by
  simp only [dirRename]
  cases hr : dirRead d old with
  | none => rfl
  | some c => rw [dirRead_dirWrite_ne _ _ _ h2, dirRead_dirErase_ne _ _ h1]

theorem dash_split_inj : ∀ (a c b d : Str),
    (∀ x ∈ a, x ≠ '-') → (∀ x ∈ c, x ≠ '-') →
    a ++ '-' :: b = c ++ '-' :: d → a = c := by
  intro a
  induction a with
  | nil =>
      intro c b d _ hc h
      cases c with
      | nil => rfl
      | cons y c2 =>
          exfalso
          injection h with h1 h2
          exact hc y (List.mem_cons_self _ _) h1.symm
  | cons x a2 ih =>
      intro c b d ha hc h
      cases c with
      | nil =>
          exfalso
          injection h with h1 h2
          exact ha x (List.mem_cons_self _ _) h1
      | cons y c2 =>
          injection h with h1 h2
          rw [h1, ih c2 b d (fun z hz => ha z (List.mem_cons_of_mem x hz))
            (fun z hz => hc z (List.mem_cons_of_mem y hz)) h2]

theorem credsLegacyName_inj_key {k nk ea eb : Str}
    (hk : ∀ x ∈ k, x ≠ '-') (hn : ∀ x ∈ nk, x ≠ '-')
    (h : credsLegacyName k ea = credsLegacyName nk eb) : k = nk := by
  unfold credsLegacyName at h
  simp only [List.append_assoc] at h
  have h2 : k ++ '-' :: (ea ++ ".enc".data) = nk ++ '-' :: (eb ++ ".enc".data) :=
    List.append_cancel_left h
  exact dash_split_inj k nk _ _ hk hn h2

theorem credsFile_ne_legacy {k nk e : Str} (hk : ∀ x ∈ k, x ≠ '-') :
    credsFileName k ≠ credsLegacyName nk e := by
  intro h
  unfold credsFileName credsLegacyName at h
  simp only [List.append_assoc] at h
  have h2 : k ++ ".enc".data = nk ++ '-' :: (e ++ ".enc".data) :=
    List.append_cancel_left h
  have hm : '-' ∈ k ++ ".enc".data := by
    rw [h2]
    exact List.mem_append_right nk (List.mem_cons_self _ _)
  rcases List.mem_append.mp hm with hm2 | hm2
  · exact hk '-' hm2 rfl
  · exact absurd hm2 (by decide)

theorem credsLegacy_ne_file {k nk e : Str} (hn : ∀ x ∈ nk, x ≠ '-') :
    credsLegacyName k e ≠ credsFileName nk := by
  intro h
  unfold credsLegacyName credsFileName at h
  simp only [List.append_assoc] at h
  have h2 : k ++ '-' :: (e ++ ".enc".data) = nk ++ ".enc".data :=
    List.append_cancel_left h
  have hm : '-' ∈ nk ++ ".enc".data := by
    rw [← h2]
    exact List.mem_append_right k (List.mem_cons_self _ _)
  rcases List.mem_append.mp hm with hm2 | hm2
  · exact hn '-' hm2 rfl
  · exact absurd hm2 (by decide)

theorem configLegacyName_inj_key {k nk ea eb : Str}
    (hk : ∀ x ∈ k, x ≠ '-') (hn : ∀ x ∈ nk, x ≠ '-')
    (h : configLegacyName k ea = configLegacyName nk eb) : k = nk := by
  unfold configLegacyName at h
  simp only [List.append_assoc] at h
  have h2 : k ++ '-' :: (ea ++ ".json".data) = nk ++ '-' :: (eb ++ ".json".data) :=
    List.append_cancel_left h
  exact dash_split_inj k nk _ _ hk hn h2

theorem configFile_ne_legacy {k nk e : Str} (hk : ∀ x ∈ k, x ≠ '-') :
    configFileName k ≠ configLegacyName nk e := by
  intro h
  unfold configFileName configLegacyName at h
  simp only [List.append_assoc] at h
  have h2 : k ++ ".json".data = nk ++ '-' :: (e ++ ".json".data) :=
    List.append_cancel_left h
  have hm : '-' ∈ k ++ ".json".data := by
    rw [h2]
    exact List.mem_append_right nk (List.mem_cons_self _ _)
  rcases List.mem_append.mp hm with hm2 | hm2
  · exact hk '-' hm2 rfl
  · exact absurd hm2 (by decide)

theorem configLegacy_ne_file {k nk e : Str} (hn : ∀ x ∈ nk, x ≠ '-') :
    configLegacyName k e ≠ configFileName nk := by
  intro h
  unfold configLegacyName configFileName at h
  simp only [List.append_assoc] at h
  have h2 : k ++ '-' :: (e ++ ".json".data) = nk ++ ".json".data :=
    List.append_cancel_left h
  have hm : '-' ∈ nk ++ ".json".data := by
    rw [← h2]
    exact List.mem_append_right k (List.mem_cons_self _ _)
  rcases List.mem_append.mp hm with hm2 | hm2
  · exact hn '-' hm2 rfl
  · exact absurd hm2 (by decide)

theorem noDupKeys_pairwise : ∀ l : List (Str × JVal),
    noDupKeys l = true ↔ l.Pairwise (fun a b => b.1 ≠ a.1) := by
  intro l
  induction l with
  | nil => simp [noDupKeys]
  | cons kv rest ih =>
      simp only [noDupKeys, Bool.and_eq_true, List.all_eq_true, decide_eq_true_eq,
        ne_eq, List.pairwise_cons, ih]

theorem migrateStep_read_creds (fs : FS) (kv : Str × JVal) (n : Str)
    (h : ∀ ev, getMember kv.2 "email" = some ev → truthy ev = true →
      n ≠ credsLegacyName kv.1 (jsToString ev) ∧ n ≠ credsFileName kv.1) :
    dirRead (migrateStep fs kv).credsDir n = dirRead fs.credsDir n := by
  cases hev : getMember kv.2 "email" with
  | none => simp only [migrateStep, hev]
  | some ev =>
      by_cases htr : truthy ev = true
      · obtain ⟨h1, h2⟩ := h ev hev htr
        simp only [migrateStep, hev, htr]
        rw [if_neg (by simp)]
        split <;> split <;>
          first
          | rfl
          | exact dirRename_read_other _ _ _ _ h1 h2
      · simp only [migrateStep, hev]
        rw [if_pos htr]

theorem migrateStep_read_configs (fs : FS) (kv : Str × JVal) (n : Str)
    (h : ∀ ev, getMember kv.2 "email" = some ev → truthy ev = true →
      n ≠ configLegacyName kv.1 (jsToString ev) ∧ n ≠ configFileName kv.1) :
    dirRead (migrateStep fs kv).configsDir n = dirRead fs.configsDir n := by
  cases hev : getMember kv.2 "email" with
  | none => simp only [migrateStep, hev]
  | some ev =>
      by_cases htr : truthy ev = true
      · obtain ⟨h1, h2⟩ := h ev hev htr
        simp only [migrateStep, hev, htr]
        rw [if_neg (by simp)]
        split <;> split <;>
          first
          | rfl
          | exact dirRename_read_other _ _ _ _ h1 h2
      · simp only [migrateStep, hev]
        rw [if_pos htr]

theorem foldl_migrate_creds : ∀ (l : List (Str × JVal)) (fs : FS) (n : Str),
    (∀ kv ∈ l, ∀ ev, getMember kv.2 "email" = some ev → truthy ev = true →
      n ≠ credsLegacyName kv.1 (jsToString ev) ∧ n ≠ credsFileName kv.1) →
    dirRead (l.foldl migrateStep fs).credsDir n = dirRead fs.credsDir n := by
  intro l
  induction l with
  | nil => intro fs n h; rfl
  | cons kv t ih =>
      intro fs n h
      rw [List.foldl_cons,
        ih (migrateStep fs kv) n (fun kv2 h2 => h kv2 (List.mem_cons_of_mem kv h2)),
        migrateStep_read_creds fs kv n (h kv (List.mem_cons_self _ _))]

theorem foldl_migrate_configs : ∀ (l : List (Str × JVal)) (fs : FS) (n : Str),
    (∀ kv ∈ l, ∀ ev, getMember kv.2 "email" = some ev → truthy ev = true →
      n ≠ configLegacyName kv.1 (jsToString ev) ∧ n ≠ configFileName kv.1) →
    dirRead (l.foldl migrateStep fs).configsDir n = dirRead fs.configsDir n := by
  intro l
  induction l with
  | nil => intro fs n h; rfl
  | cons kv t ih =>
      intro fs n h
      rw [List.foldl_cons,
        ih (migrateStep fs kv) n (fun kv2 h2 => h kv2 (List.mem_cons_of_mem kv h2)),
        migrateStep_read_configs fs kv n (h kv (List.mem_cons_self _ _))]

theorem migrateStep_live (fs : FS) (kv : Str × JVal) :
    (migrateStep fs kv).creds = fs.creds ∧
    (migrateStep fs kv).cfgPrimary = fs.cfgPrimary ∧
    (migrateStep fs kv).cfgFallback = fs.cfgFallback ∧
    (migrateStep fs kv).seqFile = fs.seqFile := by
  cases hev : getMember kv.2 "email" with
  | none =>
      simp only [migrateStep, hev]
      refine ⟨?_, ?_, ?_, ?_⟩ <;> trivial
  | some ev =>
      by_cases htr : truthy ev = true
      · simp only [migrateStep, hev, htr]
        rw [if_neg (by simp)]
        split <;> split <;> refine ⟨?_, ?_, ?_, ?_⟩ <;> trivial
      · simp only [migrateStep, hev]
        rw [if_pos htr]
        refine ⟨?_, ?_, ?_, ?_⟩ <;> trivial

theorem foldl_migrate_live : ∀ (l : List (Str × JVal)) (fs : FS),
    (l.foldl migrateStep fs).creds = fs.creds ∧
    (l.foldl migrateStep fs).cfgPrimary = fs.cfgPrimary ∧
    (l.foldl migrateStep fs).cfgFallback = fs.cfgFallback ∧
    (l.foldl migrateStep fs).seqFile = fs.seqFile := by
  intro l
  induction l with
  | nil => intro fs; exact ⟨rfl, rfl, rfl, rfl⟩
  | cons kv t ih =>
      intro fs
      obtain ⟨a1, a2, a3, a4⟩ := ih (migrateStep fs kv)
      obtain ⟨b1, b2, b3, b4⟩ := migrateStep_live fs kv
      exact ⟨by rw [List.foldl_cons, a1, b1], by rw [List.foldl_cons, a2, b2],
        by rw [List.foldl_cons, a3, b3], by rw [List.foldl_cons, a4, b4]⟩

/-- Migration touches only the two archive directories: the live
credential file, both live config files and the registry file are
untouched on every input (the source wraps each `renameSync` in
`try/catch`, so a rename failure is swallowed and startup proceeds; the
model's total rename leaves that branch with no observable counterpart). -/
theorem migrate_live (d : Option JVal) (fs : FS) :
    (migrateBackupFilenames d fs).creds = fs.creds ∧
    (migrateBackupFilenames d fs).cfgPrimary = fs.cfgPrimary ∧
    (migrateBackupFilenames d fs).cfgFallback = fs.cfgFallback ∧
    (migrateBackupFilenames d fs).seqFile = fs.seqFile := by
  cases d with
  | none => exact ⟨rfl, rfl, rfl, rfl⟩
  | some dv =>
      cases hacc : getMember dv "accounts" with
      | none =>
          simp only [migrateBackupFilenames, hacc]
          refine ⟨?_, ?_, ?_, ?_⟩ <;> trivial
      | some a =>
          simp only [migrateBackupFilenames, hacc]
          by_cases hta : truthy a = true
          · rw [if_neg (by simp [hta])]
            exact foldl_migrate_live _ fs
          · rw [if_pos hta]
            exact ⟨rfl, rfl, rfl, rfl⟩

theorem migrateStep_act (fs : FS) (num : Str) (r ev : JVal) (ccontent fcontent : Str)
    (hev : getMember r "email" = some ev) (htr : truthy ev = true)
    (holdC : dirRead fs.credsDir (credsLegacyName num (jsToString ev)) = some ccontent)
    (hnewC : dirHas fs.credsDir (credsFileName num) = false)
    (holdF : dirRead fs.configsDir (configLegacyName num (jsToString ev)) = some fcontent)
    (hnewF : dirHas fs.configsDir (configFileName num) = false) :
    migrateStep fs (num, r) =
      { fs with
        credsDir := dirRename fs.credsDir (credsLegacyName num (jsToString ev))
          (credsFileName num),
        configsDir := dirRename fs.configsDir (configLegacyName num (jsToString ev))
          (configFileName num) } := by
  have hhasC : dirHas fs.credsDir (credsLegacyName num (jsToString ev)) = true := by
    simp [dirHas, holdC]
  have hhasF : dirHas fs.configsDir (configLegacyName num (jsToString ev)) = true := by
    simp [dirHas, holdF]
  simp only [migrateStep, hev, htr]
  rw [if_neg (by simp)]
  rw [show (if (dirHas fs.credsDir (credsLegacyName num (jsToString ev)) &&
        decide (¬ dirHas fs.credsDir (credsFileName num) = true)) = true then
      ({ fs with credsDir := (dirRename fs.credsDir (credsLegacyName num (jsToString ev))
          (credsFileName num)) } : FS)
    else fs) = { fs with credsDir := (dirRename fs.credsDir
          (credsLegacyName num (jsToString ev)) (credsFileName num)) }
    from if_pos (by simp [hhasC, hnewC])]
  rw [if_pos (by simp [hhasF, hnewF])]

/-- C9 (amended): for every registry whose account keys are pairwise
distinct and contain no `-` character (in particular the numeric keys
every save produces), and every record with a truthy stored email whose
legacy (number, email)-keyed archive files exist while the number-only
files do not, `migrateBackupFilenames` renames both legacy files to the
number-only names with identical contents and leaves the legacy names
absent; moreover migration never modifies the live credential file,
either live config file, or the registry file, on any input whatsoever
(the source swallows each rename failure with `try/catch` and never
aborts startup; the model's total rename leaves the swallowed-failure
branch with no observable counterpart).  (The claim's unqualified "for
every Registry record" fails once a dash-carrying key makes two records'
legacy names collide: the earlier record's rename consumes the file the
later record's migration needs — see the counterexample.) -/
theorem C9_migrate_amended (data : JVal) (fs : FS) (kvs : List (Str × JVal))
    (num : Str) (r ev : JVal) (ccontent fcontent : Str)
    (hacc : getMember data "accounts" = some (.obj kvs))
    (hmem : (num, r) ∈ kvs)
    (hkeys : ∀ kv ∈ kvs, ∀ x ∈ kv.1, x ≠ '-')
    (hnodup : noDupKeys kvs = true)
    (hev : getMember r "email" = some ev) (htr : truthy ev = true)
    (holdC : dirRead fs.credsDir (credsLegacyName num (jsToString ev)) = some ccontent)
    (hnewC : dirHas fs.credsDir (credsFileName num) = false)
    (holdF : dirRead fs.configsDir (configLegacyName num (jsToString ev)) = some fcontent)
    (hnewF : dirHas fs.configsDir (configFileName num) = false) :
    dirRead (migrateBackupFilenames (some data) fs).credsDir (credsFileName num) =
      some ccontent ∧
    dirRead (migrateBackupFilenames (some data) fs).credsDir
      (credsLegacyName num (jsToString ev)) = none ∧
    dirRead (migrateBackupFilenames (some data) fs).configsDir (configFileName num) =
      some fcontent ∧
    dirRead (migrateBackupFilenames (some data) fs).configsDir
      (configLegacyName num (jsToString ev)) = none ∧
    (∀ d0 : Option JVal, ∀ fs0 : FS,
      (migrateBackupFilenames d0 fs0).creds = fs0.creds ∧
      (migrateBackupFilenames d0 fs0).cfgPrimary = fs0.cfgPrimary ∧
      (migrateBackupFilenames d0 fs0).cfgFallback = fs0.cfgFallback ∧
      (migrateBackupFilenames d0 fs0).seqFile = fs0.seqFile) := by
  have hfold : migrateBackupFilenames (some data) fs = kvs.foldl migrateStep fs := by
    simp only [migrateBackupFilenames, hacc]
    rfl
  obtain ⟨pre, post, hsplit⟩ := List.append_of_mem hmem
  subst hsplit
  have hpair := (noDupKeys_pairwise _).mp hnodup
  rw [List.pairwise_append] at hpair
  obtain ⟨hp1, hp2, hp3⟩ := hpair
  have hpre_ne : ∀ kv ∈ pre, kv.1 ≠ num := fun kv hkv heq =>
    hp3 kv hkv (num, r) (List.mem_cons_self _ _) heq.symm
  have hpost_ne : ∀ kv ∈ post, kv.1 ≠ num := by
    rw [List.pairwise_cons] at hp2
    exact fun kv hkv => hp2.1 kv hkv
  have hknum : ∀ x ∈ num, x ≠ '-' :=
    hkeys (num, r) (List.mem_append_right pre (List.mem_cons_self _ _))
  have hother : ∀ kv, (kv ∈ pre ∨ kv ∈ post) →
      kv.1 ≠ num ∧ (∀ x ∈ kv.1, x ≠ '-') := by
    intro kv hkv
    cases hkv with
    | inl h => exact ⟨hpre_ne kv h, hkeys kv (List.mem_append_left _ h)⟩
    | inr h => exact ⟨hpost_ne kv h,
        hkeys kv (List.mem_append_right _ (List.mem_cons_of_mem _ h))⟩
  have hsafeC : ∀ kv, (kv ∈ pre ∨ kv ∈ post) → ∀ ev2,
      getMember kv.2 "email" = some ev2 → truthy ev2 = true →
      ((credsLegacyName num (jsToString ev) ≠ credsLegacyName kv.1 (jsToString ev2) ∧
        credsLegacyName num (jsToString ev) ≠ credsFileName kv.1) ∧
       (credsFileName num ≠ credsLegacyName kv.1 (jsToString ev2) ∧
        credsFileName num ≠ credsFileName kv.1)) := by
    intro kv hkv ev2 _ _
    obtain ⟨hne, hkd⟩ := hother kv hkv
    refine ⟨⟨fun h => ?_, credsLegacy_ne_file hkd⟩,
            credsFile_ne_legacy hknum, fun h => ?_⟩
    · exact hne (credsLegacyName_inj_key hknum hkd h).symm
    · exact hne (credsFileName_inj h).symm
  have hsafeF : ∀ kv, (kv ∈ pre ∨ kv ∈ post) → ∀ ev2,
      getMember kv.2 "email" = some ev2 → truthy ev2 = true →
      ((configLegacyName num (jsToString ev) ≠ configLegacyName kv.1 (jsToString ev2) ∧
        configLegacyName num (jsToString ev) ≠ configFileName kv.1) ∧
       (configFileName num ≠ configLegacyName kv.1 (jsToString ev2) ∧
        configFileName num ≠ configFileName kv.1)) := by
    intro kv hkv ev2 _ _
    obtain ⟨hne, hkd⟩ := hother kv hkv
    refine ⟨⟨fun h => ?_, configLegacy_ne_file hkd⟩,
            configFile_ne_legacy hknum, fun h => ?_⟩
    · exact hne (configLegacyName_inj_key hknum hkd h).symm
    · exact hne (configFileName_inj h).symm
  have hmidC1 : dirRead (pre.foldl migrateStep fs).credsDir
      (credsLegacyName num (jsToString ev)) = some ccontent :=
    (foldl_migrate_creds pre fs _
      (fun kv hkv ev2 h1 h2 => (hsafeC kv (Or.inl hkv) ev2 h1 h2).1)).trans holdC
  have hnoneC : dirRead fs.credsDir (credsFileName num) = none := by
    cases hd : dirRead fs.credsDir (credsFileName num) with
    | none => rfl
    | some c => simp [dirHas, hd] at hnewC
  have hmidC2 : dirRead (pre.foldl migrateStep fs).credsDir (credsFileName num) = none :=
    (foldl_migrate_creds pre fs _
      (fun kv hkv ev2 h1 h2 => (hsafeC kv (Or.inl hkv) ev2 h1 h2).2)).trans hnoneC
  have hmidF1 : dirRead (pre.foldl migrateStep fs).configsDir
      (configLegacyName num (jsToString ev)) = some fcontent :=
    (foldl_migrate_configs pre fs _
      (fun kv hkv ev2 h1 h2 => (hsafeF kv (Or.inl hkv) ev2 h1 h2).1)).trans holdF
  have hnoneF : dirRead fs.configsDir (configFileName num) = none := by
    cases hd : dirRead fs.configsDir (configFileName num) with
    | none => rfl
    | some c => simp [dirHas, hd] at hnewF
  have hmidF2 : dirRead (pre.foldl migrateStep fs).configsDir (configFileName num) = none :=
    (foldl_migrate_configs pre fs _
      (fun kv hkv ev2 h1 h2 => (hsafeF kv (Or.inl hkv) ev2 h1 h2).2)).trans hnoneF
  have hmidHasC : dirHas (pre.foldl migrateStep fs).credsDir (credsFileName num) = false := by
    simp [dirHas, hmidC2]
  have hmidHasF : dirHas (pre.foldl migrateStep fs).configsDir (configFileName num) = false := by
    simp [dirHas, hmidF2]
  have hstep := migrateStep_act (pre.foldl migrateStep fs) num r ev ccontent fcontent
    hev htr hmidC1 hmidHasC hmidF1 hmidHasF
  rw [hfold, List.foldl_append, List.foldl_cons, hstep]
  refine ⟨?_, ?_, ?_, ?_, fun d0 fs0 => migrate_live d0 fs0⟩
  · exact (foldl_migrate_creds post _ _
      (fun kv hkv ev2 h1 h2 => (hsafeC kv (Or.inr hkv) ev2 h1 h2).2)).trans
      (dirRename_read_new _ _ hmidC1)
  · exact (foldl_migrate_creds post _ _
      (fun kv hkv ev2 h1 h2 => (hsafeC kv (Or.inr hkv) ev2 h1 h2).1)).trans
      (dirRename_read_old _ hmidC1 (credsLegacyName_ne num _))
  · exact (foldl_migrate_configs post _ _
      (fun kv hkv ev2 h1 h2 => (hsafeF kv (Or.inr hkv) ev2 h1 h2).2)).trans
      (dirRename_read_new _ _ hmidF1)
  · exact (foldl_migrate_configs post _ _
      (fun kv hkv ev2 h1 h2 => (hsafeF kv (Or.inr hkv) ev2 h1 h2).1)).trans
      (dirRename_read_old _ hmidF1 (configLegacyName_ne num _))

/-- Registry with two records whose legacy archive filenames collide:
record `1` with email `2-x` and record `1-2` with email `x` both own the
legacy name `.creds-1-2-x.enc`. -/
def dC9 : JVal := .obj [("accounts".data, .obj [
  ("1".data, .obj [("email".data, .str "2-x".data)]),
  ("1-2".data, .obj [("email".data, .str "x".data)])])]

/-- Archive state holding only the shared legacy file. -/
def fsC9 : FS := ⟨none, none, none, none, [(".creds-1-2-x.enc".data, "P".data)], []⟩

/-- C9 counterexample: record `1-2` has a stored email, its legacy archive
file exists, and its number-only file does not, yet after migration the
number-only file `.creds-1-2.enc` still does not exist — record `1`'s
rename consumed the shared legacy file first. -/
theorem C9_migrate_cex :
    credsLegacyName "1-2".data "x".data = ".creds-1-2-x.enc".data ∧
    dirHas fsC9.credsDir (credsLegacyName "1-2".data "x".data) = true ∧
    dirHas fsC9.credsDir (credsFileName "1-2".data) = false ∧
    dirRead (migrateBackupFilenames (some dC9) fsC9).credsDir
      (credsFileName "1-2".data) = none := by
  refine ⟨rfl, rfl, rfl, by decide⟩

/-- Account records for the C9 witness: two records `5` and `7`, both
with stored emails. -/
def kvsC9w : List (Str × JVal) := [
  ("5".data, .obj [("email".data, .str "e".data)]),
  ("7".data, .obj [("email".data, .str "g".data)])]

/-- Registry for the C9 witness. -/
def dC9w : JVal := .obj [("accounts".data, .obj kvsC9w)]

/-- Archive state for the C9 witness: legacy credential files for both
records, a legacy config file for record `5`. -/
def fsC9w : FS := ⟨none, none, none, none,
  [(".creds-5-e.enc".data, "C".data), (".creds-7-g.enc".data, "D".data)],
  [(".claude-config-5-e.json".data, "F".data)]⟩

/-- C9 witness: the amended theorem applies to record `5` of a two-record
registry with dash-free keys. -/
theorem C9_migrate_witness :
    dirRead (migrateBackupFilenames (some dC9w) fsC9w).credsDir
      (credsFileName "5".data) = some "C".data ∧
    dirRead (migrateBackupFilenames (some dC9w) fsC9w).credsDir
      (credsLegacyName "5".data (jsToString (.str "e".data))) = none ∧
    dirRead (migrateBackupFilenames (some dC9w) fsC9w).configsDir
      (configFileName "5".data) = some "F".data ∧
    dirRead (migrateBackupFilenames (some dC9w) fsC9w).configsDir
      (configLegacyName "5".data (jsToString (.str "e".data))) = none ∧
    (∀ d0 : Option JVal, ∀ fs0 : FS,
      (migrateBackupFilenames d0 fs0).creds = fs0.creds ∧
      (migrateBackupFilenames d0 fs0).cfgPrimary = fs0.cfgPrimary ∧
      (migrateBackupFilenames d0 fs0).cfgFallback = fs0.cfgFallback ∧
      (migrateBackupFilenames d0 fs0).seqFile = fs0.seqFile) :=
  C9_migrate_amended dC9w fsC9w kvsC9w "5".data
    (.obj [("email".data, .str "e".data)]) (.str "e".data) "C".data "F".data
    rfl (List.mem_cons_self _ _) (by decide) (by decide) rfl (by decide)
    (by decide) (by decide) (by decide) (by decide)

/-! ## Support lemmas for the swap-engine claims -/

theorem jsonParse_nil : jsonParse [] = none := rfl

theorem intChars_inj {a b : Int} (h : intChars a = intChars b) : a = b := by
  have ha := jsNumber_intChars a
  rw [h, jsNumber_intChars b] at ha
  cases ha
  rfl

theorem cleanup_fields (data : JVal) (fs : FS) :
    (cleanupOrphanedBackups data fs).creds = fs.creds ∧
    (cleanupOrphanedBackups data fs).cfgPrimary = fs.cfgPrimary ∧
    (cleanupOrphanedBackups data fs).cfgFallback = fs.cfgFallback ∧
    (cleanupOrphanedBackups data fs).seqFile = fs.seqFile := by
  unfold cleanupOrphanedBackups
  split
  · exact ⟨rfl, rfl, rfl, rfl⟩
  · split_ifs with h
    · exact ⟨rfl, rfl, rfl, rfl⟩
    · exact ⟨rfl, rfl, rfl, rfl⟩

theorem cfgRead_cfgWrite_self (fs : FS) (p : CfgPath) (t : Str) :
    cfgRead (cfgWrite fs p t) p = some t := by
  cases p <;> rfl

theorem cfgRead_congr {fs fs' : FS} (p : CfgPath)
    (h1 : fs'.cfgPrimary = fs.cfgPrimary) (h2 : fs'.cfgFallback = fs.cfgFallback) :
    cfgRead fs' p = cfgRead fs p := by
  cases p
  · exact h1
  · exact h2

theorem getConfigPath_congr {fs fs' : FS} (h : fs'.cfgPrimary = fs.cfgPrimary) :
    getConfigPath fs' = getConfigPath fs := by
  unfold getConfigPath
  rw [h]

theorem lookupE_mem_keys {kvs : List (Str × JVal)} {k : Str} {v : JVal}
    (h : lookupE kvs k = some v) : k ∈ kvs.map Prod.fst := by
  induction kvs with
  | nil => cases h
  | cons kv rest ih =>
      obtain ⟨k0, v0⟩ := kv
      by_cases h0 : k0 = k
      · subst h0
        simp only [List.map_cons]
        exact List.mem_cons_self _ _
      · rw [lookupE, if_neg h0] at h
        simp only [List.map_cons, List.mem_cons]
        exact Or.inr (ih h)

theorem findBySub_append_left {kvs kvs' : List (Str × JVal)} {s : JVal} {kv : Str × JVal}
    (h : findBySub kvs s = some kv) : findBySub (kvs ++ kvs') s = some kv := by
  unfold findBySub at h ⊢
  rw [List.find?_append, h]
  rfl

theorem findBySub_none_append {kvs kvs' : List (Str × JVal)} {s : JVal}
    (h : findBySub kvs s = none) : findBySub (kvs ++ kvs') s = findBySub kvs' s := by
  unfold findBySub at h ⊢
  rw [List.find?_append, h]
  rfl

theorem setEntry_of_none {kvs : List (Str × JVal)} {k : Str} (v : JVal)
    (h : lookupE kvs k = none) : setEntry kvs k v = kvs ++ [(k, v)] := by
  induction kvs with
  | nil => rfl
  | cons kv rest ih =>
      obtain ⟨k0, v0⟩ := kv
      rw [lookupE] at h
      by_cases h0 : k0 = k
      · rw [if_pos h0] at h
        cases h
      · rw [if_neg h0] at h
        rw [setEntry, if_neg h0, List.cons_append, ih h]

theorem readBackupCreds_write_self (fs : FS) (num text : Str) :
    readBackupCreds (writeBackupCreds fs num text) num = some text := by
  unfold readBackupCreds writeBackupCreds
  simp only [dirRead_dirWrite_self, Option.some_bind]
  exact b64DecodeStr_encodeStr text

theorem readBackupCreds_write_ne (fs : FS) (num text : Str) {num' : Str} (h : num' ≠ num) :
    readBackupCreds (writeBackupCreds fs num text) num' = readBackupCreds fs num' := by
  unfold readBackupCreds writeBackupCreds
  rw [dirRead_dirWrite_ne _ _ _ (fun he => h (credsFileName_inj he))]

theorem readBackupCreds_writeConfig (fs : FS) (num text : Str) (num' : Str) :
    readBackupCreds (writeBackupConfig fs num text) num' = readBackupCreds fs num' := rfl

theorem readBackupConfig_write_self (fs : FS) (num text : Str) :
    readBackupConfig (writeBackupConfig fs num text) num = some text := by
  unfold readBackupConfig writeBackupConfig
  simp only [dirRead_dirWrite_self]

theorem readBackupConfig_write_ne (fs : FS) (num text : Str) {num' : Str} (h : num' ≠ num) :
    readBackupConfig (writeBackupConfig fs num text) num' = readBackupConfig fs num' := by
  unfold readBackupConfig writeBackupConfig
  rw [dirRead_dirWrite_ne _ _ _ (fun he => h (configFileName_inj he))]

theorem readBackupConfig_writeCreds (fs : FS) (num text : Str) (num' : Str) :
    readBackupConfig (writeBackupCreds fs num text) num' = readBackupConfig fs num' := rfl

theorem archiveCurrent_none {fs0 : FS} {p : CfgPath} {cr : Option JVal} {cn : Str} {fsB : FS}
    (h : archiveCurrent fs0 p cr cn = (fsB, none)) :
    fsB.creds = fs0.creds ∧ fsB.cfgPrimary = fs0.cfgPrimary ∧
    fsB.cfgFallback = fs0.cfgFallback ∧ fsB.seqFile = fs0.seqFile ∧
    (∀ t, t ≠ cn → readBackupCreds fsB t = readBackupCreds fs0 t) ∧
    (∀ t, t ≠ cn → readBackupConfig fsB t = readBackupConfig fs0 t) := by
  cases cr with
  | none =>
      simp only [archiveCurrent] at h
      cases h
      exact ⟨rfl, rfl, rfl, rfl, fun t _ => rfl, fun t _ => rfl⟩
  | some c =>
      simp only [archiveCurrent] at h
      by_cases htc : truthy c = true
      · rw [if_pos htc] at h
        cases hcf : cfgRead fs0 p with
        | none => rw [hcf] at h; cases h
        | some cf =>
            rw [hcf] at h
            cases hcc : fs0.creds with
            | none =>
                rw [hcc] at h
                cases h
                exact ⟨hcc, rfl, rfl, rfl,
                  fun t ht => rfl,
                  fun t ht => readBackupConfig_write_ne _ _ _ ht⟩
            | some cc =>
                rw [hcc] at h
                cases h
                refine ⟨hcc, rfl, rfl, rfl, ?_, ?_⟩
                · intro t ht
                  rw [readBackupCreds_writeConfig]
                  exact readBackupCreds_write_ne _ _ _ ht
                · intro t ht
                  rw [readBackupConfig_write_ne _ _ _ ht,
                      readBackupConfig_writeCreds]
      · rw [if_neg htc] at h
        cases h
        exact ⟨rfl, rfl, rfl, rfl, fun t _ => rfl, fun t _ => rfl⟩



theorem getMember_some_obj {d : JVal} {k : String} {x : JVal}
    (h : getMember d k = some x) : ∃ kvs, d = .obj kvs := by
  cases d with
  | obj kvs => exact ⟨kvs, rfl⟩
  | null => exact Option.noConfusion h
  | bool b => exact Option.noConfusion h
  | num n => exact Option.noConfusion h
  | str s => exact Option.noConfusion h
  | arr xs => exact Option.noConfusion h

/-- Forward characterization of a fully successful `switchToAccount` run:
under the preconditions each guard passes and the final state is the
cleaned-up, pointer-updated, config-patched state. -/
theorem switch_success (now : Str) (target : Int) (fs0 : FS)
    (d : JVal) (kvs : List (Str × JVal)) (ti : JVal)
    (fsB : FS) (tcv tfv : Str) (tfData o : JVal)
    (hd : getSeqData fs0 = some d)
    (hacc : getMember d "accounts" = some (.obj kvs))
    (hti : lookupE kvs (intChars target) = some ti)
    (htr : truthy ti = true)
    (harch : archiveCurrent fs0 (getConfigPath fs0)
        (lookupE kvs (resolveCurrentNum fs0 d (.obj kvs)))
        (resolveCurrentNum fs0 d (.obj kvs)) = (fsB, none))
    (htc : readBackupCreds fsB (intChars target) = some tcv) (htcne : tcv ≠ [])
    (htf : readBackupConfig fsB (intChars target) = some tfv) (htfne : tfv ≠ [])
    (hparse : jsonParse tfv = some tfData)
    (hoa : getMember tfData "oauthAccount" = some o)
    (htro : truthy o = true) :
    switchToAccount now target fs0 =
      (cleanupOrphanedBackups
         (setMemberJ (setMemberJ d "activeAccountNumber" (.num target)) "lastUpdated"
           (.str now))
         { cfgWrite (writeCurrentCredentials fsB tcv) (getConfigPath fs0)
             (jsonStringify (setMemberJ
               (match readJSONc (cfgRead (writeCurrentCredentials fsB tcv)
                   (getConfigPath fs0)) with
                | some v => if truthy v then v else .obj []
                | none => .obj []) "oauthAccount" o)) with
           seqFile := some (jsonStringify (setMemberJ (setMemberJ d "activeAccountNumber"
             (.num target)) "lastUpdated" (.str now))) },
       .ok ()) := by
  obtain ⟨dkvs, rfl⟩ := getMember_some_obj hacc
  obtain ⟨tkvs, rfl⟩ := getMember_some_obj hoa
  simp only [switchToAccount, hd, hacc, hti, htr, harch, htc, htf, hparse, hoa, htro]
  rw [if_neg (by simp [truthy]), if_neg (by simp [htr]), if_neg (by simp [htcne, htfne]),
      if_neg (by simp [htro])]

/-- Forward characterization of the missing-backup failure of
`switchToAccount`: the error is raised after the archive step, whose
partial state `fsB` is returned. -/
theorem switch_missing (now : Str) (target : Int) (fs0 : FS)
    (d : JVal) (kvs : List (Str × JVal)) (ti : JVal) (fsB : FS)
    (hd : getSeqData fs0 = some d)
    (hacc : getMember d "accounts" = some (.obj kvs))
    (hti : lookupE kvs (intChars target) = some ti)
    (htr : truthy ti = true)
    (harch : archiveCurrent fs0 (getConfigPath fs0)
        (lookupE kvs (resolveCurrentNum fs0 d (.obj kvs)))
        (resolveCurrentNum fs0 d (.obj kvs)) = (fsB, none))
    (hne : resolveCurrentNum fs0 d (.obj kvs) ≠ intChars target)
    (hmiss : readBackupCreds fs0 (intChars target) = none ∨
             readBackupConfig fs0 (intChars target) = none) :
    switchToAccount now target fs0 =
      (fsB, .error ("Missing backup data for Account-".data ++ intChars target)) := by
  obtain ⟨hcr, hp1, hp2, hsq, hbc, hbf⟩ := archiveCurrent_none harch
  have hne' : intChars target ≠ resolveCurrentNum fs0 d (.obj kvs) := Ne.symm hne
  obtain ⟨dkvs, rfl⟩ := getMember_some_obj hacc
  simp only [switchToAccount, hd, hacc, hti, htr, harch]
  rw [if_neg (by simp [truthy]), if_neg (by simp [htr])]
  rcases hmiss with hm | hm
  · rw [hbc _ hne', hm]
  · rw [hbf _ hne', hm]
    cases hc : readBackupCreds fsB (intChars target) with
    | none => rfl
    | some tc => rfl

/-! ## Claim C5: missing backup data -/

/-- C5 (amended): when the switch target is a key of the accounts map
whose archived credential or config blob is missing, *and the resolved
current account differs from the target*, `switchToAccount` raises the
explicit missing-backup-data error and leaves the live credential file,
both live config files, and the Registry file unchanged.  (The claim's
unrestricted version fails: switching to the resolved current account
first re-archives the live blobs under that very number, so the
"missing" backups exist by the time they are checked and the switch
succeeds — see the counterexample.) -/
theorem C5_missing_backup_amended (now : Str) (target : Int) (fs0 : FS)
    (d : JVal) (kvs : List (Str × JVal)) (ti : JVal) (fsB : FS)
    (hd : getSeqData fs0 = some d)
    (hacc : getMember d "accounts" = some (.obj kvs))
    (hti : lookupE kvs (intChars target) = some ti)
    (htr : truthy ti = true)
    (harch : archiveCurrent fs0 (getConfigPath fs0)
        (lookupE kvs (resolveCurrentNum fs0 d (.obj kvs)))
        (resolveCurrentNum fs0 d (.obj kvs)) = (fsB, none))
    (hne : resolveCurrentNum fs0 d (.obj kvs) ≠ intChars target)
    (hmiss : readBackupCreds fs0 (intChars target) = none ∨
             readBackupConfig fs0 (intChars target) = none) :
    switchToAccount now target fs0 =
      (fsB, .error ("Missing backup data for Account-".data ++ intChars target)) ∧
    fsB.creds = fs0.creds ∧ fsB.cfgPrimary = fs0.cfgPrimary ∧
    fsB.cfgFallback = fs0.cfgFallback ∧ fsB.seqFile = fs0.seqFile := by
  obtain ⟨hcr, hp1, hp2, hsq, _, _⟩ := archiveCurrent_none harch
  exact ⟨switch_missing now target fs0 d kvs ti fsB hd hacc hti htr harch hne hmiss,
         hcr, hp1, hp2, hsq⟩

/-- Live credential text for the C5 counterexample (JWT sub `"x"`). -/
def ctC5 : Str := "\x7b\"claudeAiOauth\":\x7b\"accessToken\":\"c.eyJzdWIiOiJ4In0.e\"\x7d\x7d".data

/-- Registry text for the C5 counterexample. -/
def regC5 : Str :=
  "\x7b\"activeAccountNumber\":1,\"accounts\":\x7b\"1\":\x7b\"sub\":\"x\"\x7d\x7d\x7d".data

/-- Live config text for the C5 counterexample. -/
def cfgC5 : Str := "\x7b\"oauthAccount\":\x7b\"a\":1\x7d\x7d".data

/-- C5 counterexample state: account `1` is saved in the Registry, its
archive files are missing, and the live credential resolves to it. -/
def fsC5 : FS := ⟨some ctC5, none, some cfgC5, some regC5, [], []⟩

/-- C5 counterexample: account `1` is present in `accounts` with no
archive files at all, yet `switchToAccount 1` *succeeds* instead of
raising the missing-backup error: the archive-current step re-creates
the target's backups from the live files just before the check. -/
theorem C5_missing_backup_cex :
    readBackupCreds fsC5 (intChars 1) = none ∧
    readBackupConfig fsC5 (intChars 1) = none ∧
    (∃ ti, lookupE [("1".data, .obj [("sub".data, .str "x".data)])] (intChars 1) =
      some ti ∧ truthy ti = true) ∧
    (switchToAccount "t".data 1 fsC5).2 = .ok () := by
  exact ⟨rfl, rfl, ⟨_, rfl, rfl⟩, rfl⟩

/-- Registry text for the C5 witness. -/
def regC5w : Str :=
  ("\x7b\"activeAccountNumber\":1,\"accounts\":\x7b\"1\":\x7b\"sub\":\"x\"\x7d," ++
   "\"2\":\x7b\"sub\":\"y\"\x7d\x7d\x7d").data

/-- Live config text for the C5 witness. -/
def cfgC5w : Str := "\x7b\"oauthAccount\":\x7b\"a\":1\x7d\x7d".data

/-- C5 witness state: no live credential, stored pointer `1`, target `2`
saved but never archived. -/
def fsC5w : FS := ⟨none, none, some cfgC5w, some regC5w, [], []⟩

/-- The C5 witness state after the archive-current step. -/
def fsC5wB : FS := ⟨none, none, some cfgC5w, some regC5w, [],
  [(".claude-config-1.json".data, cfgC5w)]⟩

/-- C5 witness: the amended theorem applies to the concrete
missing-backup state. -/
theorem C5_missing_backup_witness :
    switchToAccount "t".data 2 fsC5w =
      (fsC5wB, .error ("Missing backup data for Account-".data ++ intChars 2)) ∧
    fsC5wB.creds = fsC5w.creds ∧ fsC5wB.cfgPrimary = fsC5w.cfgPrimary ∧
    fsC5wB.cfgFallback = fsC5w.cfgFallback ∧ fsC5wB.seqFile = fsC5w.seqFile :=
  C5_missing_backup_amended "t".data 2 fsC5w
    (.obj [("activeAccountNumber".data, .num 1), ("accounts".data,
      .obj [("1".data, .obj [("sub".data, .str "x".data)]),
            ("2".data, .obj [("sub".data, .str "y".data)])])])
    [("1".data, .obj [("sub".data, .str "x".data)]),
     ("2".data, .obj [("sub".data, .str "y".data)])]
    (.obj [("sub".data, .str "y".data)]) fsC5wB
    rfl rfl rfl rfl (by decide) (by decide) (Or.inl rfl)

/-! ## Claim C10: archive precedes the backup-existence check -/

/-- C10: the archive-current step runs before the target's backups are
checked, so a switch that fails with the missing-backup-data error has
already overwritten the resolved current account's archive blobs with
the live credential and config contents. -/
theorem C10_archive_before_check (now : Str) (target : Int) (fs0 : FS)
    (d : JVal) (kvs : List (Str × JVal)) (ti cr : JVal) (ct cf : Str)
    (hd : getSeqData fs0 = some d)
    (hacc : getMember d "accounts" = some (.obj kvs))
    (hti : lookupE kvs (intChars target) = some ti)
    (htr : truthy ti = true)
    (hcreds : fs0.creds = some ct)
    (hcur : lookupE kvs (resolveCurrentNum fs0 d (.obj kvs)) = some cr)
    (htcr : truthy cr = true)
    (hcf : cfgRead fs0 (getConfigPath fs0) = some cf)
    (hne : resolveCurrentNum fs0 d (.obj kvs) ≠ intChars target)
    (hmiss : readBackupCreds fs0 (intChars target) = none ∨
             readBackupConfig fs0 (intChars target) = none) :
    (switchToAccount now target fs0).2 =
      .error ("Missing backup data for Account-".data ++ intChars target) ∧
    readBackupCreds (switchToAccount now target fs0).1
      (resolveCurrentNum fs0 d (.obj kvs)) = some ct ∧
    readBackupConfig (switchToAccount now target fs0).1
      (resolveCurrentNum fs0 d (.obj kvs)) = some cf := by
  have harch : archiveCurrent fs0 (getConfigPath fs0)
      (lookupE kvs (resolveCurrentNum fs0 d (.obj kvs)))
      (resolveCurrentNum fs0 d (.obj kvs)) =
      (writeBackupConfig (writeBackupCreds fs0 (resolveCurrentNum fs0 d (.obj kvs)) ct)
        (resolveCurrentNum fs0 d (.obj kvs)) cf, none) := by
    simp only [archiveCurrent, hcur, htcr, hcf, hcreds]
    simp
  have hres := switch_missing now target fs0 d kvs ti _ hd hacc hti htr harch hne hmiss
  rw [hres]
  refine ⟨rfl, ?_, ?_⟩
  · rw [readBackupCreds_writeConfig]
    exact readBackupCreds_write_self _ _ _
  · exact readBackupConfig_write_self _ _ _

/-- Accounts entries for the C10 witness. -/
def kvsC10 : List (Str × JVal) :=
  [("1".data, .obj [("sub".data, .str "x".data)]),
   ("2".data, .obj [("sub".data, .str "y".data)])]

/-- Registry document for the C10 witness. -/
def dC10 : JVal := .obj [("activeAccountNumber".data, .num 1),
  ("accounts".data, .obj kvsC10)]

/-- Live credential text for the C10 witness (JWT sub `"x"`). -/
def ctC10 : Str := "\x7b\"claudeAiOauth\":\x7b\"accessToken\":\"d.eyJzdWIiOiJ4In0.f\"\x7d\x7d".data

/-- Registry text for the C10 witness. -/
def regC10 : Str :=
  ("\x7b\"activeAccountNumber\":1,\"accounts\":\x7b\"1\":\x7b\"sub\":\"x\"\x7d," ++
   "\"2\":\x7b\"sub\":\"y\"\x7d\x7d\x7d").data

/-- Live config text for the C10 witness. -/
def cfgC10 : Str := "\x7b\"oauthAccount\":\x7b\"b\":2\x7d\x7d".data

/-- C10 witness state. -/
def fsC10 : FS := ⟨some ctC10, none, some cfgC10, some regC10, [], []⟩

/-- C10 witness: the theorem applies to a concrete failing switch whose
current account's archives end up holding the live blobs. -/
theorem C10_archive_before_check_witness :
    (switchToAccount "t".data 2 fsC10).2 =
      .error ("Missing backup data for Account-".data ++ intChars 2) ∧
    readBackupCreds (switchToAccount "t".data 2 fsC10).1
      (resolveCurrentNum fsC10 dC10 (.obj kvsC10)) = some ctC10 ∧
    readBackupConfig (switchToAccount "t".data 2 fsC10).1
      (resolveCurrentNum fsC10 dC10 (.obj kvsC10)) = some cfgC10 :=
  C10_archive_before_check "t".data 2 fsC10 dC10 kvsC10
    (.obj [("sub".data, .str "y".data)]) (.obj [("sub".data, .str "x".data)])
    ctC10 cfgC10 rfl rfl (by decide) rfl rfl (by decide) rfl rfl (by decide) (Or.inl rfl)

theorem cfgWrite_fields (fs : FS) (p : CfgPath) (t : Str) :
    (cfgWrite fs p t).creds = fs.creds ∧
    (cfgWrite fs p t).seqFile = fs.seqFile ∧
    (cfgWrite fs p t).credsDir = fs.credsDir ∧
    (cfgWrite fs p t).configsDir = fs.configsDir := by
  cases p <;> exact ⟨rfl, rfl, rfl, rfl⟩

theorem cleanup_unfold (data : JVal) (fs : FS) (akvs : List (Str × JVal))
    (hacc : getMember data "accounts" = some (.obj akvs)) :
    cleanupOrphanedBackups data fs =
      { fs with
        credsDir := fs.credsDir.filter fun fc =>
          !(strPre ".creds-".data fc.1 &&
            !(((akvs.map Prod.fst).map credsFileName).contains fc.1)),
        configsDir := fs.configsDir.filter fun fc =>
          !(strPre ".claude-config-".data fc.1 &&
            !(((akvs.map Prod.fst).map configFileName).contains fc.1)) } := by
  simp only [cleanupOrphanedBackups, hacc]
  rfl

theorem readBackupCreds_cleanup {data : JVal} {akvs : List (Str × JVal)} (fs : FS) {k : Str}
    (hacc : getMember data "accounts" = some (.obj akvs))
    (hk : k ∈ akvs.map Prod.fst) :
    readBackupCreds (cleanupOrphanedBackups data fs) k = readBackupCreds fs k := by
  rw [cleanup_unfold data fs akvs hacc]
  unfold readBackupCreds
  rw [show ({ fs with
        credsDir := fs.credsDir.filter fun fc =>
          !(strPre ".creds-".data fc.1 &&
            !(((akvs.map Prod.fst).map credsFileName).contains fc.1)),
        configsDir := fs.configsDir.filter fun fc =>
          !(strPre ".claude-config-".data fc.1 &&
            !(((akvs.map Prod.fst).map configFileName).contains fc.1)) } : FS).credsDir =
      fs.credsDir.filter (fun fc =>
          !(strPre ".creds-".data fc.1 &&
            !(((akvs.map Prod.fst).map credsFileName).contains fc.1))) from rfl]
  rw [dirRead_filter_pos]
  intro c
  have hmem : credsFileName k ∈ (akvs.map Prod.fst).map credsFileName :=
    List.mem_map_of_mem credsFileName hk
  rw [contains_iff_mem.mpr hmem]
  simp

theorem readBackupConfig_cleanup {data : JVal} {akvs : List (Str × JVal)} (fs : FS) {k : Str}
    (hacc : getMember data "accounts" = some (.obj akvs))
    (hk : k ∈ akvs.map Prod.fst) :
    readBackupConfig (cleanupOrphanedBackups data fs) k = readBackupConfig fs k := by
  rw [cleanup_unfold data fs akvs hacc]
  unfold readBackupConfig
  rw [show ({ fs with
        credsDir := fs.credsDir.filter fun fc =>
          !(strPre ".creds-".data fc.1 &&
            !(((akvs.map Prod.fst).map credsFileName).contains fc.1)),
        configsDir := fs.configsDir.filter fun fc =>
          !(strPre ".claude-config-".data fc.1 &&
            !(((akvs.map Prod.fst).map configFileName).contains fc.1)) } : FS).configsDir =
      fs.configsDir.filter (fun fc =>
          !(strPre ".claude-config-".data fc.1 &&
            !(((akvs.map Prod.fst).map configFileName).contains fc.1))) from rfl]
  rw [dirRead_filter_pos]
  intro c
  have hmem : configFileName k ∈ (akvs.map Prod.fst).map configFileName :=
    List.mem_map_of_mem configFileName hk
  rw [contains_iff_mem.mpr hmem]
  simp

theorem readBackupCreds_congr {fs fs' : FS} (k : Str) (h : fs'.credsDir = fs.credsDir) :
    readBackupCreds fs' k = readBackupCreds fs k := by
  unfold readBackupCreds
  rw [h]

theorem readBackupConfig_congr {fs fs' : FS} (k : Str) (h : fs'.configsDir = fs.configsDir) :
    readBackupConfig fs' k = readBackupConfig fs k := by
  unfold readBackupConfig
  rw [h]

/-! ## Claim C4: active-account resolution and archive placement -/

/-- C4: when the live credential's resolved `sub` matches Registry entry
K (by the `find` scan), a successful `switchToAccount J` archives the
live credential and config blobs under K's number — not under the stored
`activeAccountNumber` — before installing J's blobs (the final live
credential is J's archived one while K's archive slots hold the
pre-switch live contents); and when no live credential is readable, the
stringified stored `activeAccountNumber` is used as the current account
number instead.  Hypothesis `hrecs` excludes JSON-`null` Registry
records (see the note at `isSaved`). -/
theorem C4_archive_under_resolved (now : Str) (target : Int) (fs0 : FS)
    (d : JVal) (kvs : List (Str × JVal)) (ti : JVal)
    (ct : Str) (s : JVal) (K : Str) (krec : JVal)
    (tcv tfv : Str) (tfData o : JVal) (cf : Str)
    (hcreds : fs0.creds = some ct)
    (hsub : getSubFromCreds ct = some s)
    (hrecs : ∀ kv ∈ kvs, kv.2 ≠ JVal.null)
    (hfind : findBySub kvs s = some (K, krec))
    (hd : getSeqData fs0 = some d)
    (hacc : getMember d "accounts" = some (.obj kvs))
    (hti : lookupE kvs (intChars target) = some ti) (htr : truthy ti = true)
    (hK : lookupE kvs K = some krec) (htk : truthy krec = true)
    (hcf : cfgRead fs0 (getConfigPath fs0) = some cf)
    (htc : readBackupCreds (writeBackupConfig (writeBackupCreds fs0 K ct) K cf)
      (intChars target) = some tcv) (htcne : tcv ≠ [])
    (htf : readBackupConfig (writeBackupConfig (writeBackupCreds fs0 K ct) K cf)
      (intChars target) = some tfv) (htfne : tfv ≠ [])
    (hparse : jsonParse tfv = some tfData)
    (hoa : getMember tfData "oauthAccount" = some o)
    (htro : truthy o = true) :
    resolveCurrentNum fs0 d (.obj kvs) = K ∧
    (switchToAccount now target fs0).2 = .ok () ∧
    readBackupCreds (switchToAccount now target fs0).1 K = some ct ∧
    readBackupConfig (switchToAccount now target fs0).1 K = some cf ∧
    (switchToAccount now target fs0).1.creds = some tcv ∧
    (∀ fsx : FS, fsx.creds = none →
       resolveCurrentNum fsx d (.obj kvs) =
         jsToStringU (getMember d "activeAccountNumber")) := by
  obtain ⟨dkvs, rfl⟩ := getMember_some_obj hacc
  have htrs : truthy s = true := getSubFromCreds_truthy hsub
  have hres : resolveCurrentNum fs0 (.obj dkvs) (.obj kvs) = K := by
    simp only [resolveCurrentNum, hcreds, hsub, htrs, hfind, if_true]
  have harch : archiveCurrent fs0 (getConfigPath fs0)
      (lookupE kvs (resolveCurrentNum fs0 (.obj dkvs) (.obj kvs)))
      (resolveCurrentNum fs0 (.obj dkvs) (.obj kvs)) =
      (writeBackupConfig (writeBackupCreds fs0 K ct) K cf, none) := by
    rw [hres]
    simp only [archiveCurrent, hK, htk, hcf, hcreds]
    simp
  have hmain := switch_success now target fs0 (.obj dkvs) kvs ti _ tcv tfv tfData o
    hd hacc hti htr harch htc htcne htf htfne hparse hoa htro
  have hacc' : getMember (setMemberJ (setMemberJ (.obj dkvs) "activeAccountNumber"
      (.num target)) "lastUpdated" (.str now)) "accounts" = some (.obj kvs) := by
    rw [show setMemberJ (.obj dkvs) "activeAccountNumber" (.num target) =
        .obj (setEntry dkvs "activeAccountNumber".data (.num target)) from rfl]
    rw [getMember_setMemberJ_ne _ _ _ (by decide)]
    show lookupE (setEntry dkvs "activeAccountNumber".data (.num target)) "accounts".data =
      some (.obj kvs)
    rw [lookupE_setEntry_ne _ _ _ (by decide)]
    exact hacc
  rw [hmain]
  have hkeys := lookupE_mem_keys hK
  refine ⟨hres, rfl, ?_, ?_, ?_, ?_⟩
  · rw [readBackupCreds_cleanup _ hacc' hkeys]
    rw [readBackupCreds_congr K
      (show ({ cfgWrite (writeCurrentCredentials (writeBackupConfig (writeBackupCreds fs0 K ct) K cf) tcv) (getConfigPath fs0) (jsonStringify (setMemberJ (match readJSONc (cfgRead (writeCurrentCredentials (writeBackupConfig (writeBackupCreds fs0 K ct) K cf) tcv) (getConfigPath fs0)) with | some v => if truthy v then v else .obj [] | none => .obj []) "oauthAccount" o)) with seqFile := some (jsonStringify (setMemberJ (setMemberJ (.obj dkvs) "activeAccountNumber" (.num target)) "lastUpdated" (.str now))) } : FS).credsDir = (writeBackupConfig (writeBackupCreds fs0 K ct) K cf).credsDir from (cfgWrite_fields _ _ _).2.2.1)]
    rw [readBackupCreds_writeConfig]
    exact readBackupCreds_write_self _ _ _
  · rw [readBackupConfig_cleanup _ hacc' hkeys]
    rw [readBackupConfig_congr K
      (show ({ cfgWrite (writeCurrentCredentials (writeBackupConfig (writeBackupCreds fs0 K ct) K cf) tcv) (getConfigPath fs0) (jsonStringify (setMemberJ (match readJSONc (cfgRead (writeCurrentCredentials (writeBackupConfig (writeBackupCreds fs0 K ct) K cf) tcv) (getConfigPath fs0)) with | some v => if truthy v then v else .obj [] | none => .obj []) "oauthAccount" o)) with seqFile := some (jsonStringify (setMemberJ (setMemberJ (.obj dkvs) "activeAccountNumber" (.num target)) "lastUpdated" (.str now))) } : FS).configsDir = (writeBackupConfig (writeBackupCreds fs0 K ct) K cf).configsDir from (cfgWrite_fields _ _ _).2.2.2)]
    exact readBackupConfig_write_self _ _ _
  · rw [(cleanup_fields _ _).1]
    rw [(cfgWrite_fields _ _ _).1]
    rfl
  · intro fsx hx
    simp only [resolveCurrentNum, hx]

/-- Accounts entries for the C4 witness: live sub matches record `1`,
stored pointer is the stale `2`. -/
def kvsC4 : List (Str × JVal) :=
  [("1".data, .obj [("sub".data, .str "x".data)]),
   ("2".data, .obj [("sub".data, .str "z".data)]),
   ("3".data, .obj [("sub".data, .str "y".data)])]

/-- Registry document for the C4 witness. -/
def dC4 : JVal := .obj [("activeAccountNumber".data, .num 2),
  ("accounts".data, .obj kvsC4)]

/-- Live credential text for the C4 witness (JWT sub `"x"`). -/
def ctC4 : Str := "\x7b\"claudeAiOauth\":\x7b\"accessToken\":\"e.eyJzdWIiOiJ4In0.g\"\x7d\x7d".data

/-- Registry text for the C4 witness. -/
def regC4 : Str :=
  ("\x7b\"activeAccountNumber\":2,\"accounts\":\x7b\"1\":\x7b\"sub\":\"x\"\x7d," ++
   "\"2\":\x7b\"sub\":\"z\"\x7d,\"3\":\x7b\"sub\":\"y\"\x7d\x7d\x7d").data

/-- Live config text for the C4 witness. -/
def cfgC4 : Str := "\x7b\"oauthAccount\":\x7b\"a\":1\x7d\x7d".data

/-- Target account 3's archived config text for the C4 witness. -/
def tfC4 : Str := "\x7b\"oauthAccount\":\x7b\"c\":3\x7d\x7d".data

/-- C4 witness state: pointer `2` is stale, live sub matches `1`, target
`3` fully archived. -/
def fsC4 : FS := ⟨some ctC4, none, some cfgC4, some regC4,
  [(".creds-3.enc".data, b64EncodeStr "TC".data)],
  [(".claude-config-3.json".data, tfC4)]⟩

/-- C4 witness: the theorem applies to the concrete stale-pointer state. -/
theorem C4_archive_under_resolved_witness :
    resolveCurrentNum fsC4 dC4 (.obj kvsC4) = "1".data ∧
    (switchToAccount "t".data 3 fsC4).2 = .ok () ∧
    readBackupCreds (switchToAccount "t".data 3 fsC4).1 "1".data = some ctC4 ∧
    readBackupConfig (switchToAccount "t".data 3 fsC4).1 "1".data = some cfgC4 ∧
    (switchToAccount "t".data 3 fsC4).1.creds = some "TC".data ∧
    (∀ fsx : FS, fsx.creds = none →
       resolveCurrentNum fsx dC4 (.obj kvsC4) =
         jsToStringU (getMember dC4 "activeAccountNumber")) :=
  C4_archive_under_resolved "t".data 3 fsC4 dC4 kvsC4
    (.obj [("sub".data, .str "y".data)])
    ctC4 (.str "x".data) "1".data (.obj [("sub".data, .str "x".data)])
    "TC".data tfC4 (.obj [("oauthAccount".data, .obj [("c".data, .num 3)])])
    (.obj [("c".data, .num 3)]) cfgC4
    rfl (by decide) (by decide) (by decide) (by decide) rfl (by decide) rfl (by decide) rfl rfl
    (by decide) (by decide) (by decide) (by decide) (by decide) rfl rfl

theorem cfgRead_cleanup (data : JVal) (fs : FS) (p : CfgPath) :
    cfgRead (cleanupOrphanedBackups data fs) p = cfgRead fs p :=
  cfgRead_congr p (cleanup_fields data fs).2.1 (cleanup_fields data fs).2.2.1

theorem cfgRead_seqSet (fs : FS) (t : Option Str) (p : CfgPath) :
    cfgRead { fs with seqFile := t } p = cfgRead fs p := by
  cases p <;> rfl

/-! ## Claim C6: the config overwrite frame -/

/-- C6: a successful `switchToAccount` writes the live config as the
freshly read live config document with exactly its `oauthAccount` member
replaced by the target's archived `oauthAccount` value — every other key
is unchanged — and when the archived config has no truthy `oauthAccount`
the switch fails with the malformed-backup error (the live config
untouched in the returned state). -/
theorem C6_config_frame (now : Str) (target : Int) (fs0 : FS)
    (d : JVal) (kvs : List (Str × JVal)) (ti : JVal) (fsB : FS)
    (tcv tfv : Str) (tfData : JVal)
    (hd : getSeqData fs0 = some d)
    (hacc : getMember d "accounts" = some (.obj kvs))
    (hti : lookupE kvs (intChars target) = some ti)
    (htr : truthy ti = true)
    (harch : archiveCurrent fs0 (getConfigPath fs0)
        (lookupE kvs (resolveCurrentNum fs0 d (.obj kvs)))
        (resolveCurrentNum fs0 d (.obj kvs)) = (fsB, none))
    (htc : readBackupCreds fsB (intChars target) = some tcv) (htcne : tcv ≠ [])
    (htf : readBackupConfig fsB (intChars target) = some tfv) (htfne : tfv ≠ [])
    (hparse : jsonParse tfv = some tfData)
    (hnn : tfData ≠ .null) :
    (∀ o ckvs, getMember tfData "oauthAccount" = some o → truthy o = true →
       readJSONc (cfgRead fs0 (getConfigPath fs0)) = some (.obj ckvs) →
       cfgRead (switchToAccount now target fs0).1 (getConfigPath fs0) =
         some (jsonStringify (setMemberJ (.obj ckvs) "oauthAccount" o)) ∧
       jsonParse (jsonStringify (setMemberJ (.obj ckvs) "oauthAccount" o)) =
         some (setMemberJ (.obj ckvs) "oauthAccount" o) ∧
       getMember (setMemberJ (.obj ckvs) "oauthAccount" o) "oauthAccount" = some o ∧
       (∀ k : String, k.data ≠ "oauthAccount".data →
          getMember (setMemberJ (.obj ckvs) "oauthAccount" o) k =
            getMember (.obj ckvs) k) ∧
       (switchToAccount now target fs0).2 = .ok ()) ∧
    (getMember tfData "oauthAccount" = none →
       switchToAccount now target fs0 =
         (writeCurrentCredentials fsB tcv,
          .error "Invalid backup config: missing oauthAccount".data)) ∧
    (∀ o, getMember tfData "oauthAccount" = some o → truthy o = false →
       switchToAccount now target fs0 =
         (writeCurrentCredentials fsB tcv,
          .error "Invalid backup config: missing oauthAccount".data)) := by
  obtain ⟨dkvs, rfl⟩ := getMember_some_obj hacc
  obtain ⟨hcrB, hp1B, hp2B, hsqB, _, _⟩ := archiveCurrent_none harch
  refine ⟨?_, ?_, ?_⟩
  · intro o ckvs hoa htro hlive
    obtain ⟨tkvs, rfl⟩ := getMember_some_obj hoa
    have hmain := switch_success now target fs0 (.obj dkvs) kvs ti fsB tcv tfv
      (.obj tkvs) o hd hacc hti htr harch htc htcne htf htfne hparse hoa htro
    have hcfgC : readJSONc (cfgRead (writeCurrentCredentials fsB tcv)
        (getConfigPath fs0)) = some (.obj ckvs) := by
      rw [@cfgRead_congr fsB (writeCurrentCredentials fsB tcv) (getConfigPath fs0) rfl rfl,
          @cfgRead_congr fs0 fsB (getConfigPath fs0) hp1B hp2B]
      exact hlive
    have hwl : wfKeys (.obj ckvs) = true := by
      cases hct : cfgRead fs0 (getConfigPath fs0) with
      | none => rw [hct] at hlive; cases hlive
      | some t =>
          rw [hct] at hlive
          exact jsonParse_wf hlive
    have hwt : wfKeys (.obj tkvs) = true := jsonParse_wf hparse
    have hwo : wfKeys o = true := wf_getMember hwt hoa
    have hwcfg : wfKeys (setMemberJ (.obj ckvs) "oauthAccount" o) = true :=
      wfKeys_setMemberJ hwl hwo
    have hnewText : (match readJSONc (cfgRead (writeCurrentCredentials fsB tcv)
          (getConfigPath fs0)) with
        | some v => if truthy v then v else JVal.obj []
        | none => JVal.obj []) = JVal.obj ckvs := by
      rw [hcfgC]
      simp [truthy]
    refine ⟨?_, jsonParse_stringify _ hwcfg, getMember_setMemberJ_self _ _ _,
      fun k hk => getMember_setMemberJ_ne _ _ _ hk, by rw [hmain]⟩
    simp only [hmain, cfgRead_cleanup, cfgRead_seqSet, cfgRead_cfgWrite_self, hnewText]
  · intro hnoa
    simp only [switchToAccount, hd, hacc, hti, htr, harch, htc, htf, hparse]
    rw [if_neg (by simp [truthy]), if_neg (by simp [htr]),
        if_neg (by simp [htcne, htfne])]
    cases tfData with
    | null => exact absurd rfl hnn
    | bool b => rw [hnoa]
    | num n => rw [hnoa]
    | str s => rw [hnoa]
    | arr xs => rw [hnoa]
    | obj tkvs => rw [hnoa]
  · intro o hoa hfo
    simp only [switchToAccount, hd, hacc, hti, htr, harch, htc, htf, hparse]
    rw [if_neg (by simp [truthy]), if_neg (by simp [htr]),
        if_neg (by simp [htcne, htfne])]
    cases tfData with
    | null => exact absurd rfl hnn
    | bool b =>
        rw [hoa]
        simp [hfo]
    | num n =>
        rw [hoa]
        simp [hfo]
    | str s =>
        rw [hoa]
        simp [hfo]
    | arr xs =>
        rw [hoa]
        simp [hfo]
    | obj tkvs =>
        rw [hoa]
        simp [hfo]

/-- Accounts entries for the C6 witness. -/
def kvsC6 : List (Str × JVal) :=
  [("1".data, .obj [("sub".data, .str "x".data)]),
   ("2".data, .obj [("sub".data, .str "y".data)])]

/-- Registry document for the C6 witness. -/
def dC6 : JVal := .obj [("activeAccountNumber".data, .num 1),
  ("accounts".data, .obj kvsC6)]

/-- Registry text for the C6 witness. -/
def regC6 : Str :=
  ("\x7b\"activeAccountNumber\":1,\"accounts\":\x7b\"1\":\x7b\"sub\":\"x\"\x7d," ++
   "\"2\":\x7b\"sub\":\"y\"\x7d\x7d\x7d").data

/-- Live config text for the C6 witness: an `oauthAccount` plus one
unrelated key. -/
def cfgC6 : Str := "\x7b\"oauthAccount\":\x7b\"a\":1\x7d,\"other\":true\x7d".data

/-- The C6 witness live config document's entries. -/
def ckvsC6 : List (Str × JVal) :=
  [("oauthAccount".data, .obj [("a".data, .num 1)]), ("other".data, .bool true)]

/-- Target account 2's archived config text for the C6 witness. -/
def tfC6 : Str := "\x7b\"oauthAccount\":\x7b\"c\":2\x7d\x7d".data

/-- The archived `oauthAccount` value installed by the C6 witness switch. -/
def oC6 : JVal := .obj [("c".data, .num 2)]

/-- C6 witness state: no live credential, pointer `1`, target `2` fully
archived, live config carrying an unrelated key. -/
def fsC6 : FS := ⟨none, none, some cfgC6, some regC6,
  [(".creds-2.enc".data, b64EncodeStr "TC2".data)],
  [(".claude-config-2.json".data, tfC6)]⟩

/-- The C6 witness state after the archive-current step. -/
def fsBC6 : FS := ⟨none, none, some cfgC6, some regC6,
  [(".creds-2.enc".data, b64EncodeStr "TC2".data)],
  [(".claude-config-2.json".data, tfC6), (".claude-config-1.json".data, cfgC6)]⟩

/-- C6 witness: the frame theorem applies to the concrete switch,
replacing `oauthAccount` and preserving the unrelated key. -/
theorem C6_config_frame_witness :
    cfgRead (switchToAccount "t".data 2 fsC6).1 (getConfigPath fsC6) =
      some (jsonStringify (setMemberJ (.obj ckvsC6) "oauthAccount" oC6)) ∧
    getMember (setMemberJ (.obj ckvsC6) "oauthAccount" oC6) "oauthAccount" = some oC6 ∧
    (∀ k : String, k.data ≠ "oauthAccount".data →
       getMember (setMemberJ (.obj ckvsC6) "oauthAccount" oC6) k =
         getMember (.obj ckvsC6) k) ∧
    (switchToAccount "t".data 2 fsC6).2 = .ok () := by
  have h := (C6_config_frame "t".data 2 fsC6 dC6 kvsC6
      (.obj [("sub".data, .str "y".data)]) fsBC6 "TC2".data tfC6
      (.obj [("oauthAccount".data, oC6)])
      rfl rfl (by decide) rfl (by decide) (by decide) (by decide) (by decide) (by decide)
      rfl (by decide)).1 oC6 ckvsC6 rfl rfl (by decide)
  exact ⟨h.1, h.2.2.1, h.2.2.2.1, h.2.2.2.2⟩

/-! ## Forward characterization of a successful save -/

theorem jsStrictEq_str_self (s : Str) : jsStrictEq (.str s) (.str s) = true := by
  simp [jsStrictEq]

theorem parse_ne_nil {t : Str} {v : JVal} (h : jsonParse t = some v) : t ≠ [] := by
  intro he
  subst he
  rw [jsonParse_nil] at h
  cases h

theorem getToken_ne_nil {ct : Str} {tok : JVal} (h : getToken ct = some tok) : ct ≠ [] := by
  intro he
  subst he
  rw [show getToken [] = none from rfl] at h
  cases h

theorem any_false_find_none {p : Str × JVal → Bool} {kvs : List (Str × JVal)}
    (h : kvs.any p = false) : kvs.find? p = none := by
  rw [List.find?_eq_none]
  intro x hx
  rw [List.any_eq_false] at h
  exact fun hp => h x hx (by rw [hp])

theorem isSaved_false_findBySub {dkvs akvs : List (Str × JVal)} {s : JVal}
    (hacc : lookupE dkvs "accounts".data = some (.obj akvs))
    (hts : truthy s = true)
    (h : isSaved (some (.obj dkvs)) (some s) = false) :
    findBySub akvs s = none := by
  have h' : (if (decide ¬truthy (JVal.obj dkvs) = true || decide ¬truthy s = true) = true then
      false
    else
      match getMember (JVal.obj dkvs) "accounts" with
      | some (JVal.obj kvs) =>
        kvs.any fun kv =>
          match getMember kv.2 "sub" with
          | some v => jsStrictEq v s
          | none => false
      | _ => false) = false := h
  have hcond : (decide ¬truthy (JVal.obj dkvs) = true || decide ¬truthy s = true) = false := by
    rw [show truthy (JVal.obj dkvs) = true from rfl, hts]
    simp
  rw [if_neg (by rw [hcond]; simp)] at h'
  simp only [show getMember (JVal.obj dkvs) "accounts" = some (JVal.obj akvs) from hacc] at h'
  exact any_false_find_none h'

theorem wfKeysArr_append {xs : List JVal} {x : JVal}
    (hxs : wfKeysArr xs = true) (hx : wfKeys x = true) :
    wfKeysArr (xs ++ [x]) = true := by
  induction xs with
  | nil => simp [wfKeysArr, hx]
  | cons y ys ih =>
      rw [wfKeysArr, Bool.and_eq_true] at hxs
      rw [List.cons_append, wfKeysArr, Bool.and_eq_true]
      exact ⟨hxs.1, ih hxs.2⟩

/-- Forward characterization of a successful `saveCurrentAccount` run. -/
theorem save_success (now : Str) (fs0 : FS) (ct seqText cfgText : Str)
    (dkvs akvs : List (Str × JVal)) (sq : List JVal) (sub tok emailV : JVal) (N : Int)
    (hcred : fs0.creds = some ct)
    (hseq : fs0.seqFile = some seqText)
    (hparse : jsonParse seqText = some (.obj dkvs))
    (htok : getToken ct = some tok)
    (hsub : getSubFromCreds ct = some sub)
    (hns : isSaved (some (.obj dkvs)) (some sub) = false)
    (hacc : lookupE dkvs "accounts".data = some (.obj akvs))
    (hsq : lookupE dkvs "sequence".data = some (.arr sq))
    (hcfg : cfgRead fs0 (getConfigPath fs0) = some cfgText)
    (hdup : findDup (.obj dkvs) sub = none)
    (hnum : nextNum (.obj dkvs) = some N)
    (hemail : (match getEmailHintFromCreds ct with
       | some e => if truthy e then e else .str "(unknown)".data
       | none => .str "(unknown)".data) = emailV) :
    saveCurrentAccount now fs0 =
      ({ writeBackupConfig (writeBackupCreds fs0 (intChars N) ct) (intChars N) cfgText with
         seqFile := some (jsonStringify (setMemberJ (setMemberJ (setMemberJ
           (setMemberJ (.obj dkvs) "accounts"
             (.obj (setEntry akvs (intChars N)
               (.obj [("email".data, emailV), ("sub".data, sub), ("added".data, .str now)]))))
           "sequence" (.arr (sq ++ [.num N])))
           "activeAccountNumber" (.num N)) "lastUpdated" (.str now))) },
       .ok (some N)) := by
  have hfs : initSequenceFile now fs0 = fs0 := by
    unfold initSequenceFile
    rw [hseq]
  have hsd : getSeqData fs0 = some (.obj dkvs) := by
    unfold getSeqData readJSONc
    rw [hseq, Option.some_bind, hparse]
  have haccm : getMember (JVal.obj dkvs) "accounts" = some (.obj akvs) := hacc
  have hsqm : getMember (JVal.obj dkvs) "sequence" = some (.arr sq) := hsq
  simp only [saveCurrentAccount, hfs, readCurrentCredentials, hcred, htok, hsub, hsd, hns,
    hcfg, hdup, hnum, haccm, hsqm, hemail, jsNumToStr, jnumVal, if_false, Bool.false_eq_true]

/-- Writing the live config at the currently selected path with a
well-formed object carrying a truthy `oauthAccount` leaves the path
selection unchanged. -/
theorem getConfigPath_cfgWrite_oauth (fs : FS) (ckvs : List (Str × JVal)) (o : JVal)
    (hwf : wfKeys (.obj ckvs) = true)
    (hoa : getMember (.obj ckvs) "oauthAccount" = some o) (htro : truthy o = true) :
    getConfigPath (cfgWrite fs (getConfigPath fs) (jsonStringify (.obj ckvs))) =
      getConfigPath fs := by
  cases hp : getConfigPath fs with
  | primary =>
      show getConfigPath (cfgWrite fs .primary (jsonStringify (.obj ckvs))) = .primary
      have hre : readJSONc (cfgWrite fs CfgPath.primary
          (jsonStringify (.obj ckvs))).cfgPrimary = some (.obj ckvs) := by
        show readJSONc (some (jsonStringify (.obj ckvs))) = some (.obj ckvs)
        unfold readJSONc
        rw [Option.some_bind]
        exact jsonParse_stringify _ hwf
      have hcnd : (truthy (.obj ckvs) &&
          (match getMember (.obj ckvs) "oauthAccount" with
           | some x => truthy x
           | none => false)) = true := by
        simp only [hoa, htro]
        rfl
      simp only [getConfigPath, hre, hcnd, if_true]
  | fallback =>
      have h1 : (cfgWrite fs .fallback (jsonStringify (.obj ckvs))).cfgPrimary =
          fs.cfgPrimary := rfl
      rw [getConfigPath_congr h1]
      exact hp

/-! ## Claim C1: the save/switch/switch-back round trip -/

/-- C1 (amended): after a successful save (returning N), a successful
switch to another saved account M, and a successful switch back to N,
the live credential text is byte-identical to its pre-sequence value,
the live config's `oauthAccount` equals its pre-sequence value, and
every other key of the live config document is unchanged — *provided*
the identity resolved from M's archived credential selects M's own
Registry record (hypothesis `hMfind`), and no Registry record is JSON
`null` (hypothesis `hrecs`; see the note at `isSaved`).  Without `hMfind`
the
claim fails: if M's archived credential resolves to the same identity
as the newly saved account, the switch back re-archives M's credential
under N before restoring, clobbering N's backup — see the
counterexample. -/
theorem C1_roundtrip_amended
    (now1 now2 now3 : Str) (M N : Int) (fs0 : FS)
    (ct seqText cfgText mct mft : Str)
    (dkvs akvs ckvs : List (Str × JVal)) (sq : List JVal)
    (tok emailV mrec mfd oM o0 : JVal) (ssub msub : Str)
    (hcred : fs0.creds = some ct)
    (hseq : fs0.seqFile = some seqText)
    (hparse : jsonParse seqText = some (.obj dkvs))
    (htok : getToken ct = some tok)
    (hsub : getSubFromCreds ct = some (.str ssub))
    (hns : isSaved (some (.obj dkvs)) (some (.str ssub)) = false)
    (hacc : lookupE dkvs "accounts".data = some (.obj akvs))
    (hrecs : ∀ kv ∈ akvs, kv.2 ≠ JVal.null)
    (hsq : lookupE dkvs "sequence".data = some (.arr sq))
    (hcfg : cfgRead fs0 (getConfigPath fs0) = some cfgText)
    (hdup : findDup (.obj dkvs) (.str ssub) = none)
    (hnum : nextNum (.obj dkvs) = some N)
    (hemail : (match getEmailHintFromCreds ct with
       | some e => if truthy e then e else .str "(unknown)".data
       | none => .str "(unknown)".data) = emailV)
    (hwfe : wfKeys emailV = true)
    (hcparse : jsonParse cfgText = some (.obj ckvs))
    (hoauth0 : lookupE ckvs "oauthAccount".data = some o0)
    (htro0 : truthy o0 = true)
    (hfresh : lookupE akvs (intChars N) = none)
    (hMN : M ≠ N)
    (hM : lookupE akvs (intChars M) = some mrec)
    (htrM : truthy mrec = true)
    (hMc : readBackupCreds fs0 (intChars M) = some mct) (hMcne : mct ≠ [])
    (hMf : readBackupConfig fs0 (intChars M) = some mft) (hMfne : mft ≠ [])
    (hMparse : jsonParse mft = some mfd)
    (hMoa : getMember mfd "oauthAccount" = some oM)
    (htroM : truthy oM = true)
    (hMsub : getSubFromCreds mct = some (.str msub))
    (hMfind : findBySub akvs (.str msub) = some (intChars M, mrec)) :
    (saveCurrentAccount now1 fs0).2 = .ok (some N) ∧
    (switchToAccount now2 M (saveCurrentAccount now1 fs0).1).2 = .ok () ∧
    (switchToAccount now3 N
      (switchToAccount now2 M (saveCurrentAccount now1 fs0).1).1).2 = .ok () ∧
    (switchToAccount now3 N
      (switchToAccount now2 M (saveCurrentAccount now1 fs0).1).1).1.creds = fs0.creds ∧
    cfgRead (switchToAccount now3 N
        (switchToAccount now2 M (saveCurrentAccount now1 fs0).1).1).1
        (getConfigPath fs0) =
      some (jsonStringify (setMemberJ (setMemberJ (.obj ckvs) "oauthAccount" oM)
        "oauthAccount" o0)) ∧
    getMember (setMemberJ (setMemberJ (.obj ckvs) "oauthAccount" oM) "oauthAccount" o0)
      "oauthAccount" = some o0 ∧
    (∀ k : String, k.data ≠ "oauthAccount".data →
       getMember (setMemberJ (setMemberJ (.obj ckvs) "oauthAccount" oM) "oauthAccount" o0)
         k = getMember (.obj ckvs) k) := by
  -- notation
  have hNeqs : intChars M ≠ intChars N := fun h => hMN (intChars_inj h)
  have hNeqs' : intChars N ≠ intChars M := fun h => hMN (intChars_inj h).symm
  have htssub : truthy (.str ssub) = true := getSubFromCreds_truthy hsub
  have htmsub : truthy (.str msub) = true := getSubFromCreds_truthy hMsub
  have hctne : ct ≠ [] := getToken_ne_nil htok
  have hcfgne : cfgText ≠ [] := parse_ne_nil hcparse
  -- step 1: the save
  have hsave := save_success now1 fs0 ct seqText cfgText dkvs akvs sq (.str ssub) tok
    emailV N hcred hseq hparse htok hsub hns hacc hsq hcfg hdup hnum hemail
  set REC1 : JVal := .obj [("email".data, emailV), ("sub".data, .str ssub),
    ("added".data, .str now1)] with hREC1
  set AK1 : List (Str × JVal) := setEntry akvs (intChars N) REC1 with hAK1
  set D1 : JVal := setMemberJ (setMemberJ (setMemberJ (setMemberJ (.obj dkvs) "accounts"
    (.obj AK1)) "sequence" (.arr (sq ++ [.num N]))) "activeAccountNumber" (.num N))
    "lastUpdated" (.str now1) with hD1
  set FS1 : FS := { writeBackupConfig (writeBackupCreds fs0 (intChars N) ct) (intChars N)
    cfgText with seqFile := some (jsonStringify D1) } with hFS1
  -- basic facts about the post-save state
  have f1creds : FS1.creds = some ct := hcred
  have f1p : getConfigPath FS1 = getConfigPath fs0 := @getConfigPath_congr fs0 FS1 rfl
  have f1cfg : cfgRead FS1 (getConfigPath fs0) = some cfgText :=
    (@cfgRead_congr fs0 FS1 (getConfigPath fs0) rfl rfl).trans hcfg
  -- well-formedness of the saved registry document
  have hw0 : wfKeys (.obj dkvs) = true := jsonParse_wf hparse
  have hwacc : wfKeys (.obj akvs) = true := wf_getMember hw0 hacc
  have hwsq : wfKeys (.arr sq) = true := wf_getMember hw0 hsq
  have hwrec : wfKeys REC1 = true := by
    rw [hREC1]
    show (noDupKeys [("email".data, emailV), ("sub".data, .str ssub),
        ("added".data, .str now1)] &&
      wfKeysObj [("email".data, emailV), ("sub".data, .str ssub),
        ("added".data, .str now1)]) = true
    rw [Bool.and_eq_true]
    constructor
    · rfl
    · show (wfKeys emailV && (wfKeys (.str ssub) && (wfKeys (.str now1) && true))) = true
      rw [hwfe]
      rfl
  have hwAK1 : wfKeys (.obj AK1) = true := by
    rw [hAK1]
    show (noDupKeys (setEntry akvs (intChars N) REC1) &&
      wfKeysObj (setEntry akvs (intChars N) REC1)) = true
    rw [Bool.and_eq_true]
    rw [show wfKeys (JVal.obj akvs) = (noDupKeys akvs && wfKeysObj akvs) from rfl,
      Bool.and_eq_true] at hwacc
    exact ⟨noDupKeys_setEntry hwacc.1, wfKeysObj_setEntry hwacc.2 hwrec⟩
  have hwS : wfKeys (.arr (sq ++ [.num N])) = true := by
    show wfKeysArr (sq ++ [.num N]) = true
    exact wfKeysArr_append hwsq rfl
  have hwD1 : wfKeys D1 = true := by
    rw [hD1]
    exact wfKeys_setMemberJ (wfKeys_setMemberJ (wfKeys_setMemberJ
      (wfKeys_setMemberJ hw0 hwAK1) hwS) rfl) rfl
  have f1seq : getSeqData FS1 = some D1 := by
    show readJSONc (some (jsonStringify D1)) = some D1
    unfold readJSONc
    rw [Option.some_bind]
    exact jsonParse_stringify _ hwD1
  have haccD1 : getMember D1 "accounts" = some (.obj AK1) := by
    rw [hD1]
    show lookupE (setEntry (setEntry (setEntry (setEntry dkvs "accounts".data (.obj AK1))
      "sequence".data (.arr (sq ++ [.num N]))) "activeAccountNumber".data (.num N))
      "lastUpdated".data (.str now1)) "accounts".data = some (.obj AK1)
    rw [lookupE_setEntry_ne _ _ _ (by decide), lookupE_setEntry_ne _ _ _ (by decide),
        lookupE_setEntry_ne _ _ _ (by decide), lookupE_setEntry_self]
  -- switch to M: resolution, archive, and the target's backups
  have hsubrec : getMember REC1 "sub" = some (.str ssub) := by
    rw [hREC1]
    rfl
  have hfind1 : findBySub AK1 (.str ssub) = some (intChars N, REC1) := by
    rw [hAK1, setEntry_of_none REC1 hfresh,
        findBySub_none_append (isSaved_false_findBySub hacc htssub hns)]
    unfold findBySub
    refine List.find?_cons_of_pos _ ?_
    simp only [hsubrec]
    exact jsStrictEq_str_self ssub
  have f1creds' : (writeBackupConfig (writeBackupCreds fs0 (intChars N) ct) (intChars N)
      cfgText).creds = some ct := hcred
  have hresolve1 : resolveCurrentNum FS1 D1 (.obj AK1) = intChars N := by
    simp only [resolveCurrentNum, f1creds', hsub, htssub, hfind1, if_true]
  have hcur1 : lookupE AK1 (intChars N) = some REC1 := by
    rw [hAK1]
    exact lookupE_setEntry_self _ _ _
  have htrec1 : truthy REC1 = true := by
    rw [hREC1]
    rfl
  have harch1 : archiveCurrent FS1 (getConfigPath FS1)
      (lookupE AK1 (resolveCurrentNum FS1 D1 (.obj AK1)))
      (resolveCurrentNum FS1 D1 (.obj AK1)) =
      (writeBackupConfig (writeBackupCreds FS1 (intChars N) ct) (intChars N) cfgText,
       none) := by
    rw [hresolve1, hcur1]
    show archiveCurrent FS1 (getConfigPath FS1) (some REC1) (intChars N) = _
    simp only [archiveCurrent, htrec1, if_true, f1p, f1cfg, f1creds, f1creds']
  set FS1B : FS := writeBackupConfig (writeBackupCreds FS1 (intChars N) ct) (intChars N)
    cfgText with hFS1B
  have htiM : lookupE AK1 (intChars M) = some mrec := by
    rw [hAK1, lookupE_setEntry_ne _ _ _ hNeqs]
    exact hM
  have htc1 : readBackupCreds FS1B (intChars M) = some mct := by
    rw [hFS1B, readBackupCreds_writeConfig, readBackupCreds_write_ne _ _ _ hNeqs,
        @readBackupCreds_congr (writeBackupCreds fs0 (intChars N) ct) FS1 (intChars M) rfl,
        readBackupCreds_write_ne _ _ _ hNeqs]
    exact hMc
  have htf1 : readBackupConfig FS1B (intChars M) = some mft := by
    rw [hFS1B, readBackupConfig_write_ne _ _ _ hNeqs, readBackupConfig_writeCreds,
        @readBackupConfig_congr (writeBackupConfig (writeBackupCreds fs0 (intChars N) ct)
          (intChars N) cfgText) FS1 (intChars M) rfl,
        readBackupConfig_write_ne _ _ _ hNeqs, readBackupConfig_writeCreds]
    exact hMf
  have hsw1 := switch_success now2 M FS1 D1 AK1 mrec FS1B mct mft mfd oM
    f1seq haccD1 htiM htrM harch1 htc1 hMcne htf1 hMfne hMparse hMoa htroM
  -- canonical form of the post-switch-M state
  set CFG2 : JVal := setMemberJ (.obj ckvs) "oauthAccount" oM with hCFG2
  have hlive1 : readJSONc (cfgRead (writeCurrentCredentials FS1B mct)
      (getConfigPath FS1)) = some (.obj ckvs) := by
    rw [@cfgRead_congr FS1B (writeCurrentCredentials FS1B mct) (getConfigPath FS1) rfl rfl,
        @cfgRead_congr FS1 FS1B (getConfigPath FS1) rfl rfl, f1p, f1cfg]
    show readJSONc (some cfgText) = some (.obj ckvs)
    unfold readJSONc
    rw [Option.some_bind]
    exact hcparse
  set D2 : JVal := setMemberJ (setMemberJ D1 "activeAccountNumber" (.num M)) "lastUpdated"
    (.str now2) with hD2
  set FS2E : FS := { cfgWrite (writeCurrentCredentials FS1B mct) (getConfigPath FS1)
    (jsonStringify CFG2) with seqFile := some (jsonStringify D2) } with hFS2E
  have hsw1' : switchToAccount now2 M FS1 = (cleanupOrphanedBackups D2 FS2E, .ok ()) := by
    rw [hsw1, hFS2E, hCFG2]
    simp only [hlive1]
    rfl
  set FS2 : FS := cleanupOrphanedBackups D2 FS2E with hFS2
  -- facts about the post-switch-M state
  have f2creds : FS2.creds = some mct :=
    ((cleanup_fields D2 FS2E).1).trans ((cfgWrite_fields (writeCurrentCredentials FS1B mct)
      (getConfigPath FS1) (jsonStringify CFG2)).1)
  have hwck : wfKeys (.obj ckvs) = true := jsonParse_wf hcparse
  have hwoM : wfKeys oM = true := wf_getMember (jsonParse_wf hMparse) hMoa
  have hCFG2shape : CFG2 = .obj (setEntry ckvs "oauthAccount".data oM) := by
    rw [hCFG2]
    rfl
  have hwCFG2 : wfKeys CFG2 = true := by
    rw [hCFG2]
    exact wfKeys_setMemberJ hwck hwoM
  have hoaCFG2 : getMember CFG2 "oauthAccount" = some oM := by
    rw [hCFG2shape]
    exact lookupE_setEntry_self _ _ _
  have f2p : getConfigPath FS2 = getConfigPath fs0 := by
    have h1 : getConfigPath FS2 = getConfigPath FS2E :=
      @getConfigPath_congr FS2E FS2 ((cleanup_fields D2 FS2E).2.1)
    have h3 : getConfigPath (writeCurrentCredentials FS1B mct) = getConfigPath FS1 :=
      @getConfigPath_congr FS1 (writeCurrentCredentials FS1B mct) rfl
    have h4 : getConfigPath FS2E = getConfigPath (writeCurrentCredentials FS1B mct) := by
      have h2 : getConfigPath FS2E = getConfigPath (cfgWrite
          (writeCurrentCredentials FS1B mct) (getConfigPath FS1) (jsonStringify CFG2)) :=
        @getConfigPath_congr (cfgWrite (writeCurrentCredentials FS1B mct)
          (getConfigPath FS1) (jsonStringify CFG2)) FS2E rfl
      rw [h2, show getConfigPath FS1 = getConfigPath (writeCurrentCredentials FS1B mct)
        from h3.symm, hCFG2shape]
      exact getConfigPath_cfgWrite_oauth (writeCurrentCredentials FS1B mct)
        (setEntry ckvs "oauthAccount".data oM) oM (hCFG2shape ▸ hwCFG2)
        (hCFG2shape ▸ hoaCFG2) htroM
    rw [h1, h4, h3, f1p]
  have f2cfgP : cfgRead FS2 (getConfigPath fs0) = some (jsonStringify CFG2) := by
    have h1 : cfgRead FS2 (getConfigPath fs0) = cfgRead FS2E (getConfigPath fs0) :=
      @cfgRead_congr FS2E FS2 (getConfigPath fs0) ((cleanup_fields D2 FS2E).2.1)
        ((cleanup_fields D2 FS2E).2.2.1)
    rw [h1, hFS2E, ← f1p, cfgRead_seqSet, cfgRead_cfgWrite_self]
  have hwD2 : wfKeys D2 = true := by
    rw [hD2]
    exact wfKeys_setMemberJ (wfKeys_setMemberJ hwD1 rfl) rfl
  have f2seq : getSeqData FS2 = some D2 := by
    show readJSONc FS2.seqFile = some D2
    rw [show FS2.seqFile = FS2E.seqFile from (cleanup_fields D2 FS2E).2.2.2, hFS2E]
    show readJSONc (some (jsonStringify D2)) = some D2
    unfold readJSONc
    rw [Option.some_bind]
    exact jsonParse_stringify _ hwD2
  have hD1shape : D1 = .obj (setEntry (setEntry (setEntry (setEntry dkvs "accounts".data
      (.obj AK1)) "sequence".data (.arr (sq ++ [.num N]))) "activeAccountNumber".data
      (.num N)) "lastUpdated".data (.str now1)) := by
    rw [hD1]
    rfl
  have haccD2 : getMember D2 "accounts" = some (.obj AK1) := by
    rw [hD2, hD1shape]
    show lookupE (setEntry (setEntry (setEntry (setEntry (setEntry (setEntry dkvs
      "accounts".data (.obj AK1)) "sequence".data (.arr (sq ++ [.num N])))
      "activeAccountNumber".data (.num N)) "lastUpdated".data (.str now1))
      "activeAccountNumber".data (.num M)) "lastUpdated".data (.str now2))
      "accounts".data = some (.obj AK1)
    rw [lookupE_setEntry_ne _ _ _ (by decide), lookupE_setEntry_ne _ _ _ (by decide),
        lookupE_setEntry_ne _ _ _ (by decide), lookupE_setEntry_ne _ _ _ (by decide),
        lookupE_setEntry_ne _ _ _ (by decide), lookupE_setEntry_self]
  -- switch back to N
  have hfind2 : findBySub AK1 (.str msub) = some (intChars M, mrec) := by
    rw [hAK1, setEntry_of_none REC1 hfresh]
    exact findBySub_append_left hMfind
  have hresolve2 : resolveCurrentNum FS2 D2 (.obj AK1) = intChars M := by
    simp only [resolveCurrentNum, f2creds, hMsub, htmsub, hfind2, if_true]
  have harch2 : archiveCurrent FS2 (getConfigPath FS2)
      (lookupE AK1 (resolveCurrentNum FS2 D2 (.obj AK1)))
      (resolveCurrentNum FS2 D2 (.obj AK1)) =
      (writeBackupConfig (writeBackupCreds FS2 (intChars M) mct) (intChars M)
        (jsonStringify CFG2), none) := by
    rw [hresolve2, htiM]
    show archiveCurrent FS2 (getConfigPath FS2) (some mrec) (intChars M) = _
    simp only [archiveCurrent, htrM, if_true, f2p, f2cfgP, f2creds]
  set FS2B : FS := writeBackupConfig (writeBackupCreds FS2 (intChars M) mct) (intChars M)
    (jsonStringify CFG2) with hFS2B
  have hNmem : intChars N ∈ AK1.map Prod.fst := lookupE_mem_keys hcur1
  have htc2 : readBackupCreds FS2B (intChars N) = some ct := by
    rw [hFS2B, readBackupCreds_writeConfig, readBackupCreds_write_ne _ _ _ hNeqs',
        hFS2, readBackupCreds_cleanup FS2E haccD2 hNmem,
        @readBackupCreds_congr FS1B FS2E (intChars N)
          ((cfgWrite_fields (writeCurrentCredentials FS1B mct) (getConfigPath FS1)
            (jsonStringify CFG2)).2.2.1),
        hFS1B, readBackupCreds_writeConfig]
    exact readBackupCreds_write_self _ _ _
  have htf2 : readBackupConfig FS2B (intChars N) = some cfgText := by
    rw [hFS2B, readBackupConfig_write_ne _ _ _ hNeqs', readBackupConfig_writeCreds,
        hFS2, readBackupConfig_cleanup FS2E haccD2 hNmem,
        @readBackupConfig_congr FS1B FS2E (intChars N)
          ((cfgWrite_fields (writeCurrentCredentials FS1B mct) (getConfigPath FS1)
            (jsonStringify CFG2)).2.2.2),
        hFS1B]
    exact readBackupConfig_write_self _ _ _
  have hsw2 := switch_success now3 N FS2 D2 AK1 REC1 FS2B ct cfgText (.obj ckvs) o0
    f2seq haccD2 hcur1 htrec1 harch2 htc2 hctne htf2 hcfgne hcparse hoauth0 htro0
  have hlive2 : readJSONc (cfgRead (writeCurrentCredentials FS2B ct)
      (getConfigPath FS2)) = some CFG2 := by
    rw [@cfgRead_congr FS2B (writeCurrentCredentials FS2B ct) (getConfigPath FS2) rfl rfl,
        @cfgRead_congr FS2 FS2B (getConfigPath FS2) rfl rfl, f2p, f2cfgP]
    show readJSONc (some (jsonStringify CFG2)) = some CFG2
    unfold readJSONc
    rw [Option.some_bind]
    exact jsonParse_stringify _ hwCFG2
  have htCFG2 : truthy CFG2 = true := by
    rw [hCFG2shape]
    rfl
  set D3 : JVal := setMemberJ (setMemberJ D2 "activeAccountNumber" (.num N)) "lastUpdated"
    (.str now3) with hD3
  set CFG3 : JVal := setMemberJ CFG2 "oauthAccount" o0 with hCFG3
  set FS3E : FS := { cfgWrite (writeCurrentCredentials FS2B ct) (getConfigPath FS2)
    (jsonStringify CFG3) with seqFile := some (jsonStringify D3) } with hFS3E
  have hsw2' : switchToAccount now3 N FS2 = (cleanupOrphanedBackups D3 FS3E, .ok ()) := by
    rw [hsw2, hFS3E, hCFG3]
    simp only [hlive2, htCFG2, if_true]
  -- the composed chain
  have hchain : switchToAccount now3 N
      (switchToAccount now2 M (saveCurrentAccount now1 fs0).1).1 =
      (cleanupOrphanedBackups D3 FS3E, .ok ()) := by
    rw [hsave]
    rw [show ((FS1, Except.ok (some N)) : FS × Except Str JsNum).1 = FS1 from rfl, hsw1']
    rw [show ((FS2, Except.ok ()) : FS × Except Str Unit).1 = FS2 from rfl]
    exact hsw2'
  have hchain1 : (switchToAccount now2 M (saveCurrentAccount now1 fs0).1).2 = .ok () := by
    rw [hsave]
    rw [show ((FS1, Except.ok (some N)) : FS × Except Str JsNum).1 = FS1 from rfl, hsw1']
  have hCFG3shape : CFG3 = .obj (setEntry (setEntry ckvs "oauthAccount".data oM)
      "oauthAccount".data o0) := by
    rw [hCFG3, hCFG2shape]
    rfl
  refine ⟨by rw [hsave], hchain1, by rw [hchain], ?_, ?_, ?_, ?_⟩
  · rw [hchain]
    show (cleanupOrphanedBackups D3 FS3E).creds = fs0.creds
    rw [(cleanup_fields D3 FS3E).1, hFS3E]
    rw [show ({ cfgWrite (writeCurrentCredentials FS2B ct) (getConfigPath FS2)
        (jsonStringify CFG3) with seqFile := some (jsonStringify D3) } : FS).creds =
      (cfgWrite (writeCurrentCredentials FS2B ct) (getConfigPath FS2)
        (jsonStringify CFG3)).creds from rfl]
    rw [(cfgWrite_fields (writeCurrentCredentials FS2B ct) (getConfigPath FS2)
      (jsonStringify CFG3)).1]
    rw [hcred]
    rfl
  · rw [hchain]
    show cfgRead (cleanupOrphanedBackups D3 FS3E) (getConfigPath fs0) =
      some (jsonStringify CFG3)
    rw [cfgRead_cleanup, hFS3E, ← f2p]
    show cfgRead { cfgWrite (writeCurrentCredentials FS2B ct) (getConfigPath FS2)
      (jsonStringify CFG3) with seqFile := some (jsonStringify D3) } (getConfigPath FS2) =
      some (jsonStringify CFG3)
    rw [cfgRead_seqSet, cfgRead_cfgWrite_self]
  · rw [hCFG3shape]
    exact lookupE_setEntry_self _ _ _
  · intro k hk
    rw [hCFG3shape]
    show lookupE (setEntry (setEntry ckvs "oauthAccount".data oM) "oauthAccount".data o0)
      k.data = getMember (.obj ckvs) k
    rw [lookupE_setEntry_ne _ _ _ hk, lookupE_setEntry_ne _ _ _ hk]
    rfl

/-- Live credential text for the C1 counterexample (JWT sub `"x"`). -/
def ctC1 : Str := "\x7b\"claudeAiOauth\":\x7b\"accessToken\":\"a.eyJzdWIiOiJ4In0.c\"\x7d\x7d".data

/-- Account 2's archived credential text for the C1 counterexample: a
*different* token that resolves to the same sub `"x"` as the live one. -/
def mctC1 : Str := "\x7b\"claudeAiOauth\":\x7b\"accessToken\":\"b.eyJzdWIiOiJ4In0.d\"\x7d\x7d".data

/-- Registry text for the C1 counterexample (account 2, sub `"z"`). -/
def regC1 : Str :=
  ("\x7b\"activeAccountNumber\":null,\"accounts\":\x7b\"2\":\x7b\"sub\":\"z\"\x7d\x7d," ++
   "\"sequence\":[]\x7d").data

/-- Live config text for the C1 counterexample. -/
def cfgC1 : Str := "\x7b\"oauthAccount\":\x7b\"a\":1\x7d,\"other\":true\x7d".data

/-- Account 2's archived config text for the C1 counterexample. -/
def tf2C1 : Str := "\x7b\"oauthAccount\":\x7b\"m\":2\x7d\x7d".data

/-- C1 counterexample state. -/
def fsC1cex : FS := ⟨some ctC1, none, some cfgC1, some regC1,
  [(".creds-2.enc".data, b64EncodeStr mctC1)],
  [(".claude-config-2.json".data, tf2C1)]⟩

/-- C1 counterexample: save succeeds as account 3, switching to 2 and
back to 3 both succeed, yet the final live credential text is account
2's archived credential, not the original: 2's archived credential
resolves to the same sub as the new account, so the switch back
archives the live (account-2) credential *under 3* before restoring. -/
theorem C1_roundtrip_cex :
    (saveCurrentAccount "t1".data fsC1cex).2 = .ok (some 3) ∧
    (switchToAccount "t2".data 2 (saveCurrentAccount "t1".data fsC1cex).1).2 = .ok () ∧
    (switchToAccount "t3".data 3 (switchToAccount "t2".data 2
      (saveCurrentAccount "t1".data fsC1cex).1).1).2 = .ok () ∧
    fsC1cex.creds = some ctC1 ∧
    (switchToAccount "t3".data 3 (switchToAccount "t2".data 2
      (saveCurrentAccount "t1".data fsC1cex).1).1).1.creds = some mctC1 ∧
    mctC1 ≠ ctC1 :=
  ⟨rfl, rfl, rfl, rfl, rfl, by decide⟩

/-- Live credential text for the C1 witness (JWT sub `"x"`). -/
def ctC1w : Str := "\x7b\"claudeAiOauth\":\x7b\"accessToken\":\"f.eyJzdWIiOiJ4In0.h\"\x7d\x7d".data

/-- Account 2's archived credential text for the C1 witness (sub `"w"`,
matching account 2's own record). -/
def mctC1w : Str := "\x7b\"claudeAiOauth\":\x7b\"accessToken\":\"g.eyJzdWIiOiJ3In0.i\"\x7d\x7d".data

/-- Registry text for the C1 witness (account 2, sub `"w"`). -/
def regC1w : Str :=
  ("\x7b\"activeAccountNumber\":null,\"accounts\":\x7b\"2\":\x7b\"sub\":\"w\"\x7d\x7d," ++
   "\"sequence\":[]\x7d").data

/-- The C1 witness registry document's entries. -/
def dkvsC1w : List (Str × JVal) :=
  [("activeAccountNumber".data, .null),
   ("accounts".data, .obj [("2".data, .obj [("sub".data, .str "w".data)])]),
   ("sequence".data, .arr [])]

/-- The C1 witness accounts entries. -/
def akvsC1w : List (Str × JVal) := [("2".data, .obj [("sub".data, .str "w".data)])]

/-- Live config text for the C1 witness. -/
def cfgC1w : Str := "\x7b\"oauthAccount\":\x7b\"a\":1\x7d,\"u\":7\x7d".data

/-- The C1 witness live config entries. -/
def ckvsC1w : List (Str × JVal) :=
  [("oauthAccount".data, .obj [("a".data, .num 1)]), ("u".data, .num 7)]

/-- Account 2's archived config text for the C1 witness. -/
def tf2C1w : Str := "\x7b\"oauthAccount\":\x7b\"m\":2\x7d\x7d".data

/-- The C1 witness archived `oauthAccount` of account 2. -/
def oMC1w : JVal := .obj [("m".data, .num 2)]

/-- The C1 witness original live `oauthAccount`. -/
def o0C1w : JVal := .obj [("a".data, .num 1)]

/-- C1 witness state. -/
def fsC1w : FS := ⟨some ctC1w, none, some cfgC1w, some regC1w,
  [(".creds-2.enc".data, b64EncodeStr mctC1w)],
  [(".claude-config-2.json".data, tf2C1w)]⟩

/-- C1 witness: the amended round-trip theorem applies to a concrete
save/switch/switch-back sequence. -/
theorem C1_roundtrip_witness :
    (saveCurrentAccount "t1".data fsC1w).2 = .ok (some 3) ∧
    (switchToAccount "t2".data 2 (saveCurrentAccount "t1".data fsC1w).1).2 = .ok () ∧
    (switchToAccount "t3".data 3 (switchToAccount "t2".data 2
      (saveCurrentAccount "t1".data fsC1w).1).1).2 = .ok () ∧
    (switchToAccount "t3".data 3 (switchToAccount "t2".data 2
      (saveCurrentAccount "t1".data fsC1w).1).1).1.creds = fsC1w.creds ∧
    cfgRead (switchToAccount "t3".data 3 (switchToAccount "t2".data 2
        (saveCurrentAccount "t1".data fsC1w).1).1).1 (getConfigPath fsC1w) =
      some (jsonStringify (setMemberJ (setMemberJ (.obj ckvsC1w) "oauthAccount" oMC1w)
        "oauthAccount" o0C1w)) ∧
    getMember (setMemberJ (setMemberJ (.obj ckvsC1w) "oauthAccount" oMC1w)
      "oauthAccount" o0C1w) "oauthAccount" = some o0C1w ∧
    (∀ k : String, k.data ≠ "oauthAccount".data →
       getMember (setMemberJ (setMemberJ (.obj ckvsC1w) "oauthAccount" oMC1w)
         "oauthAccount" o0C1w) k = getMember (.obj ckvsC1w) k) :=
  C1_roundtrip_amended "t1".data "t2".data "t3".data 2 3 fsC1w ctC1w regC1w cfgC1w
    mctC1w tf2C1w dkvsC1w akvsC1w ckvsC1w [] (.str "f.eyJzdWIiOiJ4In0.h".data)
    (.str "(unknown)".data)
    (.obj [("sub".data, .str "w".data)])
    (.obj [("oauthAccount".data, .obj [("m".data, .num 2)])])
    oMC1w o0C1w "x".data "w".data
    rfl rfl (by decide) (by decide) (by decide) (by decide) (by decide) (by decide)
    (by decide) rfl
    (by decide) (by decide) (by decide) (by decide) (by decide) (by decide) rfl
    (by decide) (by decide) (by decide) rfl (by decide) (by decide) (by decide)
    (by decide) (by decide) (by decide) (by decide) (by decide) (by decide)

end SwapCore
